import Mathlib

/-!
# NetAuth: hook chains and the entity manager

A shallow embedding of
* `internal/tree/entity-chains.go` (hook registry, chain assembly, chain execution),
* `internal/entity_manager/entity.go` (entity creation, secrets, capabilities,
  metadata update, bootstrap),
* `internal/tree/hooks/set-entity-number.go`, `set-entity-capability.go` and
  `destroy-entity.go`,
* `internal/rpc2/entity.go` (the facade methods `EntityUM` and `EntityKeys`),
together with the properties the specification states about them.  The hook
`check-expansion-cycles`, whose code is not among the sources, is modelled from
the specification and checked against its test file.

A function that can panic at run time (a nil pointer, an index out of range)
returns an `Option`; `none` is the panic.

Go maps are modelled in two ways.  A map that the code only indexes and assigns
(`entityHooks`, `entityProcesses`) is a function `String → Option V`; `none` is an
absent key.  A map that the code ranges over (`eHookConstructors`, a `ChainConfig`,
`defaultEntityChains`) is a list of key/value pairs; the list order stands for the
order in which one `range` loop happens to visit the entries, and every theorem is
stated for an arbitrary list, hence for every visiting order.
-/

namespace NetAuth

/-- Error values returned by the code under study. `other` stands for any error
that comes from a collaborator (storage, crypto, a hook). -/
inductive Error where
  | ErrUnknownHook
  | ErrUnknownHookChain
  | ErrEmptyHookChain
  | ErrUnknownCapability
  | E_DUPLICATE_ID
  | E_DUPLICATE_UIDNUMBER
  | E_NO_ENTITY
  | E_ENTITY_BADAUTH
  | ErrUnknownEntity
  | ErrUnknownGroup
  | ErrExistingExpansion
  | ErrMalformedRequest
  | ErrReadOnly
  | ErrDoesNotExist
  | ErrInternal
  | other (msg : String)
  deriving DecidableEq, Repr

/-- The protobuf message `pb.EntityMeta` (fields used by the code under study).
Capabilities are the numeric values of the `pb.Capability` enumeration. -/
structure EntityMeta where
  GECOS : Option String := none
  LegalName : Option String := none
  DisplayName : Option String := none
  Groups : List String := []
  Capabilities : List Int := []
  Keys : List String := []
  deriving DecidableEq, Repr

/-- The protobuf message `pb.Entity`. Every field is a pointer in Go, so every
field is optional here; `Number` is the field the older package calls `UidNumber`. -/
structure Entity where
  ID : Option String := none
  Number : Option Int := none
  Secret : Option String := none
  Meta : Option EntityMeta := none
  deriving DecidableEq, Repr

/-- The getter `GetID`: the empty string when the field is unset. -/
def Entity.GetID (e : Entity) : String := e.ID.getD ""

/-- The getter `GetNumber`: zero when the field is unset. -/
def Entity.GetNumber (e : Entity) : Int := e.Number.getD 0

/-- The getter `GetSecret`: the empty string when the field is unset. -/
def Entity.GetSecret (e : Entity) : String := e.Secret.getD ""

/-- The outcome of one `Run(ctx, e, de)` call: the world the hook leaves behind
(storage and whatever else it reaches through its collaborators), the working
record as the hook left it, and the returned error (`none` is Go's `nil`). -/
structure RunResult (σ : Type) where
  world : σ
  working : Entity
  err : Option Error

/-- The interface `EntityHook`. `Run` receives the working record `e` and the
delta `de`; it may change `e` and the world, and reads `de`. -/
structure EntityHook (σ : Type) where
  Priority : Int
  Name : String
  Run : σ → Entity → Entity → RunResult σ

/-- The type `EntityHookConstructor`: builds a hook from the reference context
`ρ`, or fails. -/
abbrev EntityHookConstructor (ρ σ : Type) := ρ → Except Error (EntityHook σ)

/-- The type `ChainConfig`, a `map[string][]string` that the code ranges over. -/
abbrev ChainConfig := List (String × List String)

/-- The fields of `tree.Manager` that the entity chain code uses. -/
structure Manager (ρ σ : Type) where
  refContext : ρ
  entityHooks : String → Option (EntityHook σ)
  entityProcesses : String → Option (List (EntityHook σ))

/-- Go's `m[k] = v` on a map that is only indexed. -/
def mapSet {V : Type} (m : String → Option V) (k : String) (v : V) : String → Option V :=
  fun k' => if k' = k then some v else m k'

/-- Go's `m.entityProcesses[chain]` used as a value: the nil slice when the key
is absent. -/
def Manager.chain {ρ σ : Type} (m : Manager ρ σ) (chain : String) : List (EntityHook σ) :=
  (m.entityProcesses chain).getD []

/-! ## Chain execution -/

/-- What `RunEntityChain` leaves behind: the world after the last hook that ran,
the names logged by `Executing entity hook` (one per hook whose `Run` was
invoked, in order), and the returned pair `(*pb.Entity, error)`. -/
structure ChainResult (σ : Type) where
  world : σ
  executed : List String
  entity : Option Entity
  err : Option Error

/-- The loop `for _, h := range hookChain` of `RunEntityChain`, started with
world `s`, working record `e` and the names logged so far. -/
def runHookLoop {σ : Type} (de : Entity) :
    List (EntityHook σ) → σ → Entity → List String → ChainResult σ
  | [], s, e, log => { world := s, executed := log, entity := some e, err := none }
  | h :: rest, s, e, log =>
    let r := h.Run s e de
    match r.err with
    | some err => { world := r.world, executed := log ++ [h.Name], entity := none, err := some err }
    | none => runHookLoop de rest r.world r.working (log ++ [h.Name])

/-- The method `Manager.RunEntityChain`. -/
def RunEntityChain {ρ σ : Type} (m : Manager ρ σ) (s : σ) (chain : String) (de : Entity) :
    ChainResult σ :=
  runHookLoop de (m.chain chain) s {} []

/-- One step of the fold the specification describes: run a hook on the current
world and working record, keep what it leaves. -/
def applyHook {σ : Type} (de : Entity) (acc : σ × Entity) (h : EntityHook σ) : σ × Entity :=
  ((h.Run acc.1 acc.2 de).world, (h.Run acc.1 acc.2 de).working)

/-- The left fold of `applyHook` over a list of hooks. -/
def foldHooks {σ : Type} (de : Entity) (hooks : List (EntityHook σ)) (acc : σ × Entity) :
    σ × Entity :=
  hooks.foldl (applyHook de) acc

/-- The `Run` call made on hook number `k` of the list when every hook before it
is applied first, or `none` when the list has no hook number `k`. -/
def runAt {σ : Type} (de : Entity) (hooks : List (EntityHook σ)) (acc : σ × Entity) (k : Nat) :
    Option (RunResult σ) :=
  match hooks[k]? with
  | some h => some (h.Run (foldHooks de (hooks.take k) acc).1 (foldHooks de (hooks.take k) acc).2 de)
  | none => none

/-! ## `sort.Slice`

The code sorts a chain with `sort.Slice` from Go's standard library. This section
follows the library's `zsortfunc.go`: a slice is a list, `data.Less` and
`data.Swap` act on positions. -/

/-- The call `data.Less(i, j)`: the caller's `less` applied to the elements now at
positions `i` and `j`. -/
def lessAt {α : Type} (less : α → α → Bool) (data : List α) (i j : Nat) : Bool :=
  match data[i]?, data[j]? with
  | some x, some y => less x y
  | _, _ => false

/-- The call `data.Swap(i, j)`. -/
def swapAt {α : Type} (data : List α) (i j : Nat) : List α :=
  match data[i]?, data[j]? with
  | some x, some y => (data.set i y).set j x
  | _, _ => data

/-- Inner loop of `insertionSort_func`: `for j := i; j > a && data.Less(j, j-1); j--`
swapping `j` and `j-1`; the first argument is `j`. -/
def insertionInner {α : Type} (less : α → α → Bool) (a : Nat) : Nat → List α → List α
  | 0, data => data
  | j + 1, data =>
    if a < j + 1 && lessAt less data (j + 1) j then insertionInner less a j (swapAt data (j + 1) j)
    else data

/-- Outer loop of `insertionSort_func`: `for i := a + 1; i < b; i++`; the first
argument counts the iterations left. -/
def insertionOuter {α : Type} (less : α → α → Bool) (a b : Nat) : Nat → Nat → List α → List α
  | 0, _, data => data
  | n + 1, i, data =>
    if i < b then insertionOuter less a b n (i + 1) (insertionInner less a i data) else data

/-- Go's `insertionSort_func`: sorts `data[a:b]` by insertion. -/
def insertionSort_func {α : Type} (less : α → α → Bool) (data : List α) (a b : Nat) : List α :=
  insertionOuter less a b (b - (a + 1)) (a + 1) data

/-- The loop of `siftDown_func`, with `root` as the running index; the first
argument bounds the iterations (`root` grows at each one and stays below `hi`). -/
def siftDownLoop {α : Type} (less : α → α → Bool) (hi first : Nat) : Nat → Nat → List α → List α
  | 0, _, data => data
  | fuel + 1, root, data =>
    let child := 2 * root + 1
    if hi ≤ child then data
    else
      let child := if child + 1 < hi && lessAt less data (first + child) (first + child + 1)
        then child + 1 else child
      if !lessAt less data (first + root) (first + child) then data
      else siftDownLoop less hi first fuel child (swapAt data (first + root) (first + child))

/-- Go's `siftDown_func`. -/
def siftDown_func {α : Type} (less : α → α → Bool) (data : List α) (lo hi first : Nat) : List α :=
  siftDownLoop less hi first hi lo data

/-- First loop of `heapSort_func`: `for i := (hi - 1) / 2; i >= 0; i--`. -/
def heapBuild {α : Type} (less : α → α → Bool) (hi first : Nat) : Nat → List α → List α
  | 0, data => siftDown_func less data 0 hi first
  | i + 1, data => heapBuild less hi first i (siftDown_func less data (i + 1) hi first)

/-- Second loop of `heapSort_func`: `for i := hi - 1; i >= 0; i--`; the first
argument is `i + 1`. -/
def heapPop {α : Type} (less : α → α → Bool) (first : Nat) : Nat → List α → List α
  | 0, data => data
  | n + 1, data => heapPop less first n (siftDown_func less (swapAt data first (first + n)) 0 n first)

/-- Go's `heapSort_func`. -/
def heapSort_func {α : Type} (less : α → α → Bool) (data : List α) (a b : Nat) : List α :=
  let first := a
  let hi := b - a
  heapPop less first hi (heapBuild less hi first ((hi - 1) / 2) data)

/-- Bit length by repeated halving; the first argument bounds the iterations. -/
def bitsLenAux : Nat → Nat → Nat
  | 0, _ => 0
  | fuel + 1, n => if n = 0 then 0 else 1 + bitsLenAux fuel (n / 2)

/-- Go's `bits.Len`: the number of bits needed to write `n`. -/
def bitsLen (n : Nat) : Nat := bitsLenAux n n

/-- The method `xorshift.Next` on a 64-bit state. -/
def xorshiftNext (r : Nat) : Nat :=
  let r := (r ^^^ (r <<< 13)) % 2 ^ 64
  let r := r ^^^ (r >>> 7)
  (r ^^^ (r <<< 17)) % 2 ^ 64

/-- Go's `nextPowerOfTwo`. -/
def nextPowerOfTwo (length : Nat) : Nat := 2 ^ bitsLen length

/-- The loop `for i := 0; i < 3; i++` of `breakPatterns_func`. -/
def breakLoop {α : Type} (a length modulus idx : Nat) : Nat → Nat → Nat → List α → List α
  | 0, _, _, data => data
  | n + 1, i, random, data =>
    let random := xorshiftNext random
    let other := random % modulus
    let other := if length ≤ other then other - length else other
    breakLoop a length modulus idx n (i + 1) random (swapAt data (idx - 1 + i) (a + other))

/-- Go's `breakPatterns_func`. -/
def breakPatterns_func {α : Type} (data : List α) (a b : Nat) : List α :=
  let length := b - a
  if 8 ≤ length then
    breakLoop a length (nextPowerOfTwo length) (a + (length / 4) * 2 - 1) 3 0 length data
  else data

/-- Go's `sortedHint`. -/
inductive sortedHint where
  | unknownHint | increasingHint | decreasingHint
  deriving DecidableEq, Repr

/-- Go's `order2_func`; the swap counter is passed and returned. -/
def order2_func {α : Type} (less : α → α → Bool) (data : List α) (a b swaps : Nat) : Nat × Nat × Nat :=
  if lessAt less data b a then (b, a, swaps + 1) else (a, b, swaps)

/-- Go's `median_func`; the swap counter is passed and returned. -/
def median_func {α : Type} (less : α → α → Bool) (data : List α) (a b c swaps : Nat) : Nat × Nat :=
  let (a, b, swaps) := order2_func less data a b swaps
  let (b, _, swaps) := order2_func less data b c swaps
  let (_, b, swaps) := order2_func less data a b swaps
  (b, swaps)

/-- Go's `medianAdjacent_func`. -/
def medianAdjacent_func {α : Type} (less : α → α → Bool) (data : List α) (a swaps : Nat) : Nat × Nat :=
  median_func less data (a - 1) a (a + 1) swaps

/-- Go's `choosePivot_func`. -/
def choosePivot_func {α : Type} (less : α → α → Bool) (data : List α) (a b : Nat) : Nat × sortedHint :=
  let l := b - a
  let i := a + l / 4 * 1
  let j := a + l / 4 * 2
  let k := a + l / 4 * 3
  let (j, swaps) :=
    if 8 ≤ l then
      let (i, j, k, swaps) :=
        if 50 ≤ l then
          let (i, swaps) := medianAdjacent_func less data i 0
          let (j, swaps) := medianAdjacent_func less data j swaps
          let (k, swaps) := medianAdjacent_func less data k swaps
          (i, j, k, swaps)
        else (i, j, k, 0)
      median_func less data i j k swaps
    else (j, 0)
  if swaps = 0 then (j, .increasingHint)
  else if swaps = 12 then (j, .decreasingHint)
  else (j, .unknownHint)

/-- The loop `for i < j` of `reverseRange_func`. -/
def reverseLoop {α : Type} : Nat → Nat → Nat → List α → List α
  | 0, _, _, data => data
  | fuel + 1, i, j, data => if i < j then reverseLoop fuel (i + 1) (j - 1) (swapAt data i j) else data

/-- Go's `reverseRange_func`. -/
def reverseRange_func {α : Type} (data : List α) (a b : Nat) : List α :=
  reverseLoop (b - a) a (b - 1) data

/-- A loop `for i <= j && cond(i) { i++ }`; returns the final `i`. The first
argument bounds the iterations. -/
def scanUp (cond : Nat → Bool) (j : Nat) : Nat → Nat → Nat
  | 0, i => i
  | fuel + 1, i => if i ≤ j && cond i then scanUp cond j fuel (i + 1) else i

/-- A loop `for i <= j && cond(j) { j-- }`; returns the final `j`. The callers
have `i ≥ 1`, so `j` never passes below zero. -/
def scanDown (cond : Nat → Bool) (i : Nat) : Nat → Nat
  | 0 => 0
  | j + 1 => if i ≤ j + 1 && cond (j + 1) then scanDown cond i j else j + 1

/-- The loop `for j := i - 1; j >= 1; j--` of `partialInsertionSort_func`. -/
def shiftLeftLoop {α : Type} (less : α → α → Bool) : Nat → List α → List α
  | 0, data => data
  | j + 1, data =>
    if !lessAt less data (j + 1) j then data else shiftLeftLoop less j (swapAt data (j + 1) j)

/-- The loop `for j := i + 1; j < b; j++` of `partialInsertionSort_func`. -/
def shiftRightLoop {α : Type} (less : α → α → Bool) (b : Nat) : Nat → Nat → List α → List α
  | 0, _, data => data
  | fuel + 1, j, data =>
    if j < b then
      if !lessAt less data j (j - 1) then data
      else shiftRightLoop less b fuel (j + 1) (swapAt data j (j - 1))
    else data

/-- The loop `for j := 0; j < maxSteps; j++` of `partialInsertionSort_func`. -/
def partialLoop {α : Type} (less : α → α → Bool) (a b : Nat) : Nat → Nat → List α → List α × Bool
  | 0, _, data => (data, false)
  | steps + 1, i, data =>
    let i := scanUp (fun i => !lessAt less data i (i - 1)) (b - 1) (b - i) i
    if i = b then (data, true)
    else if b - a < 50 then (data, false)
    else
      let data := swapAt data i (i - 1)
      let data := if 2 ≤ i - a then shiftLeftLoop less (i - 1) data else data
      let data := if 2 ≤ b - i then shiftRightLoop less b (b - (i + 1)) (i + 1) data else data
      partialLoop less a b steps i data

/-- Go's `partialInsertionSort_func`; returns the data and the reported flag. -/
def partialInsertionSort_func {α : Type} (less : α → α → Bool) (data : List α) (a b : Nat) : List α × Bool :=
  partialLoop less a b 5 (a + 1) data

/-- The main loop of `partitionEqual_func`. -/
def partitionEqualLoop {α : Type} (less : α → α → Bool) (a : Nat) : Nat → Nat → Nat → List α → List α × Nat
  | 0, i, _, data => (data, i)
  | fuel + 1, i, j, data =>
    let i := scanUp (fun i => !lessAt less data a i) j (j + 1 - i) i
    let j := scanDown (fun j => lessAt less data a j) i j
    if j < i then (data, i)
    else partitionEqualLoop less a fuel (i + 1) (j - 1) (swapAt data i j)

/-- Go's `partitionEqual_func`; returns the data and the new pivot index. -/
def partitionEqual_func {α : Type} (less : α → α → Bool) (data : List α) (a b pivot : Nat) : List α × Nat :=
  let data := swapAt data a pivot
  partitionEqualLoop less a (b - a) (a + 1) (b - 1) data

/-- The second (unbounded) loop of `partition_func`. -/
def partitionLoop {α : Type} (less : α → α → Bool) (a : Nat) : Nat → Nat → Nat → List α → List α × Nat
  | 0, _, j, data => (data, j)
  | fuel + 1, i, j, data =>
    let i := scanUp (fun i => lessAt less data i a) j (j + 1 - i) i
    let j := scanDown (fun j => !lessAt less data j a) i j
    if j < i then (data, j)
    else partitionLoop less a fuel (i + 1) (j - 1) (swapAt data i j)

/-- Go's `partition_func`; returns the data, the new pivot index and
`alreadyPartitioned`. -/
def partition_func {α : Type} (less : α → α → Bool) (data : List α) (a b pivot : Nat) : List α × Nat × Bool :=
  let data := swapAt data a pivot
  let i := scanUp (fun i => lessAt less data i a) (b - 1) (b - (a + 1)) (a + 1)
  let j := scanDown (fun j => !lessAt less data j a) i (b - 1)
  if j < i then (swapAt data j a, j, true)
  else
    let data := swapAt data i j
    let (data, j) := partitionLoop less a (b - a) (i + 1) (j - 1) data
    (swapAt data j a, j, false)

/-- Go's `pdqsort_func` on `data[a:b]`. The loop of the Go function and its
recursive calls both work on a strictly shorter range each time, so the first
argument, taken as `b - a + 1` by the caller, is never exhausted. The two
booleans are the locals `wasBalanced` and `wasPartitioned`. -/
def pdqsort_func {α : Type} (less : α → α → Bool) :
    Nat → List α → Nat → Nat → Nat → Bool → Bool → List α
  | 0, data, _, _, _, _, _ => data
  | fuel + 1, data, a, b, limit, wasBalanced, wasPartitioned =>
    let length := b - a
    if length ≤ 12 then insertionSort_func less data a b
    else if limit = 0 then heapSort_func less data a b
    else
      let data := if !wasBalanced then breakPatterns_func data a b else data
      let limit := if !wasBalanced then limit - 1 else limit
      let ph := choosePivot_func less data a b
      let data := if ph.2 = .decreasingHint then reverseRange_func data a b else data
      let pivot := if ph.2 = .decreasingHint then (b - 1) - (ph.1 - a) else ph.1
      let hint := if ph.2 = .decreasingHint then sortedHint.increasingHint else ph.2
      let pis := if wasBalanced && wasPartitioned && hint = .increasingHint
        then partialInsertionSort_func less data a b else (data, false)
      if pis.2 then pis.1
      else
        let data := pis.1
        if 0 < a && !lessAt less data (a - 1) pivot then
          let pe := partitionEqual_func less data a b pivot
          pdqsort_func less fuel pe.1 pe.2 b limit wasBalanced wasPartitioned
        else
          let p := partition_func less data a b pivot
          let mid := p.2.1
          let leftLen := mid - a
          let rightLen := b - mid
          let balanceThreshold := length / 8
          if leftLen < rightLen then
            pdqsort_func less fuel (pdqsort_func less fuel p.1 a mid limit true true)
              (mid + 1) b limit (decide (balanceThreshold ≤ leftLen)) p.2.2
          else
            pdqsort_func less fuel (pdqsort_func less fuel p.1 (mid + 1) b limit true true)
              a mid limit (decide (balanceThreshold ≤ rightLen)) p.2.2

/-- Go's `sort.Slice(x, less)` as the standard library implements it
(pattern-defeating quicksort, since Go 1.19). -/
def goSortSlice {α : Type} (less : α → α → Bool) (x : List α) : List α :=
  pdqsort_func less (x.length + 1) x 0 x.length (bitsLen x.length) true true

/-! ## Hook registry and chain assembly -/

/-- The process-wide map `eHookConstructors`, which `InitializeEntityHooks`
ranges over. -/
abbrev Registry (ρ σ : Type) := List (String × EntityHookConstructor ρ σ)

/-- The function `RegisterEntityHookConstructor`, acting on `eHookConstructors`. -/
def RegisterEntityHookConstructor {ρ σ : Type} (eHookConstructors : Registry ρ σ)
    (name : String) (c : EntityHookConstructor ρ σ) : Registry ρ σ :=
  match eHookConstructors.lookup name with
  | some _ => eHookConstructors
  | none => eHookConstructors ++ [(name, c)]

/-- The method `Manager.InitializeEntityHooks`: the loop over `eHookConstructors`. -/
def InitializeEntityHooks {ρ σ : Type} : Registry ρ σ → Manager ρ σ → Manager ρ σ
  | [], m => m
  | (_, v) :: rest, m =>
    match v m.refContext with
    | .error _ => InitializeEntityHooks rest m
    | .ok hook =>
      InitializeEntityHooks rest { m with entityHooks := mapSet m.entityHooks hook.Name hook }

/-- The hooks that the constructors of a registry build without error, in the
order the registry is visited. -/
def builtHooks {ρ σ : Type} (reg : Registry ρ σ) (ctx : ρ) : List (EntityHook σ) :=
  reg.filterMap (fun p => match p.2 ctx with
    | .ok hook => some hook
    | .error _ => none)

/-- The comparison `func(i, j int) bool` that `RegisterEntityHookToChain` hands
to `sort.Slice`. -/
def priorityLess {σ : Type} (a b : EntityHook σ) : Bool := decide (a.Priority < b.Priority)

/-- The method `Manager.RegisterEntityHookToChain`. The library function
`sort.Slice` is the parameter `sortSlice`. -/
def RegisterEntityHookToChain {ρ σ : Type}
    (sortSlice : (EntityHook σ → EntityHook σ → Bool) → List (EntityHook σ) → List (EntityHook σ))
    (m : Manager ρ σ) (hook chain : String) : Manager ρ σ × Option Error :=
  match m.entityHooks hook with
  | none => (m, some Error.ErrUnknownHook)
  | some eph =>
    ({ m with entityProcesses :=
        mapSet m.entityProcesses chain (sortSlice priorityLess (m.chain chain ++ [eph])) }, none)

/-- The inner loop `for _, h := range hooks` of `InitializeEntityChains`. -/
def registerHooks {ρ σ : Type}
    (sortSlice : (EntityHook σ → EntityHook σ → Bool) → List (EntityHook σ) → List (EntityHook σ))
    (chain : String) : List String → Manager ρ σ → Manager ρ σ × Option Error
  | [], m => (m, none)
  | h :: hooks, m =>
    match RegisterEntityHookToChain sortSlice m h chain with
    | (m', none) => registerHooks sortSlice chain hooks m'
    | (m', some err) => (m', some err)

/-- The method `Manager.InitializeEntityChains`. -/
def InitializeEntityChains {ρ σ : Type}
    (sortSlice : (EntityHook σ → EntityHook σ → Bool) → List (EntityHook σ) → List (EntityHook σ)) :
    Manager ρ σ → ChainConfig → Manager ρ σ × Option Error
  | m, [] => (m, none)
  | m, (chain, hooks) :: rest =>
    match registerHooks sortSlice chain hooks m with
    | (m', none) => InitializeEntityChains sortSlice m' rest
    | (m', some err) => (m', some err)

/-- The method `Manager.CheckRequiredEntityChains`: the loop over the keys of
`defaultEntityChains`, a package variable that is given here as a parameter. -/
def CheckRequiredEntityChains {ρ σ : Type} (m : Manager ρ σ) :
    ChainConfig → Manager ρ σ × Option Error
  | [] => (m, none)
  | (k, _) :: rest =>
    match m.entityProcesses k with
    | none => (m, some Error.ErrUnknownHookChain)
    | some l =>
      if l.length = 0 then (m, some Error.ErrEmptyHookChain)
      else CheckRequiredEntityChains m rest

/-- What the documentation of `sort.Slice` promises for the comparison used
here ("Slice sorts the slice x given the provided less function"): the result
is a rearrangement of the input in which no element is followed by one of
lower priority. The documentation adds that the sort is not guaranteed to be
stable. -/
def SortsByPriority {σ : Type}
    (sortSlice : (EntityHook σ → EntityHook σ → Bool) → List (EntityHook σ) → List (EntityHook σ)) :
    Prop :=
  ∀ l : List (EntityHook σ),
    (sortSlice priorityLess l).Perm l ∧
    (sortSlice priorityLess l).Pairwise (fun a b => a.Priority ≤ b.Priority)

/-- The hooks a list of names stands for in the hook map (unknown names are
skipped). -/
def namedHooks {σ : Type} (hooks : String → Option (EntityHook σ)) (names : List String) :
    List (EntityHook σ) :=
  names.filterMap hooks

/-- Ties keep the listed order: for every priority, the hooks of that priority
appear in the assembled chain in the order in which they are listed. -/
def TiesKeepOrder {σ : Type} (assembled listed : List (EntityHook σ)) : Prop :=
  ∀ p : Int, assembled.filter (fun h => decide (h.Priority = p)) =
    listed.filter (fun h => decide (h.Priority = p))

/-- A sort by ordered insertion, an element going before the first one that is
not less than it: one function that meets the promise of `sort.Slice`. -/
def insertionSortSlice {α : Type} (less : α → α → Bool) (x : List α) : List α :=
  x.insertionSort (fun a b => less b a = false)

/-! ## Sample data -/

/-- A hook over the trivial world that leaves the working record alone. -/
def nullHook (name : String) (priority : Int) : EntityHook Unit :=
  { Priority := priority, Name := name, Run := fun s e _ => { world := s, working := e, err := none } }

/-- A hook over the trivial world that fails with the given error. -/
def failingHook (name : String) (priority : Int) (err : Error) : EntityHook Unit :=
  { Priority := priority, Name := name, Run := fun s e _ => { world := s, working := e, err := some err } }

/-- A hook over the trivial world that writes the delta's number into the
working record. -/
def copyNumberHook (name : String) (priority : Int) : EntityHook Unit :=
  { Priority := priority, Name := name,
    Run := fun s e de => { world := s, working := { e with Number := de.Number }, err := none } }

/-- A manager with one chain `RUN` of three hooks, the second of which fails,
and one chain `OK` of two hooks that succeed. -/
def sampleManager : Manager Unit Unit :=
  { refContext := (),
    entityHooks := fun _ => none,
    entityProcesses := fun name =>
      if name = "RUN" then
        some [copyNumberHook "first" 10, failingHook "second" 20 (Error.other "boom"),
          nullHook "third" 30]
      else if name = "OK" then some [copyNumberHook "first" 10, nullHook "third" 30]
      else none }

/-- A manager whose chain map holds a one-hook chain `CREATE`, an empty chain
`FETCH`, and nothing under any other name. -/
def partialManager : Manager Unit Unit :=
  { refContext := (),
    entityHooks := fun name => if name = "null-hook" then some (nullHook "null-hook" 50) else none,
    entityProcesses := fun name =>
      if name = "CREATE" then some [nullHook "null-hook" 50]
      else if name = "FETCH" then some []
      else none }

/-- A constructor that builds the null hook of the given name and priority. -/
def goodEntityConstructor (name : String) (priority : Int) : EntityHookConstructor Unit Unit :=
  fun _ => Except.ok (nullHook name priority)

/-- A constructor that fails. -/
def badEntityConstructor : EntityHookConstructor Unit Unit :=
  fun _ => Except.error (Error.other "initialization error")

/-- A manager with empty maps. -/
def emptyManager : Manager Unit Unit :=
  { refContext := (), entityHooks := fun _ => none, entityProcesses := fun _ => none }

/-- A registry in which two constructors build hooks of the same name `x`. -/
def collidingRegistry : Registry Unit Unit :=
  [("a", goodEntityConstructor "x" 1), ("b", goodEntityConstructor "x" 2)]

/-- A registry with a good constructor, a failing one, and another good one. -/
def mixedRegistry : Registry Unit Unit :=
  [("null-hook", goodEntityConstructor "null-hook" 50), ("bad-hook", badEntityConstructor),
    ("null-hook2", goodEntityConstructor "null-hook2" 40)]

/-- What claim C9 says of one registry and manager: every constructor that
returns a hook without error has that hook stored under the hook's name. -/
def StoresEveryBuiltHook {ρ σ : Type} (reg : Registry ρ σ) (m : Manager ρ σ) : Prop :=
  ∀ p ∈ reg, ∀ hook, p.2 m.refContext = Except.ok hook →
    (InitializeEntityHooks reg m).entityHooks hook.Name = some hook

/-- The chain that results from registering the hooks `listed` one after the
other onto the chain `start`: each registration appends and sorts. -/
def assemble {σ : Type}
    (sortSlice : (EntityHook σ → EntityHook σ → Bool) → List (EntityHook σ) → List (EntityHook σ))
    (start listed : List (EntityHook σ)) : List (EntityHook σ) :=
  listed.foldl (fun acc h => sortSlice priorityLess (acc ++ [h])) start

/-- A manager that knows two hooks and has no chain yet. -/
def twoHookManager : Manager Unit Unit :=
  { refContext := (),
    entityHooks := fun name =>
      if name = "null-hook" then some (nullHook "null-hook" 50)
      else if name = "null-hook2" then some (nullHook "null-hook2" 40)
      else none,
    entityProcesses := fun _ => none }

/-- Insertion of `x` at the right end of a sorted prefix that is given in
reverse order: `x` moves past the elements it is less than. -/
def bubble {α : Type} (less : α → α → Bool) (x : α) : List α → List α
  | [] => [x]
  | y :: ys => if less x y then y :: bubble less x ys else x :: y :: ys

/-- Insertion sort on lists: the elements of the second list are inserted one
by one, from the right, into the prefix. -/
def insertFold {α : Type} (less : α → α → Bool) (sortedPrefix : List α) : List α → List α
  | [] => sortedPrefix
  | x :: rest => insertFold less (bubble less x sortedPrefix.reverse).reverse rest

/-- What claim C4 says of one manager and configuration, with Go's `sort.Slice`:
in every chain of the configuration, hooks of equal priority stand in the
order in which the configuration lists them. -/
def AssemblyKeepsTieOrder {ρ σ : Type} (m : Manager ρ σ) (c : ChainConfig) : Prop :=
  ∀ p ∈ c, TiesKeepOrder ((InitializeEntityChains goSortSlice m c).1.chain p.1)
    (namedHooks m.entityHooks p.2)

/-- Thirteen hook names: `h0` to `h11` and `n`. -/
def thirteenNames : List String :=
  ["h0", "h1", "h2", "h3", "h4", "h5", "h6", "h7", "h8", "h9", "h10", "h11", "n"]

/-- A manager whose hook map holds `h0`..`h11` at priority 50 and `n` at
priority 40, and that has no chain yet. -/
def thirteenManager : Manager Unit Unit :=
  { refContext := (),
    entityHooks := fun name =>
      if name = "n" then some (nullHook "n" 40)
      else if name ∈ thirteenNames then some (nullHook name 50) else none,
    entityProcesses := fun _ => none }

/-- A configuration with one chain that lists the thirteen hooks. -/
def thirteenConfig : ChainConfig := [("TEST", thirteenNames)]

/-! ## Entity manager -/

/-- Modelled from the spec: the contents of the storage driver behind
`emds.db` (the drivers are not among the sources). Storage is key-addressed:
a store is the collection of saved entities, looked up by ID or by number. -/
abbrev Store := List Entity

/-- Modelled from the spec: the driver operation `LoadEntity(id)`; it fails when
no stored entity has the ID. -/
def LoadEntity (db : Store) (ID : String) : Except Error Entity :=
  match db.find? (fun e => decide (e.GetID = ID)) with
  | some e => Except.ok e
  | none => Except.error Error.E_NO_ENTITY

/-- Modelled from the spec: the driver operation `LoadEntityNumber(n)`; it fails
when no stored entity has the number. -/
def LoadEntityNumber (db : Store) (n : Int) : Except Error Entity :=
  match db.find? (fun e => decide (e.GetNumber = n)) with
  | some e => Except.ok e
  | none => Except.error Error.E_NO_ENTITY

/-- Modelled from the spec: what a successful `SaveEntity(e)` does to the store;
the entity takes the place of any stored entity with the same ID. -/
def upsert (db : Store) (e : Entity) : Store :=
  db.filter (fun x => decide (x.GetID ≠ e.GetID)) ++ [e]

/-- The collaborators of `EMDataStore` whose code is not among the sources, taken
as parameters: the number allocator `nextUIDNumber` (it reads the store), the
crypto primitive, and `saveError`, which tells when the driver refuses a write
(`none`: the write goes through). -/
structure Collaborators where
  nextUIDNumber : Store → Except Error Int
  SecureSecret : String → Except Error String
  VerifySecret : String → String → Option Error
  saveError : Store → Entity → Option Error

/-- Modelled from the spec: the driver operation `SaveEntity(e)`; a refused write
leaves the store as it was. -/
def SaveEntity (c : Collaborators) (db : Store) (e : Entity) : Store × Option Error :=
  match c.saveError db e with
  | some err => (db, some err)
  | none => (upsert db e, none)

/-- The fields of `EMDataStore` that change: the storage contents and the
bootstrap latch. -/
structure EMDataStore where
  db : Store
  bootstrap_done : Bool
  deriving DecidableEq, Repr

/-- The method `EMDataStore.setEntitySecretByID`. -/
def setEntitySecretByID (c : Collaborators) (emds : EMDataStore) (ID secret : String) :
    EMDataStore × Option Error :=
  match LoadEntity emds.db ID with
  | .error err => (emds, some err)
  | .ok e =>
    match c.SecureSecret secret with
    | .error err => (emds, some err)
    | .ok ssecret =>
      match SaveEntity c emds.db { e with Secret := some ssecret } with
      | (db, some err) => ({ emds with db := db }, some err)
      | (db, none) => ({ emds with db := db }, none)

/-- The method `EMDataStore.newEntity`. -/
def newEntity (c : Collaborators) (emds : EMDataStore) (ID : String) (uidNumber : Int)
    (secret : String) : EMDataStore × Option Error :=
  match LoadEntity emds.db ID with
  | .ok _ => (emds, some Error.E_DUPLICATE_ID)
  | .error _ =>
    match LoadEntityNumber emds.db uidNumber with
    | .ok _ => (emds, some Error.E_DUPLICATE_UIDNUMBER)
    | .error _ =>
      match (if uidNumber = -1 then c.nextUIDNumber emds.db else Except.ok uidNumber) with
      | .error err => (emds, some err)
      | .ok uidNumber =>
        match SaveEntity c emds.db
            { ID := some ID, Number := some uidNumber, Secret := some secret, Meta := some {} } with
        | (db, some err) => ({ emds with db := db }, some err)
        | (db, none) => setEntitySecretByID c { emds with db := db } ID secret

/-- No two stored entities share an ID or a number. -/
def UniqueEntities (db : Store) : Prop :=
  db.Pairwise (fun a b => a.GetID ≠ b.GetID ∧ a.GetNumber ≠ b.GetNumber)

/-- Sample collaborators: the allocator returns one more than the largest stored
number, the crypto primitive prefixes the secret, and no write is refused. -/
def sampleCollaborators : Collaborators :=
  { nextUIDNumber := fun db => Except.ok (db.foldl (fun acc e => max acc e.GetNumber) 0 + 1),
    SecureSecret := fun s => Except.ok ("secured:" ++ s),
    VerifySecret := fun s t => if "secured:" ++ s = t then none else some Error.E_ENTITY_BADAUTH,
    saveError := fun _ _ => none }

/-- The entity `foo` with number 1. -/
def fooEntity : Entity :=
  { ID := some "foo", Number := some 1, Secret := some "secured:", Meta := some {} }

/-- A store that holds the entity `foo`. -/
def sampleStore : EMDataStore :=
  { db := [fooEntity], bootstrap_done := false }

/-! ## Entity manager: secrets and capabilities -/

/-- The method `EMDataStore.ValidateSecret`. The result `none` stands for the
run-time panic of `*e.Secret` on an entity that is stored without a secret. -/
def ValidateSecret (c : Collaborators) (emds : EMDataStore) (ID secret : String) :
    Option (EMDataStore × Option Error) :=
  match LoadEntity emds.db ID with
  | .error err => some (emds, some err)
  | .ok e =>
    match e.Secret with
    | none => none
    | some stored =>
      match c.VerifySecret secret stored with
      | some _ => some (emds, some Error.E_ENTITY_BADAUTH)
      | none => some (emds, none)

/-- The getter chain `e.GetMeta().GetCapabilities()`: the nil slice when the
entity has no metadata. -/
def Entity.GetCapabilities (e : Entity) : List Int :=
  match e.Meta with
  | some m => m.Capabilities
  | none => []

/-- The method `EMDataStore.setEntityCapability`. It works on the entity `e` the
caller holds, so it returns that entity as the call left it, next to the
store and the error. `Capability_value` is the name table of the protocol
package, a parameter; a name that is not in the table yields the zero value.
The result `none` stands for the run-time panic of `e.Meta.Capabilities` on an
entity without metadata. -/
def setEntityCapability (c : Collaborators) (Capability_value : String → Option Int)
    (emds : EMDataStore) (e : Entity) (name : String) :
    Option (EMDataStore × Entity × Option Error) :=
  if name.length = 0 then some (emds, e, none)
  else
    match e.Meta with
    | none => none
    | some m =>
      if (Capability_value name).getD 0 ∈ m.Capabilities then some (emds, e, none)
      else
        match SaveEntity c emds.db
            { e with Meta := some { m with
                Capabilities := m.Capabilities ++ [(Capability_value name).getD 0] } } with
        | (db, some err) =>
          some ({ emds with db := db },
            { e with Meta := some { m with
                Capabilities := m.Capabilities ++ [(Capability_value name).getD 0] } },
            some err)
        | (db, none) =>
          some ({ emds with db := db },
            { e with Meta := some { m with
                Capabilities := m.Capabilities ++ [(Capability_value name).getD 0] } },
            none)

/-! ## Hooks -/

/-- The method `SetEntityNumber.Run`. `NextEntityNumber` is the storage allocator
the hook embeds (`tree.DB`), a parameter that may change the world. -/
def SetEntityNumber.Run {σ : Type} (NextEntityNumber : σ → σ × Except Error Int)
    (s : σ) (e de : Entity) : RunResult σ :=
  if de.GetNumber = -1 then
    match NextEntityNumber s with
    | (s', .error err) => { world := s', working := e, err := some err }
    | (s', .ok n) => { world := s', working := { e with Number := some n }, err := none }
  else { world := s, working := { e with Number := de.Number }, err := none }

/-- The constructor `NewSetEntityNumber`: the hook `set-entity-number` of
priority 50. -/
def NewSetEntityNumber {σ : Type} (NextEntityNumber : σ → σ × Except Error Int) :
    EntityHook σ :=
  { Priority := 50, Name := "set-entity-number", Run := SetEntityNumber.Run NextEntityNumber }

/-- The method `SetEntityCapability.Run(e, de)`; it returns the working record
as the call left it and the error. The result `none` stands for a run-time
panic: the index `[0]` into an empty list, or `e.Meta.Capabilities` on an
entity without metadata. -/
def SetEntityCapability.Run (e de : Entity) : Option (Entity × Option Error) :=
  match de.GetCapabilities with
  | [] => none
  | cap :: _ =>
    match e.Meta with
    | none => none
    | some m =>
      let ncaps := m.Capabilities.filter (fun a => !decide (a = cap))
      let ncaps := if m.Capabilities.length = 0 then [cap] else ncaps
      some ({ e with Meta := some { m with Capabilities := ncaps } }, none)

/-- The hook `SetEntityCapability.Run` called `k` times in a row on the same
working record with the same delta; `none` when a call panics or fails. -/
def SetEntityCapability.RunTimes : Nat → Entity → Entity → Option Entity
  | 0, e, _ => some e
  | k + 1, e, de =>
    match SetEntityCapability.Run e de with
    | some (e', none) => SetEntityCapability.RunTimes k e' de
    | _ => none

/-- What claim C17 says of one capability, working record and count: after `k`
runs with the delta `[c]` the working record holds `c` exactly once. -/
def HoldsOnceAfter (c : Int) (e : Entity) (k : Nat) : Prop :=
  ∃ e', SetEntityCapability.RunTimes k e { Meta := some { Capabilities := [c] } } = some e' ∧
    e'.GetCapabilities.count c = 1

/-- What claim C18 says of one working record and delta: the hook returns
`ErrUnknownCapability` and leaves the working record as it was. -/
def RejectsEmptyDelta (e de : Entity) : Prop :=
  SetEntityCapability.Run e de = some (e, some Error.ErrUnknownCapability)

/-- What claim C14 says of one call: every entity that `newEntity` leaves in the
store has a secret that the crypto primitive produced, and not the plaintext. -/
def SecretsSecuredAfter (c : Collaborators) (emds : EMDataStore) (ID : String)
    (uidNumber : Int) (secret : String) : Prop :=
  ∀ x ∈ (newEntity c emds ID uidNumber secret).1.db,
    (∃ p, c.SecureSecret p = Except.ok x.GetSecret) ∧ x.Secret ≠ some secret

/-! ## Sample data for the entity manager -/

/-- Collaborators whose crypto primitive refuses every secret; the rest is as in
`sampleCollaborators`. -/
def failingCryptoCollaborators : Collaborators :=
  { sampleCollaborators with
    SecureSecret := fun _ => Except.error (Error.other "crypto failure") }

/-- Collaborators whose allocator fails; the rest is as in `sampleCollaborators`. -/
def failingAllocatorCollaborators : Collaborators :=
  { sampleCollaborators with
    nextUIDNumber := fun _ => Except.error (Error.other "no number") }

/-- An empty store with the bootstrap latch open. -/
def emptyStore : EMDataStore := { db := [], bootstrap_done := false }

/-- The entity `foo` holding the super-capability (numeric value 0). -/
def rootedFoo : Entity :=
  { fooEntity with Meta := some { Capabilities := [0] } }

/-- A store that holds `rootedFoo`. -/
def rootedStore : EMDataStore :=
  { db := [rootedFoo], bootstrap_done := false }

/-- A name table with the super-capability and two others. -/
def sampleCapabilityValue (name : String) : Option Int :=
  if name = "GLOBAL_ROOT" then some 0
  else if name = "CREATE_ENTITY" then some 10
  else if name = "CREATE_GROUP" then some 20
  else none

/-- An allocator over a counter: it hands out the counter and advances it. -/
def counterAllocator (s : Nat) : Nat × Except Error Int := (s + 1, Except.ok (Int.ofNat s))

/-- An allocator over a counter that always fails. -/
def brokenAllocator (s : Nat) : Nat × Except Error Int :=
  (s, Except.error (Error.other "no number"))

/-! ## Metadata update and the hook `destroy-entity` -/

/-- What `proto.Merge` does to one optional scalar field: a value set in the
source replaces the destination's. -/
def mergeScalar {α : Type} (dst src : Option α) : Option α :=
  match src with
  | some v => some v
  | none => dst

/-- The library call `proto.Merge(dst, src)` on two `EntityMeta` messages, after
its documentation: optional fields that are set in `src` are set to that
value in `dst`, elements of repeated fields are appended. -/
def mergeMeta (dst src : EntityMeta) : EntityMeta :=
  { GECOS := mergeScalar dst.GECOS src.GECOS,
    LegalName := mergeScalar dst.LegalName src.LegalName,
    DisplayName := mergeScalar dst.DisplayName src.DisplayName,
    Groups := dst.Groups ++ src.Groups,
    Capabilities := dst.Capabilities ++ src.Capabilities,
    Keys := dst.Keys ++ src.Keys }

/-- The method `EMDataStore.updateEntityMeta`. It works on the entity `e` the
caller holds and returns it as the call left it, next to the store and the
error. The result `none` stands for the run-time panic of `proto.Merge` on
the nil metadata of an entity without metadata. -/
def updateEntityMeta (c : Collaborators) (emds : EMDataStore) (e : Entity)
    (newMeta : EntityMeta) : Option (EMDataStore × Entity × Option Error) :=
  match e.Meta with
  | none => none
  | some meta =>
    match SaveEntity c emds.db
        { e with Meta := some (mergeMeta meta { newMeta with Capabilities := [], Groups := [] }) }
      with
    | (db, some err) =>
      some ({ emds with db := db },
        { e with Meta := some (mergeMeta meta { newMeta with Capabilities := [], Groups := [] }) },
        some err)
    | (db, none) =>
      some ({ emds with db := db },
        { e with Meta := some (mergeMeta meta { newMeta with Capabilities := [], Groups := [] }) },
        none)

/-- The entity `e`, whose metadata is `m`, with one capability appended. -/
def appendCapability (e : Entity) (m : EntityMeta) (cap : Int) : Entity :=
  { e with Meta := some { m with Capabilities := m.Capabilities ++ [cap] } }

/-- The method `DestroyEntity.Run`. `DeleteEntity` is the storage operation the
hook embeds (`tree.DB`), a parameter that may change the world. -/
def DestroyEntity.Run {σ : Type} (DeleteEntity : σ → String → σ × Option Error)
    (s : σ) (e de : Entity) : RunResult σ :=
  if e.GetID = "" then
    { world := (DeleteEntity s ({ e with ID := de.ID } : Entity).GetID).1,
      working := { e with ID := de.ID },
      err := (DeleteEntity s ({ e with ID := de.ID } : Entity).GetID).2 }
  else
    { world := (DeleteEntity s e.GetID).1, working := e, err := (DeleteEntity s e.GetID).2 }

/-- The constructor `NewDestroyEntity`: the hook `destroy-entity` of priority 99. -/
def NewDestroyEntity {σ : Type} (DeleteEntity : σ → String → σ × Option Error) :
    EntityHook σ :=
  { Priority := 99, Name := "destroy-entity", Run := DestroyEntity.Run DeleteEntity }

/-- A storage whose world is the list of stored IDs: deleting removes the ID, and
fails when it is not there. -/
def listDelete (s : List String) (ID : String) : List String × Option Error :=
  if ID ∈ s then (s.filter (fun x => decide (x ≠ ID)), none)
  else (s, some Error.ErrUnknownEntity)

/-! ## Bootstrap -/

/-- The method `EMDataStore.setEntityCapabilityByID`. The result `none` stands
for the panic of `setEntityCapability` on an entity without metadata. -/
def setEntityCapabilityByID (c : Collaborators) (Capability_value : String → Option Int)
    (emds : EMDataStore) (ID name : String) : Option (EMDataStore × Option Error) :=
  match LoadEntity emds.db ID with
  | .error err => some (emds, some err)
  | .ok e =>
    match setEntityCapability c Capability_value emds e name with
    | none => none
    | some (emds', _, err) => some (emds', err)

/-- The method `EMDataStore.MakeBootstrap`; it returns nothing in Go, so the
result is the data store it leaves. The errors of `newEntity` and of the
grant are logged and dropped. The result `none` stands for the panic of
`setEntityCapability` on an entity without metadata. -/
def MakeBootstrap (c : Collaborators) (Capability_value : String → Option Int)
    (emds : EMDataStore) (ID secret : String) : Option EMDataStore :=
  if emds.bootstrap_done then some emds
  else
    match LoadEntity emds.db ID with
    | .ok e =>
      match setEntityCapability c Capability_value emds e "GLOBAL_ROOT" with
      | none => none
      | some (emds', _, _) => some { emds' with bootstrap_done := true }
    | .error _ =>
      match setEntityCapabilityByID c Capability_value
          (newEntity c emds ID (-1) secret).1 ID "GLOBAL_ROOT" with
      | none => none
      | some (emds', _) => some { emds' with bootstrap_done := true }

/-- The method `EMDataStore.DisableBootstrap`. -/
def DisableBootstrap (emds : EMDataStore) : EMDataStore :=
  { emds with bootstrap_done := true }

/-- Collaborators that refuse every write; the rest is as in
`sampleCollaborators`. -/
def refusingCollaborators : Collaborators :=
  { sampleCollaborators with saveError := fun _ _ => some (Error.other "read-only storage") }

/-! ## The RPC facade: `EntityUM` and `EntityKeys` -/

/-- The enumeration `pb.Action` of the protocol package: the constants the facade
names, and `other` for every other value of the wire type. -/
inductive Action where
  | READ
  | ADD
  | DROP
  | UPSERT
  | CLEAREXACT
  | CLEARFUZZY
  | other (n : Nat)
  deriving DecidableEq, Repr

/-- The message `pb.KVRequest`, as its getters read it. -/
structure KVRequest where
  Target : String := ""
  Action : Action := Action.other 0
  Key : String := ""
  Value : String := ""
  deriving DecidableEq, Repr

/-- The calls a facade method makes to the other methods of the server, in the
order it makes them; logging is left out. -/
inductive Call where
  | checkToken
  | isAuthorized (capability : Int)
  | ManageUntypedEntityMeta (target : String) (action : Action) (key value : String)
  | UpdateEntityKeys (target : String) (action : Action) (key value : String)
  deriving DecidableEq, Repr

/-- Whether a call is one of the two engine operations. -/
def Call.isEngine : Call → Bool
  | Call.ManageUntypedEntityMeta _ _ _ _ => true
  | Call.UpdateEntityKeys _ _ _ _ => true
  | _ => false

/-- The receiver `*Server`: the flag `readonly` and the methods the facade calls
whose code is not among the sources, taken as parameters. `checkToken` returns
the context with the claims attached, `tokenEntityID` is
`getTokenClaims(ctx).EntityID`, and the two engine operations (of the embedded
manager) act on the world `σ` behind the engine; they receive the action, of
which Go passes the name. -/
structure Server (Ctx σ : Type) where
  readonly : Bool
  checkToken : Ctx → Ctx × Option Error
  isAuthorized : Ctx → Int → Option Error
  tokenEntityID : Ctx → String
  ManageUntypedEntityMeta : σ → Ctx → String → Action → String → String →
    σ × List String × Option Error
  UpdateEntityKeys : σ → Ctx → String → Action → String → String →
    σ × List String × Option Error

/-- What a facade method leaves: the world behind the engine, the calls it made,
the strings of the returned `pb.ListOfStrings` and the returned error. -/
structure FacadeResult (σ : Type) where
  world : σ
  trace : List Call
  strings : List String
  err : Option Error
  deriving DecidableEq, Repr

/-- The `switch err` that ends `EntityUM` and `EntityKeys`, on the outcome of the
engine operation: `db.ErrUnknownEntity` becomes `ErrDoesNotExist`, nil returns
the strings, every other error becomes `ErrInternal`. -/
def switchErr {σ : Type} (trace : List Call) (out : σ × List String × Option Error) :
    FacadeResult σ :=
  match out.2.2 with
  | some Error.ErrUnknownEntity =>
    { world := out.1, trace := trace, strings := [], err := some Error.ErrDoesNotExist }
  | none => { world := out.1, trace := trace, strings := out.2.1, err := none }
  | some _ => { world := out.1, trace := trace, strings := [], err := some Error.ErrInternal }

/-- The method `Server.EntityUM`. `Capability_MODIFY_ENTITY_META` is the constant
of the protocol package, a parameter. -/
def EntityUM {Ctx σ : Type} (s : Server Ctx σ) (Capability_MODIFY_ENTITY_META : Int)
    (w : σ) (ctx : Ctx) (r : KVRequest) : FacadeResult σ :=
  if r.Action ≠ Action.READ ∧ r.Action ≠ Action.UPSERT ∧ r.Action ≠ Action.CLEAREXACT ∧
      r.Action ≠ Action.CLEARFUZZY then
    { world := w, trace := [], strings := [], err := some Error.ErrMalformedRequest }
  else if r.Action ≠ Action.READ then
    if s.readonly then
      { world := w, trace := [], strings := [], err := some Error.ErrReadOnly }
    else
      match s.checkToken ctx with
      | (_, some err) => { world := w, trace := [Call.checkToken], strings := [], err := some err }
      | (ctx, none) =>
        match s.isAuthorized ctx Capability_MODIFY_ENTITY_META with
        | some err =>
          { world := w,
            trace := [Call.checkToken, Call.isAuthorized Capability_MODIFY_ENTITY_META],
            strings := [], err := some err }
        | none =>
          switchErr
            [Call.checkToken, Call.isAuthorized Capability_MODIFY_ENTITY_META,
              Call.ManageUntypedEntityMeta r.Target r.Action r.Key r.Value]
            (s.ManageUntypedEntityMeta w ctx r.Target r.Action r.Key r.Value)
  else
    switchErr [Call.ManageUntypedEntityMeta r.Target r.Action r.Key r.Value]
      (s.ManageUntypedEntityMeta w ctx r.Target r.Action r.Key r.Value)

/-- The method `Server.EntityKeys`. `Capability_MODIFY_ENTITY_KEYS` is the
constant of the protocol package, a parameter. -/
def EntityKeys {Ctx σ : Type} (s : Server Ctx σ) (Capability_MODIFY_ENTITY_KEYS : Int)
    (w : σ) (ctx : Ctx) (r : KVRequest) : FacadeResult σ :=
  if r.Action ≠ Action.READ ∧ r.Action ≠ Action.ADD ∧ r.Action ≠ Action.DROP then
    { world := w, trace := [], strings := [], err := some Error.ErrMalformedRequest }
  else if r.Action ≠ Action.READ then
    if s.readonly then
      { world := w, trace := [], strings := [], err := some Error.ErrReadOnly }
    else
      match s.checkToken ctx with
      | (_, some err) => { world := w, trace := [Call.checkToken], strings := [], err := some err }
      | (ctx, none) =>
        match s.isAuthorized ctx Capability_MODIFY_ENTITY_KEYS with
        | some err =>
          if s.tokenEntityID ctx ≠ r.Target then
            { world := w,
              trace := [Call.checkToken, Call.isAuthorized Capability_MODIFY_ENTITY_KEYS],
              strings := [], err := some err }
          else
            switchErr
              [Call.checkToken, Call.isAuthorized Capability_MODIFY_ENTITY_KEYS,
                Call.UpdateEntityKeys r.Target r.Action r.Key r.Value]
              (s.UpdateEntityKeys w ctx r.Target r.Action r.Key r.Value)
        | none =>
          switchErr
            [Call.checkToken, Call.isAuthorized Capability_MODIFY_ENTITY_KEYS,
              Call.UpdateEntityKeys r.Target r.Action r.Key r.Value]
            (s.UpdateEntityKeys w ctx r.Target r.Action r.Key r.Value)
  else
    switchErr [Call.UpdateEntityKeys r.Target r.Action r.Key r.Value]
      (s.UpdateEntityKeys w ctx r.Target r.Action r.Key r.Value)

/-- Whether a facade method reached the engine. -/
def FacadeResult.reachedEngine {σ : Type} (res : FacadeResult σ) : Prop :=
  ∃ call ∈ res.trace, call.isEngine = true

/-- What claim C25 says of one server, context and request: an `EntityKeys`
request with action ADD or DROP reaches `UpdateEntityKeys` only if the server
is not read-only, the token check succeeded and the authorization check for
`MODIFY_ENTITY_KEYS` succeeded. -/
def EntityKeysGuarded {Ctx σ : Type} (s : Server Ctx σ) (Capability_MODIFY_ENTITY_KEYS : Int)
    (w : σ) (ctx : Ctx) (r : KVRequest) : Prop :=
  (r.Action = Action.ADD ∨ r.Action = Action.DROP) →
    (EntityKeys s Capability_MODIFY_ENTITY_KEYS w ctx r).reachedEngine →
    s.readonly = false ∧ (s.checkToken ctx).2 = none ∧
      s.isAuthorized (s.checkToken ctx).1 Capability_MODIFY_ENTITY_KEYS = none

/-- A sample server. The context is the token's entity ID, if there is a token;
the token check passes when there is one, only `admin` is authorized, and the
world is the list of (entity, key) pairs: ADD puts one in front, DROP removes
it, and every operation returns the keys of the target. -/
def sampleServer (readonly : Bool) : Server (Option String) (List (String × String)) :=
  ⟨readonly,
    fun ctx => match ctx with
      | some _ => (ctx, none)
      | none => (ctx, some (Error.other "no token")),
    fun ctx _ => if ctx = some "admin" then none else some (Error.other "unqualified"),
    fun ctx => ctx.getD "",
    fun w _ target _ key _ =>
      (w, (w.filter (fun p => decide (p.1 = target ∧ p.2 = key))).map Prod.snd, none),
    fun w _ target action _ value =>
      if action = Action.ADD then
        ((target, value) :: w,
          (((target, value) :: w).filter (fun p => decide (p.1 = target))).map Prod.snd, none)
      else if action = Action.DROP then
        (w.filter (fun p => decide (p ≠ (target, value))),
          ((w.filter (fun p => decide (p ≠ (target, value)))).filter
            (fun p => decide (p.1 = target))).map Prod.snd, none)
      else (w, (w.filter (fun p => decide (p.1 = target))).map Prod.snd, none)⟩

/-! ## Group expansions and the hook `check-expansion-cycles` -/

/-- Modelled from the spec: the mode of an expansion directive, one of INCLUDE,
EXCLUDE and DROP. -/
inductive ExpansionMode where
  | INCLUDE
  | EXCLUDE
  | DROP
  deriving DecidableEq, Repr

/-- Modelled from the spec: an expansion, the directive string `MODE:groupName`
in parsed form. -/
structure Expansion where
  Mode : ExpansionMode
  Target : String
  deriving DecidableEq, Repr

/-- Modelled from the spec: the message `pb.Group`, with the two fields the cycle
check reads; the name is a pointer in Go, so it is optional here. -/
structure Group where
  Name : Option String := none
  Expansions : List Expansion := []
  deriving DecidableEq, Repr

/-- The getter `GetName`: the empty string when the field is unset. -/
def Group.GetName (g : Group) : String := g.Name.getD ""

/-- Modelled from the spec: the stored groups, addressed by name. -/
abbrev GroupStore := List Group

/-- Modelled from the spec: the driver operation `LoadGroup(name)`; it fails with
`ErrUnknownGroup` when no stored group has the name. -/
def LoadGroup (db : GroupStore) (name : String) : Except Error Group :=
  match db.find? (fun g => decide (g.GetName = name)) with
  | some g => Except.ok g
  | none => Except.error Error.ErrUnknownGroup

/-- Modelled from the spec: what a successful `SaveGroup(g)` does to the store;
the group takes the place of any stored group with the same name. -/
def SaveGroup (db : GroupStore) (g : Group) : GroupStore :=
  db.filter (fun x => decide (x.GetName ≠ g.GetName)) ++ [g]

/-- Modelled from the spec: the depth-first search of the cycle check, from the
group `group` through INCLUDE expansions, `depth` levels deep. It answers
`true` when an included group is the candidate, when an included group
cannot be loaded, and when the depth guard is used up (the safety net);
EXCLUDE and DROP expansions are not followed. -/
def checkGroupCyclesDepth (db : GroupStore) (candidate : String) : Nat → Group → Bool
  | 0, _ => true
  | depth + 1, group =>
    group.Expansions.any (fun exp =>
      decide (exp.Mode = ExpansionMode.INCLUDE) &&
        (decide (exp.Target = candidate) ||
          match LoadGroup db exp.Target with
          | .error _ => true
          | .ok child => checkGroupCyclesDepth db candidate depth child))

/-- Modelled from the spec: the method `checkGroupCycles(group, candidate)` of the
hook, the bounded search with the total group count as the depth guard. -/
def checkGroupCycles (db : GroupStore) (group : Group) (candidate : String) : Bool :=
  checkGroupCyclesDepth db candidate db.length group

/-- Modelled from the spec: the loop of `CheckExpansionCycles.Run` over the
expansions of the delta. An INCLUDE of `h` loads `h` (a failure is returned as
it is) and is rejected with `ErrExistingExpansion` when the search from `h`
reaches the working group, `h` itself being the first group the search
visits; EXCLUDE and DROP directives are not checked. -/
def CheckExpansionCycles.loop (db : GroupStore) (g : Group) : List Expansion → Option Error
  | [] => none
  | exp :: rest =>
    if exp.Mode ≠ ExpansionMode.INCLUDE then CheckExpansionCycles.loop db g rest
    else
      match LoadGroup db exp.Target with
      | .error err => some err
      | .ok child =>
        if exp.Target = g.GetName ∨ checkGroupCycles db child g.GetName = true then
          some Error.ErrExistingExpansion
        else CheckExpansionCycles.loop db g rest

/-- Modelled from the spec: the method `CheckExpansionCycles.Run(g, dg)`; the
hook reads storage and changes neither storage nor the working group, so
the result is the returned error. -/
def CheckExpansionCycles.Run (db : GroupStore) (g dg : Group) : Option Error :=
  CheckExpansionCycles.loop db g dg.Expansions

/-- Modelled from the spec: one INCLUDE addition, the request to add `INCLUDE:h`
to the group named `g`: the group is loaded as the working group, the hook
`check-expansion-cycles` runs on it with the delta `INCLUDE:h`, and when the
hook accepts, the group is saved with the expansion appended. A refused
addition leaves the store as it was. -/
def addInclude (db : GroupStore) (g h : String) : GroupStore × Option Error :=
  match LoadGroup db g with
  | .error err => (db, some err)
  | .ok grp =>
    match CheckExpansionCycles.Run db grp
        { Name := some g, Expansions := [⟨ExpansionMode.INCLUDE, h⟩] } with
    | some err => (db, some err)
    | none =>
      (SaveGroup db { grp with Expansions := grp.Expansions ++ [⟨ExpansionMode.INCLUDE, h⟩] },
        none)

/-- A sequence of INCLUDE additions, each a pair (group, included group), applied
in order; the refused ones change nothing. -/
def addIncludes (db : GroupStore) : List (String × String) → GroupStore
  | [] => db
  | (g, h) :: rest => addIncludes (addInclude db g h).1 rest

/-- An edge of the INCLUDE graph of the stored groups: the group stored under `a`
has the expansion `INCLUDE:b`. -/
def IncludeEdge (db : GroupStore) (a b : String) : Prop :=
  ∃ grp, LoadGroup db a = Except.ok grp ∧ ⟨ExpansionMode.INCLUDE, b⟩ ∈ grp.Expansions

/-- A path of one or more INCLUDE expansions from `a` to `b` in the stored
groups. -/
def IncludePath (db : GroupStore) (a b : String) : Prop :=
  Relation.TransGen (IncludeEdge db) a b

/-- The INCLUDE graph of the stored groups is acyclic: no group reaches itself. -/
def Acyclic (db : GroupStore) : Prop :=
  ∀ a, ¬ IncludePath db a a

/-- Three stored groups without expansions. -/
def threeGroups : GroupStore :=
  [{ Name := some "group1" }, { Name := some "group2" }, { Name := some "group3" }]

/-- The three groups after group1 was made to include group2 and group2 to
include group3. -/
def chainedGroups : GroupStore :=
  [{ Name := some "group3" },
    { Name := some "group1", Expansions := [⟨ExpansionMode.INCLUDE, "group2"⟩] },
    { Name := some "group2", Expansions := [⟨ExpansionMode.INCLUDE, "group3"⟩] }]

/-! # Properties -/

/-! ### Lemmas on the execution loop -/

theorem runAt_cons_succ {σ : Type} (de : Entity) (h : EntityHook σ) (rest : List (EntityHook σ))
    (acc : σ × Entity) (k : Nat) :
    runAt de (h :: rest) acc (k + 1) = runAt de rest (applyHook de acc h) k := by
  simp [runAt, foldHooks]

theorem runAt_cons_zero {σ : Type} (de : Entity) (h : EntityHook σ) (rest : List (EntityHook σ))
    (acc : σ × Entity) :
    runAt de (h :: rest) acc 0 = some (h.Run acc.1 acc.2 de) := by
  simp [runAt, foldHooks]

theorem runHookLoop_first_error {σ : Type} (de : Entity) :
    ∀ (hooks : List (EntityHook σ)) (s : σ) (e : Entity) (log : List String) (i : Nat)
      (r : RunResult σ) (err : Error),
      (∀ k, k < i → ∀ r', runAt de hooks (s, e) k = some r' → r'.err = none) →
      runAt de hooks (s, e) i = some r → r.err = some err →
      runHookLoop de hooks s e log =
        { world := r.world, executed := log ++ (hooks.take (i + 1)).map (fun h => h.Name),
          entity := none, err := some err } := by
  intro hooks
  induction hooks with
  | nil => intro s e log i r err _ hr _; simp [runAt] at hr
  | cons h rest ih =>
    intro s e log i r err hok hr herr
    cases i with
    | zero =>
      rw [runAt_cons_zero] at hr
      injection hr with hr
      subst hr
      simp only [runHookLoop] at herr ⊢
      rw [herr]
      simp
    | succ i =>
      have h0 : (h.Run s e de).err = none :=
        hok 0 (Nat.succ_pos i) _ (runAt_cons_zero de h rest (s, e))
      rw [runAt_cons_succ] at hr
      have hok' : ∀ k, k < i → ∀ r', runAt de rest ((h.Run s e de).world, (h.Run s e de).working) k
          = some r' → r'.err = none := by
        intro k hk r' hr'
        exact hok (k + 1) (Nat.succ_lt_succ hk) r' (by rw [runAt_cons_succ]; exact hr')
      have := ih (h.Run s e de).world (h.Run s e de).working (log ++ [h.Name]) i r err hok' hr herr
      simp only [runHookLoop]
      rw [h0]
      simp only [this]
      simp

theorem runHookLoop_all_ok {σ : Type} (de : Entity) :
    ∀ (hooks : List (EntityHook σ)) (s : σ) (e : Entity) (log : List String),
      (∀ k r, runAt de hooks (s, e) k = some r → r.err = none) →
      runHookLoop de hooks s e log =
        { world := (foldHooks de hooks (s, e)).1, executed := log ++ hooks.map (fun h => h.Name),
          entity := some (foldHooks de hooks (s, e)).2, err := none } := by
  intro hooks
  induction hooks with
  | nil => intro s e log _; simp [runHookLoop, foldHooks]
  | cons h rest ih =>
    intro s e log hok
    have h0 : (h.Run s e de).err = none := hok 0 _ (runAt_cons_zero de h rest (s, e))
    have hok' : ∀ k r, runAt de rest ((h.Run s e de).world, (h.Run s e de).working) k = some r →
        r.err = none := by
      intro k r hr
      exact hok (k + 1) r (by rw [runAt_cons_succ]; exact hr)
    have := ih (h.Run s e de).world (h.Run s e de).working (log ++ [h.Name]) hok'
    simp only [runHookLoop]
    rw [h0]
    simp only [this]
    simp [foldHooks, applyHook]

/-! ## Chain execution: C1, C2 -/

/-- C1. `RunEntityChain` aborts on the first failing hook: when hook number `i` of
the chain is the first whose `Run` returns an error `err`, the call returns
`(nil, err)` with the error unchanged, the hooks logged as executed are exactly
the first `i + 1` hooks of the chain, and the world is the one hook `i` left. -/
theorem RunEntityChain_aborts_on_first_error {ρ σ : Type} (m : Manager ρ σ) (s : σ)
    (chain : String) (de : Entity) (i : Nat) (r : RunResult σ) (err : Error)
    (hbefore : ∀ k, k < i → ∀ r', runAt de (m.chain chain) (s, {}) k = some r' → r'.err = none)
    (hrun : runAt de (m.chain chain) (s, {}) i = some r) (herr : r.err = some err) :
    RunEntityChain m s chain de =
      { world := r.world, executed := ((m.chain chain).take (i + 1)).map (fun h => h.Name),
        entity := none, err := some err } := by
  have := runHookLoop_first_error de (m.chain chain) s {} [] i r err hbefore hrun herr
  simpa [RunEntityChain] using this

/-- Witness for C1: in the chain `RUN` the second hook fails; the call returns
`(nil, boom)` and the third hook is not run. -/
theorem RunEntityChain_aborts_on_first_error_witness :
    RunEntityChain sampleManager () "RUN" { Number := some 7 } =
      { world := (), executed := ["first", "second"], entity := none,
        err := some (Error.other "boom") } :=
  RunEntityChain_aborts_on_first_error sampleManager () "RUN" { Number := some 7 } 1
    { world := (), working := { Number := some 7 }, err := some (Error.other "boom") }
    (Error.other "boom")
    (by
      intro k hk r' h
      have hk0 : k = 0 := by omega
      subst hk0
      have h' : some ((copyNumberHook "first" 10).Run () {} { Number := some 7 }) = some r' := h
      injection h' with h'
      rw [← h']
      rfl)
    rfl rfl

/-- C2. `RunEntityChain` is a left fold in chain order: when every hook of the
chain succeeds, the returned record is the result of starting from the empty
entity and applying each hook's `Run` in the order of the chain, every hook
receiving the same delta; the error is nil and every hook is run once. -/
theorem RunEntityChain_is_left_fold {ρ σ : Type} (m : Manager ρ σ) (s : σ)
    (chain : String) (de : Entity)
    (hall : ∀ k r, runAt de (m.chain chain) (s, {}) k = some r → r.err = none) :
    RunEntityChain m s chain de =
      { world := (foldHooks de (m.chain chain) (s, {})).1,
        executed := (m.chain chain).map (fun h => h.Name),
        entity := some (foldHooks de (m.chain chain) (s, {})).2, err := none } := by
  have := runHookLoop_all_ok de (m.chain chain) s {} [] hall
  simpa [RunEntityChain] using this

/-- Witness for C2: the chain `OK` copies the delta's number and returns it. -/
theorem RunEntityChain_is_left_fold_witness :
    RunEntityChain sampleManager () "OK" { Number := some 7 } =
      { world := (), executed := ["first", "third"], entity := some { Number := some 7 },
        err := none } :=
  RunEntityChain_is_left_fold sampleManager () "OK" { Number := some 7 }
    (by
      intro k r h
      match k, h with
      | 0, h =>
        have h' : some ((copyNumberHook "first" 10).Run () {} { Number := some 7 }) = some r := h
        injection h' with h'
        rw [← h']
        rfl
      | 1, h =>
        have h' : some ((nullHook "third" 30).Run () { Number := some 7 } { Number := some 7 })
            = some r := h
        injection h' with h'
        rw [← h']
        rfl
      | k + 2, h => exact absurd h (by simp [runAt, sampleManager, Manager.chain]))

/-! ## Required chains: C5, C6 -/

theorem CheckRequiredEntityChains_fst {ρ σ : Type} (m : Manager ρ σ) (d : ChainConfig) :
    (CheckRequiredEntityChains m d).1 = m := by
  induction d with
  | nil => rfl
  | cons p rest ih =>
    obtain ⟨k, v⟩ := p
    simp only [CheckRequiredEntityChains]
    split
    · rfl
    · split
      · rfl
      · exact ih

theorem CheckRequiredEntityChains_eq_none_iff {ρ σ : Type} (m : Manager ρ σ) (d : ChainConfig) :
    (CheckRequiredEntityChains m d).2 = none ↔
      ∀ k ∈ d.map Prod.fst, ∃ l, m.entityProcesses k = some l ∧ 1 ≤ l.length := by
  induction d with
  | nil => simp [CheckRequiredEntityChains]
  | cons p rest ih =>
    obtain ⟨k, v⟩ := p
    simp only [CheckRequiredEntityChains, List.map_cons, List.mem_cons, forall_eq_or_imp]
    split
    · rename_i hk
      simp [hk]
    · rename_i l hk
      split
      · rename_i hl
        simp [hk, hl]
      · rename_i hl
        rw [ih]
        simp only [hk, Option.some.injEq, exists_eq_left', iff_and_self]
        intro _
        omega

theorem CheckRequiredEntityChains_cases {ρ σ : Type} (m : Manager ρ σ) (d : ChainConfig) :
    (CheckRequiredEntityChains m d).2 = none ∨
      (CheckRequiredEntityChains m d).2 = some Error.ErrUnknownHookChain ∨
      (CheckRequiredEntityChains m d).2 = some Error.ErrEmptyHookChain := by
  induction d with
  | nil => simp [CheckRequiredEntityChains]
  | cons p rest ih =>
    obtain ⟨k, v⟩ := p
    simp only [CheckRequiredEntityChains]
    split
    · simp
    · split
      · simp
      · exact ih

/-- C5. `CheckRequiredEntityChains` returns nil if and only if every name of the
default chain set is a key of the chain map and maps to a list of length at
least one; otherwise it returns `ErrUnknownHookChain` or `ErrEmptyHookChain`;
and it leaves the manager, hence the chain map, as it was. -/
theorem CheckRequiredEntityChains_nil_iff {ρ σ : Type} (m : Manager ρ σ)
    (defaultEntityChains : ChainConfig) :
    ((CheckRequiredEntityChains m defaultEntityChains).2 = none ↔
        ∀ k ∈ defaultEntityChains.map Prod.fst,
          ∃ l, m.entityProcesses k = some l ∧ 1 ≤ l.length) ∧
      ((CheckRequiredEntityChains m defaultEntityChains).2 = none ∨
        (CheckRequiredEntityChains m defaultEntityChains).2 = some Error.ErrUnknownHookChain ∨
        (CheckRequiredEntityChains m defaultEntityChains).2 = some Error.ErrEmptyHookChain) ∧
      (CheckRequiredEntityChains m defaultEntityChains).1 = m :=
  ⟨CheckRequiredEntityChains_eq_none_iff m defaultEntityChains,
    CheckRequiredEntityChains_cases m defaultEntityChains,
    CheckRequiredEntityChains_fst m defaultEntityChains⟩

theorem CheckRequiredEntityChains_missing {ρ σ : Type} (m : Manager ρ σ) (d : ChainConfig)
    (hmiss : ∃ k ∈ d.map Prod.fst, m.entityProcesses k = none)
    (hnonempty : ∀ k ∈ d.map Prod.fst, m.entityProcesses k ≠ some []) :
    (CheckRequiredEntityChains m d).2 = some Error.ErrUnknownHookChain := by
  induction d with
  | nil => simp at hmiss
  | cons p rest ih =>
    obtain ⟨k, v⟩ := p
    simp only [List.map_cons, List.mem_cons, exists_eq_or_imp, forall_eq_or_imp] at hmiss hnonempty
    simp only [CheckRequiredEntityChains]
    split
    · rfl
    · rename_i l hk
      split
      · rename_i hl
        have : l = [] := List.length_eq_zero.mp hl
        subst this
        exact absurd hk hnonempty.1
      · rcases hmiss with h | h
        · rw [hk] at h
          cases h
        · exact ih h hnonempty.2

theorem CheckRequiredEntityChains_empty {ρ σ : Type} (m : Manager ρ σ) (d : ChainConfig)
    (hpresent : ∀ k ∈ d.map Prod.fst, m.entityProcesses k ≠ none)
    (hempty : ∃ k ∈ d.map Prod.fst, m.entityProcesses k = some []) :
    (CheckRequiredEntityChains m d).2 = some Error.ErrEmptyHookChain := by
  induction d with
  | nil => simp at hempty
  | cons p rest ih =>
    obtain ⟨k, v⟩ := p
    simp only [List.map_cons, List.mem_cons, exists_eq_or_imp, forall_eq_or_imp] at hpresent hempty
    simp only [CheckRequiredEntityChains]
    split
    · rename_i hk
      exact absurd hk hpresent.1
    · rename_i l hk
      split
      · rfl
      · rename_i hl
        rcases hempty with h | h
        · rw [hk] at h
          injection h with h
          subst h
          simp at hl
        · exact ih hpresent.2 h

/-- C6. `CheckRequiredEntityChains` tells the two defects apart: when a required
chain name is absent from the chain map and no required chain is present but
empty, it returns `ErrUnknownHookChain`; when every required chain name is
present and at least one maps to an empty list, it returns `ErrEmptyHookChain`. -/
theorem CheckRequiredEntityChains_distinguishes {ρ σ : Type} (m : Manager ρ σ)
    (defaultEntityChains : ChainConfig) :
    ((∃ k ∈ defaultEntityChains.map Prod.fst, m.entityProcesses k = none) →
      (∀ k ∈ defaultEntityChains.map Prod.fst, m.entityProcesses k ≠ some []) →
      (CheckRequiredEntityChains m defaultEntityChains).2 = some Error.ErrUnknownHookChain) ∧
    ((∀ k ∈ defaultEntityChains.map Prod.fst, m.entityProcesses k ≠ none) →
      (∃ k ∈ defaultEntityChains.map Prod.fst, m.entityProcesses k = some []) →
      (CheckRequiredEntityChains m defaultEntityChains).2 = some Error.ErrEmptyHookChain) :=
  ⟨CheckRequiredEntityChains_missing m defaultEntityChains,
    CheckRequiredEntityChains_empty m defaultEntityChains⟩

/-- Witness for C6: with `CREATE` present and `DESTROY` absent the check reports
an unknown chain; with `CREATE` present and `FETCH` empty it reports an empty
chain. -/
theorem CheckRequiredEntityChains_distinguishes_witness :
    (CheckRequiredEntityChains partialManager [("CREATE", []), ("DESTROY", [])]).2
        = some Error.ErrUnknownHookChain ∧
      (CheckRequiredEntityChains partialManager [("CREATE", []), ("FETCH", [])]).2
        = some Error.ErrEmptyHookChain :=
  ⟨(CheckRequiredEntityChains_distinguishes partialManager [("CREATE", []), ("DESTROY", [])]).1
      ⟨"DESTROY", by simp, rfl⟩
      (by
        intro k hk
        simp only [List.map_cons, List.map_nil, List.mem_cons, List.mem_singleton,
          List.not_mem_nil, or_false] at hk
        rcases hk with rfl | rfl <;> simp [partialManager]),
    (CheckRequiredEntityChains_distinguishes partialManager [("CREATE", []), ("FETCH", [])]).2
      (by
        intro k hk
        simp only [List.map_cons, List.map_nil, List.mem_cons, List.mem_singleton,
          List.not_mem_nil, or_false] at hk
        rcases hk with rfl | rfl <;> simp [partialManager])
      ⟨"FETCH", by simp, rfl⟩⟩

/-! ## Unknown hooks: C7 -/

theorem RegisterEntityHookToChain_entityHooks {ρ σ : Type}
    (sortSlice : (EntityHook σ → EntityHook σ → Bool) → List (EntityHook σ) → List (EntityHook σ))
    (m : Manager ρ σ) (hook chain : String) :
    (RegisterEntityHookToChain sortSlice m hook chain).1.entityHooks = m.entityHooks := by
  unfold RegisterEntityHookToChain
  split <;> rfl

theorem RegisterEntityHookToChain_err {ρ σ : Type}
    (sortSlice : (EntityHook σ → EntityHook σ → Bool) → List (EntityHook σ) → List (EntityHook σ))
    (m : Manager ρ σ) (hook chain : String) :
    (RegisterEntityHookToChain sortSlice m hook chain).2 =
      if (m.entityHooks hook).isSome then none else some Error.ErrUnknownHook := by
  unfold RegisterEntityHookToChain
  split <;> rename_i h <;> simp [h]

theorem registerHooks_entityHooks {ρ σ : Type}
    (sortSlice : (EntityHook σ → EntityHook σ → Bool) → List (EntityHook σ) → List (EntityHook σ))
    (chain : String) (names : List String) (m : Manager ρ σ) :
    (registerHooks sortSlice chain names m).1.entityHooks = m.entityHooks := by
  induction names generalizing m with
  | nil => rfl
  | cons h hooks ih =>
    simp only [registerHooks]
    have h1 := RegisterEntityHookToChain_entityHooks sortSlice m h chain
    split
    · rename_i m' heq
      rw [heq] at h1
      rw [ih m']
      exact h1
    · rename_i m' err heq
      rw [heq] at h1
      exact h1

theorem registerHooks_err {ρ σ : Type}
    (sortSlice : (EntityHook σ → EntityHook σ → Bool) → List (EntityHook σ) → List (EntityHook σ))
    (chain : String) (names : List String) (m : Manager ρ σ) :
    (registerHooks sortSlice chain names m).2 =
      if names.all (fun n => (m.entityHooks n).isSome) then none
      else some Error.ErrUnknownHook := by
  induction names generalizing m with
  | nil => rfl
  | cons h hooks ih =>
    simp only [registerHooks, List.all_cons]
    have h1 := RegisterEntityHookToChain_entityHooks sortSlice m h chain
    have h2 := RegisterEntityHookToChain_err sortSlice m h chain
    split
    · rename_i m' heq
      rw [heq] at h1 h2
      simp only at h1 h2
      rw [ih m', h1]
      by_cases hs : (m.entityHooks h).isSome
      · simp [hs]
      · simp [hs] at h2
    · rename_i m' err heq
      rw [heq] at h2
      simp only at h2
      by_cases hs : (m.entityHooks h).isSome
      · simp [hs] at h2
      · simp only [hs, if_false] at h2
        simp [hs, h2]

theorem InitializeEntityChains_entityHooks {ρ σ : Type}
    (sortSlice : (EntityHook σ → EntityHook σ → Bool) → List (EntityHook σ) → List (EntityHook σ))
    (c : ChainConfig) (m : Manager ρ σ) :
    (InitializeEntityChains sortSlice m c).1.entityHooks = m.entityHooks := by
  induction c generalizing m with
  | nil => rfl
  | cons p rest ih =>
    obtain ⟨chain, names⟩ := p
    simp only [InitializeEntityChains]
    have h1 := registerHooks_entityHooks sortSlice chain names m
    split
    · rename_i m' heq
      rw [heq] at h1
      rw [ih m']
      exact h1
    · rename_i m' err heq
      rw [heq] at h1
      exact h1

theorem InitializeEntityChains_err {ρ σ : Type}
    (sortSlice : (EntityHook σ → EntityHook σ → Bool) → List (EntityHook σ) → List (EntityHook σ))
    (c : ChainConfig) (m : Manager ρ σ) :
    (InitializeEntityChains sortSlice m c).2 =
      if c.all (fun p => p.2.all (fun n => (m.entityHooks n).isSome)) then none
      else some Error.ErrUnknownHook := by
  induction c generalizing m with
  | nil => rfl
  | cons p rest ih =>
    obtain ⟨chain, names⟩ := p
    simp only [InitializeEntityChains, List.all_cons]
    have h1 := registerHooks_entityHooks sortSlice chain names m
    have h2 := registerHooks_err sortSlice chain names m
    split
    · rename_i m' heq
      rw [heq] at h1 h2
      simp only at h1 h2
      rw [ih m', h1]
      by_cases hs : names.all (fun n => (m.entityHooks n).isSome)
      · have hand : ∀ b : Bool, (names.all (fun n => (m.entityHooks n).isSome) && b) = b := by
          intro b
          rw [hs, Bool.true_and]
        simp only [hand]
      · simp [hs] at h2
    · rename_i m' err heq
      rw [heq] at h2
      simp only at h2
      by_cases hs : names.all (fun n => (m.entityHooks n).isSome)
      · simp [hs] at h2
      · simp only [hs, if_false] at h2
        simp [hs, h2]

/-- C7. `InitializeEntityChains` fails with `ErrUnknownHook` exactly when some
chain of the configuration names a hook that is not in the manager's hook map,
and returns nil exactly when every named hook is in the map; this holds for
whatever `sort.Slice` does. -/
theorem InitializeEntityChains_unknown_hook {ρ σ : Type}
    (sortSlice : (EntityHook σ → EntityHook σ → Bool) → List (EntityHook σ) → List (EntityHook σ))
    (m : Manager ρ σ) (c : ChainConfig) :
    ((InitializeEntityChains sortSlice m c).2 = some Error.ErrUnknownHook ↔
        ∃ p ∈ c, ∃ n ∈ p.2, m.entityHooks n = none) ∧
      ((InitializeEntityChains sortSlice m c).2 = none ↔
        ∀ p ∈ c, ∀ n ∈ p.2, ∃ hook, m.entityHooks n = some hook) := by
  rw [InitializeEntityChains_err]
  by_cases hs : c.all (fun p => p.2.all (fun n => (m.entityHooks n).isSome))
  · have hall : ∀ p ∈ c, ∀ n ∈ p.2, ∃ hook, m.entityHooks n = some hook := by
      intro p hp n hn
      have := List.all_eq_true.mp (List.all_eq_true.mp hs p hp) n hn
      exact Option.isSome_iff_exists.mp this
    rw [if_pos hs]
    refine ⟨⟨(fun h => nomatch h), ?_⟩, ⟨fun _ => hall, fun _ => rfl⟩⟩
    rintro ⟨p, hp, n, hn, hnone⟩
    obtain ⟨hook, hh⟩ := hall p hp n hn
    rw [hh] at hnone
    cases hnone
  · have hex : ∃ p ∈ c, ∃ n ∈ p.2, m.entityHooks n = none := by
      by_contra hcon
      apply hs
      apply List.all_eq_true.mpr
      intro p hp
      apply List.all_eq_true.mpr
      intro n hn
      cases hm : m.entityHooks n with
      | none => exact absurd ⟨p, hp, n, hn, hm⟩ hcon
      | some _ => rfl
    rw [if_neg hs]
    refine ⟨⟨fun _ => hex, fun _ => rfl⟩, ⟨(fun h => nomatch h), ?_⟩⟩
    intro hall
    obtain ⟨p, hp, n, hn, hnone⟩ := hex
    obtain ⟨hook, hh⟩ := hall p hp n hn
    rw [hh] at hnone
    cases hnone

/-! ## The constructor registry: C8, C9 -/

theorem lookup_append_singleton {β : Type} (l : List (String × β)) (name k : String) (c : β) :
    (l ++ [(name, c)]).lookup k =
      match l.lookup k with
      | some v => some v
      | none => if k = name then some c else none := by
  induction l with
  | nil =>
    by_cases h : k = name
    · simp [List.lookup, h]
    · have : (k == name) = false := by simpa using h
      simp [List.lookup, h, this]
  | cons p rest ih =>
    obtain ⟨k', v⟩ := p
    by_cases h : k = k'
    · simp [List.lookup, h]
    · have : (k == k') = false := by simpa using h
      simp only [List.cons_append, List.lookup, this]
      exact ih

theorem RegisterEntityHookConstructor_of_registered {ρ σ : Type} (reg : Registry ρ σ)
    (name : String) (c0 c : EntityHookConstructor ρ σ) (h : reg.lookup name = some c0) :
    RegisterEntityHookConstructor reg name c = reg := by
  unfold RegisterEntityHookConstructor
  rw [h]

theorem RegisterEntityHookConstructor_lookup_self {ρ σ : Type} (reg : Registry ρ σ)
    (name : String) (c : EntityHookConstructor ρ σ) :
    (RegisterEntityHookConstructor reg name c).lookup name =
      match reg.lookup name with
      | some c0 => some c0
      | none => some c := by
  unfold RegisterEntityHookConstructor
  cases h : reg.lookup name with
  | some c0 => simp [h]
  | none => simp [lookup_append_singleton, h]

theorem RegisterEntityHookConstructor_lookup_other {ρ σ : Type} (reg : Registry ρ σ)
    (name k : String) (c : EntityHookConstructor ρ σ) (hk : k ≠ name) :
    (RegisterEntityHookConstructor reg name c).lookup k = reg.lookup k := by
  unfold RegisterEntityHookConstructor
  cases h : reg.lookup name with
  | some c0 => rfl
  | none =>
    simp only [lookup_append_singleton, hk, if_false]
    cases reg.lookup k <;> rfl

/-- C8. `RegisterEntityHookConstructor` is first-wins and idempotent: after
registering `(name, c1)` and then `(name, c2)` the registry is exactly what it
was after the first registration (same keys, every entry unchanged), every
other name maps to what it mapped to at the start, and `name` maps to `c1`
when it was not registered before, and to the constructor registered before
otherwise. -/
theorem RegisterEntityHookConstructor_first_wins {ρ σ : Type} (reg : Registry ρ σ)
    (name : String) (c1 c2 : EntityHookConstructor ρ σ) :
    RegisterEntityHookConstructor (RegisterEntityHookConstructor reg name c1) name c2 =
        RegisterEntityHookConstructor reg name c1 ∧
      (∀ k, k ≠ name →
        (RegisterEntityHookConstructor (RegisterEntityHookConstructor reg name c1) name c2).lookup k
          = reg.lookup k) ∧
      (reg.lookup name = none →
        (RegisterEntityHookConstructor (RegisterEntityHookConstructor reg name c1) name c2).lookup
          name = some c1) ∧
      (∀ c0, reg.lookup name = some c0 →
        (RegisterEntityHookConstructor (RegisterEntityHookConstructor reg name c1) name c2).lookup
          name = some c0) := by
  have hsome : ∃ c, (RegisterEntityHookConstructor reg name c1).lookup name = some c := by
    rw [RegisterEntityHookConstructor_lookup_self]
    cases reg.lookup name with
    | some c0 => exact ⟨c0, rfl⟩
    | none => exact ⟨c1, rfl⟩
  have hidem : RegisterEntityHookConstructor (RegisterEntityHookConstructor reg name c1) name c2 =
      RegisterEntityHookConstructor reg name c1 := by
    obtain ⟨c, hc⟩ := hsome
    exact RegisterEntityHookConstructor_of_registered _ name c c2 hc
  refine ⟨hidem, ?_, ?_, ?_⟩
  · intro k hk
    rw [hidem, RegisterEntityHookConstructor_lookup_other reg name k c1 hk]
  · intro h
    rw [hidem, RegisterEntityHookConstructor_lookup_self, h]
  · intro c0 h
    rw [hidem, RegisterEntityHookConstructor_lookup_self, h]

/-- Witness for C8: on the empty registry, registering `null-hook` twice leaves
one entry, the first constructor. -/
theorem RegisterEntityHookConstructor_first_wins_witness :
    (RegisterEntityHookConstructor
        (RegisterEntityHookConstructor ([] : Registry Unit Unit) "null-hook"
          (goodEntityConstructor "null-hook" 50))
        "null-hook" badEntityConstructor).lookup "null-hook"
      = some (goodEntityConstructor "null-hook" 50) :=
  (RegisterEntityHookConstructor_first_wins ([] : Registry Unit Unit) "null-hook"
    (goodEntityConstructor "null-hook" 50) badEntityConstructor).2.2.1 rfl

theorem InitializeEntityHooks_refContext {ρ σ : Type} (reg : Registry ρ σ) (m : Manager ρ σ) :
    (InitializeEntityHooks reg m).refContext = m.refContext := by
  induction reg generalizing m with
  | nil => rfl
  | cons p rest ih =>
    obtain ⟨n, v⟩ := p
    simp only [InitializeEntityHooks]
    split
    · exact ih m
    · rw [ih]

theorem InitializeEntityHooks_entityProcesses {ρ σ : Type} (reg : Registry ρ σ)
    (m : Manager ρ σ) :
    (InitializeEntityHooks reg m).entityProcesses = m.entityProcesses := by
  induction reg generalizing m with
  | nil => rfl
  | cons p rest ih =>
    obtain ⟨n, v⟩ := p
    simp only [InitializeEntityHooks]
    split
    · exact ih m
    · rw [ih]

/-- The hook map after `InitializeEntityHooks`: under each name, the hook built
last with that name, or the old entry when no constructor built such a hook. -/
theorem InitializeEntityHooks_entityHooks {ρ σ : Type} (reg : Registry ρ σ) (m : Manager ρ σ)
    (k : String) :
    (InitializeEntityHooks reg m).entityHooks k =
      match (builtHooks reg m.refContext).reverse.find? (fun h => decide (h.Name = k)) with
      | some h => some h
      | none => m.entityHooks k := by
  induction reg generalizing m with
  | nil => rfl
  | cons p rest ih =>
    obtain ⟨n, v⟩ := p
    simp only [InitializeEntityHooks]
    cases hv : v m.refContext with
    | error e =>
      have hb : builtHooks ((n, v) :: rest) m.refContext = builtHooks rest m.refContext := by
        simp [builtHooks, List.filterMap_cons, hv]
      rw [hb]
      exact ih m
    | ok hook =>
      have hb : builtHooks ((n, v) :: rest) m.refContext =
          hook :: builtHooks rest m.refContext := by
        simp [builtHooks, List.filterMap_cons, hv]
      rw [hb, ih]
      simp only [List.reverse_cons, List.find?_append]
      cases (builtHooks rest m.refContext).reverse.find? (fun h => decide (h.Name = k)) with
      | some h => rfl
      | none =>
        by_cases hk : hook.Name = k
        · simp [mapSet, hk]
        · have hk' : ¬ k = hook.Name := fun h => hk h.symm
          simp [mapSet, hk, hk']

theorem find_of_nodup_names {σ : Type} (l : List (EntityHook σ)) (h : EntityHook σ)
    (hnodup : (l.map (fun x => x.Name)).Nodup) (hmem : h ∈ l) :
    l.find? (fun x => decide (x.Name = h.Name)) = some h := by
  induction l with
  | nil => cases hmem
  | cons a rest ih =>
    simp only [List.map_cons, List.nodup_cons, List.mem_map, not_exists, not_and] at hnodup
    rcases List.mem_cons.mp hmem with rfl | hrest
    · simp
    · have hne : ¬ a.Name = h.Name := fun heq => hnodup.1 h hrest heq.symm
      simp only [List.find?_cons, hne, decide_False]
      exact ih hnodup.2 hrest

theorem find_none_of_not_mem_names {σ : Type} (l : List (EntityHook σ)) (k : String)
    (hk : k ∉ l.map (fun x => x.Name)) :
    l.find? (fun x => decide (x.Name = k)) = none := by
  rw [List.find?_eq_none]
  intro x hx
  simp only [decide_eq_true_eq]
  intro hname
  exact hk (List.mem_map.mpr ⟨x, hx, hname⟩)

/-- C9, as the claim states it, fails: two constructors registered as `a` and
`b` both build a hook named `x`; after `InitializeEntityHooks` the map holds
the second hook under `x`, and the first hook is not stored. -/
theorem InitializeEntityHooks_name_collision :
    ¬ StoresEveryBuiltHook collidingRegistry emptyManager := by
  intro h
  have h1 := h ("a", goodEntityConstructor "x" 1) (List.Mem.head _) (nullHook "x" 1) rfl
  have h2 : (InitializeEntityHooks collidingRegistry emptyManager).entityHooks "x"
      = some (nullHook "x" 2) := rfl
  have h3 : (nullHook "x" 1).Name = "x" := rfl
  rw [h3, h2] at h1
  have h4 := congrArg (Option.map (fun hk => hk.Priority)) h1
  revert h4
  decide

/-- C9, amended. When the hooks that the constructors build without error have
pairwise different names, `InitializeEntityHooks` stores each of them under
its `Name()`, wherever failing constructors stand in the registry; names that
no built hook bears keep their old entry (a failing constructor adds none);
the chain map and the reference context are untouched. -/
theorem InitializeEntityHooks_materializes {ρ σ : Type} (reg : Registry ρ σ) (m : Manager ρ σ)
    (hdistinct : ((builtHooks reg m.refContext).map (fun h => h.Name)).Nodup) :
    StoresEveryBuiltHook reg m ∧
      (∀ k, k ∉ (builtHooks reg m.refContext).map (fun h => h.Name) →
        (InitializeEntityHooks reg m).entityHooks k = m.entityHooks k) ∧
      (InitializeEntityHooks reg m).entityProcesses = m.entityProcesses ∧
      (InitializeEntityHooks reg m).refContext = m.refContext := by
  refine ⟨?_, ?_, InitializeEntityHooks_entityProcesses reg m,
    InitializeEntityHooks_refContext reg m⟩
  · intro p hp hook hok
    have hmem : hook ∈ (builtHooks reg m.refContext).reverse := by
      rw [List.mem_reverse]
      exact List.mem_filterMap.mpr ⟨p, hp, by simp [hok]⟩
    have hnd : ((builtHooks reg m.refContext).reverse.map (fun h => h.Name)).Nodup := by
      rw [List.map_reverse]
      exact List.nodup_reverse.mpr hdistinct
    rw [InitializeEntityHooks_entityHooks, find_of_nodup_names _ hook hnd hmem]
  · intro k hk
    have hk' : k ∉ (builtHooks reg m.refContext).reverse.map (fun h => h.Name) := by
      rw [List.map_reverse, List.mem_reverse]
      exact hk
    rw [InitializeEntityHooks_entityHooks, find_none_of_not_mem_names _ k hk']

/-- Witness for amended C9: of a good, a failing and another good constructor,
both good hooks are stored and the failing one leaves no entry. -/
theorem InitializeEntityHooks_materializes_witness :
    ((InitializeEntityHooks mixedRegistry emptyManager).entityHooks "null-hook2").map
        (fun h => h.Priority) = some 40 ∧
      (InitializeEntityHooks mixedRegistry emptyManager).entityHooks "bad-hook" = none :=
  ⟨congrArg (Option.map (fun h => h.Priority))
      ((InitializeEntityHooks_materializes mixedRegistry emptyManager (by decide)).1
        ("null-hook2", goodEntityConstructor "null-hook2" 40)
        (List.Mem.tail _ (List.Mem.tail _ (List.Mem.head _))) (nullHook "null-hook2" 40) rfl),
    (InitializeEntityHooks_materializes mixedRegistry emptyManager (by decide)).2.1 "bad-hook"
      (by decide)⟩

/-! ## Chain assembly: C3, C4 -/

theorem chain_mapSet_self {ρ σ : Type} (m : Manager ρ σ) (chain : String)
    (l : List (EntityHook σ)) :
    ({ m with entityProcesses := mapSet m.entityProcesses chain l } : Manager ρ σ).chain chain
      = l := by
  simp [Manager.chain, mapSet]

theorem registerHooks_assemble {ρ σ : Type}
    (sortSlice : (EntityHook σ → EntityHook σ → Bool) → List (EntityHook σ) → List (EntityHook σ))
    (chain : String) (names : List String) (m m' : Manager ρ σ)
    (hok : registerHooks sortSlice chain names m = (m', none)) :
    m'.chain chain = assemble sortSlice (m.chain chain) (namedHooks m.entityHooks names) ∧
      names.map m.entityHooks = (namedHooks m.entityHooks names).map some ∧
      (∀ k, k ≠ chain → m'.entityProcesses k = m.entityProcesses k) ∧
      m'.entityHooks = m.entityHooks := by
  induction names generalizing m with
  | nil =>
    simp only [registerHooks, Prod.mk.injEq, and_true] at hok
    subst hok
    simp [assemble, namedHooks]
  | cons h hooks ih =>
    simp only [registerHooks] at hok
    cases heph : m.entityHooks h with
    | none =>
      simp [RegisterEntityHookToChain, heph] at hok
    | some eph =>
      simp only [RegisterEntityHookToChain, heph] at hok
      obtain ⟨h1, h2, h3, h4⟩ := ih _ hok
      simp only [chain_mapSet_self] at h1
      refine ⟨?_, ?_, ?_, ?_⟩
      · rw [h1]
        simp [assemble, namedHooks, List.filterMap_cons, heph]
      · simp only [List.map_cons, heph, namedHooks, List.filterMap_cons]
        simp only [namedHooks] at h2
        rw [h2]
      · intro k hk
        rw [h3 k hk]
        simp [mapSet, hk]
      · rw [h4]

theorem InitializeEntityChains_assemble {ρ σ : Type}
    (sortSlice : (EntityHook σ → EntityHook σ → Bool) → List (EntityHook σ) → List (EntityHook σ))
    (c : ChainConfig) (m m' : Manager ρ σ) (hkeys : (c.map Prod.fst).Nodup)
    (hok : InitializeEntityChains sortSlice m c = (m', none)) :
    (∀ p ∈ c, m'.chain p.1 = assemble sortSlice (m.chain p.1) (namedHooks m.entityHooks p.2) ∧
        p.2.map m.entityHooks = (namedHooks m.entityHooks p.2).map some) ∧
      (∀ k, k ∉ c.map Prod.fst → m'.entityProcesses k = m.entityProcesses k) := by
  induction c generalizing m with
  | nil =>
    simp only [InitializeEntityChains, Prod.mk.injEq, and_true] at hok
    subst hok
    simp
  | cons q rest ih =>
    obtain ⟨chain, names⟩ := q
    simp only [List.map_cons, List.nodup_cons] at hkeys
    simp only [InitializeEntityChains] at hok
    cases hreg : registerHooks sortSlice chain names m with
    | mk m1 e1 =>
      cases e1 with
      | some err => simp [hreg] at hok
      | none =>
        simp only [hreg] at hok
        obtain ⟨h1, h2, h3, h4⟩ := registerHooks_assemble sortSlice chain names m m1 hreg
        obtain ⟨i1, i2⟩ := ih m1 hkeys.2 hok
        refine ⟨?_, ?_⟩
        · intro p hp
          rcases List.mem_cons.mp hp with rfl | hp
          · refine ⟨?_, h2⟩
            have : m'.chain chain = m1.chain chain := by
              simp only [Manager.chain, i2 chain hkeys.1]
            rw [this, h1]
          · have hne : p.1 ≠ chain := by
              intro heq
              exact hkeys.1 (heq ▸ List.mem_map.mpr ⟨p, hp, rfl⟩)
            have hc : m1.chain p.1 = m.chain p.1 := by
              simp only [Manager.chain, h3 p.1 hne]
            have := i1 p hp
            rw [h4, hc] at this
            exact this
        · intro k hk
          simp only [List.map_cons, List.mem_cons, not_or] at hk
          rw [i2 k hk.2, h3 k hk.1]

theorem assemble_perm {σ : Type}
    (sortSlice : (EntityHook σ → EntityHook σ → Bool) → List (EntityHook σ) → List (EntityHook σ))
    (hperm : ∀ l, (sortSlice priorityLess l).Perm l) (start listed : List (EntityHook σ)) :
    (assemble sortSlice start listed).Perm (start ++ listed) := by
  induction listed generalizing start with
  | nil => simp [assemble]
  | cons h rest ih =>
    have h1 : assemble sortSlice start (h :: rest) =
        assemble sortSlice (sortSlice priorityLess (start ++ [h])) rest := rfl
    rw [h1]
    refine (ih _).trans ?_
    have : start ++ h :: rest = (start ++ [h]) ++ rest := by simp
    rw [this]
    exact (hperm _).append_right rest

theorem assemble_sorted {σ : Type}
    (sortSlice : (EntityHook σ → EntityHook σ → Bool) → List (EntityHook σ) → List (EntityHook σ))
    (hsorted : ∀ l, (sortSlice priorityLess l).Pairwise (fun a b => a.Priority ≤ b.Priority))
    (start listed : List (EntityHook σ))
    (hstart : start.Pairwise (fun a b => a.Priority ≤ b.Priority)) :
    (assemble sortSlice start listed).Pairwise (fun a b => a.Priority ≤ b.Priority) := by
  induction listed generalizing start with
  | nil => simpa [assemble] using hstart
  | cons h rest ih => exact ih _ (hsorted _)

theorem insertionSortSlice_sorts {σ : Type} :
    SortsByPriority (insertionSortSlice : (EntityHook σ → EntityHook σ → Bool) → _ → _) := by
  intro l
  refine ⟨List.perm_insertionSort _ l, ?_⟩
  have hs : (l.insertionSort (fun a b : EntityHook σ => priorityLess b a = false)).Sorted
      (fun a b => priorityLess b a = false) := by
    haveI : IsTotal (EntityHook σ) (fun a b => priorityLess b a = false) :=
      ⟨fun a b => by
        simp only [priorityLess, decide_eq_false_iff_not, not_lt]
        exact le_total a.Priority b.Priority⟩
    haveI : IsTrans (EntityHook σ) (fun a b => priorityLess b a = false) :=
      ⟨fun a b c hab hbc => by
        simp only [priorityLess, decide_eq_false_iff_not, not_lt] at hab hbc ⊢
        exact le_trans hab hbc⟩
    exact List.sorted_insertionSort _ l
  refine List.Pairwise.imp ?_ hs
  intro a b hab
  simpa [priorityLess] using hab

/-- C3. After `InitializeEntityChains(c)` returns nil on a manager with no chain
yet, every chain named in `c` is sorted in non-decreasing order of `Priority()`
and is a rearrangement of the hooks that `c` lists for it, each listed name
standing for a hook of the hook map. `sort.Slice` is any function that does
what its documentation promises. -/
theorem InitializeEntityChains_sorted_perm {ρ σ : Type}
    (sortSlice : (EntityHook σ → EntityHook σ → Bool) → List (EntityHook σ) → List (EntityHook σ))
    (hsort : SortsByPriority sortSlice)
    (m : Manager ρ σ) (c : ChainConfig)
    (hfresh : ∀ k, m.entityProcesses k = none)
    (hkeys : (c.map Prod.fst).Nodup)
    (hok : (InitializeEntityChains sortSlice m c).2 = none) :
    ∀ p ∈ c,
      ((InitializeEntityChains sortSlice m c).1.chain p.1).Pairwise
          (fun a b => a.Priority ≤ b.Priority) ∧
        ((InitializeEntityChains sortSlice m c).1.chain p.1).Perm
          (namedHooks m.entityHooks p.2) ∧
        p.2.map m.entityHooks = (namedHooks m.entityHooks p.2).map some := by
  intro p hp
  have hpair : InitializeEntityChains sortSlice m c =
      ((InitializeEntityChains sortSlice m c).1, none) := by
    rw [← hok]
  obtain ⟨h1, _⟩ := InitializeEntityChains_assemble sortSlice c m _ hkeys hpair
  obtain ⟨ha, hb⟩ := h1 p hp
  have hstart : m.chain p.1 = [] := by simp [Manager.chain, hfresh]
  rw [ha, hstart]
  refine ⟨?_, ?_, hb⟩
  · exact assemble_sorted sortSlice (fun l => (hsort l).2) [] _ List.Pairwise.nil
  · simpa using assemble_perm sortSlice (fun l => (hsort l).1) [] (namedHooks m.entityHooks p.2)

/-- Witness for C3: the configuration of the test, `TEST ↦ [null-hook,
null-hook2]` with priorities 50 and 40, assembled with an insertion sort. -/
theorem InitializeEntityChains_sorted_perm_witness :
    (((InitializeEntityChains insertionSortSlice twoHookManager
          [("TEST", ["null-hook", "null-hook2"])]).1.chain "TEST").Pairwise
        (fun a b => a.Priority ≤ b.Priority)) ∧
      ((InitializeEntityChains insertionSortSlice twoHookManager
          [("TEST", ["null-hook", "null-hook2"])]).1.chain "TEST").Perm
        (namedHooks twoHookManager.entityHooks ["null-hook", "null-hook2"]) ∧
      ["null-hook", "null-hook2"].map twoHookManager.entityHooks =
        (namedHooks twoHookManager.entityHooks ["null-hook", "null-hook2"]).map some :=
  InitializeEntityChains_sorted_perm insertionSortSlice insertionSortSlice_sorts twoHookManager
    [("TEST", ["null-hook", "null-hook2"])] (fun _ => rfl) (by decide) (by decide)
    ("TEST", ["null-hook", "null-hook2"]) (List.Mem.head _)

/-! ### `sort.Slice` on at most twelve elements is an insertion sort -/

theorem set_adjacent {α : Type} (A : List α) (y x : α) (C : List α) :
    ((A ++ y :: x :: C).set (A.length + 1) y).set A.length x = A ++ x :: y :: C := by
  induction A with
  | nil => rfl
  | cons a A ih => simp [ih]

theorem getElem?_adjacent_left {α : Type} (A : List α) (y x : α) (C : List α) :
    (A ++ y :: x :: C)[A.length]? = some y := by
  induction A with
  | nil => rfl
  | cons a A ih => simpa using ih

theorem getElem?_adjacent_right {α : Type} (A : List α) (y x : α) (C : List α) :
    (A ++ y :: x :: C)[A.length + 1]? = some x := by
  induction A with
  | nil => simp
  | cons a A ih => simpa using ih

theorem swapAt_adjacent {α : Type} (A : List α) (y x : α) (C : List α) :
    swapAt (A ++ y :: x :: C) (A.length + 1) A.length = A ++ x :: y :: C := by
  unfold swapAt
  rw [getElem?_adjacent_left, getElem?_adjacent_right]
  exact set_adjacent A y x C

theorem lessAt_adjacent {α : Type} (less : α → α → Bool) (A : List α) (y x : α) (C : List α) :
    lessAt less (A ++ y :: x :: C) (A.length + 1) A.length = less x y := by
  unfold lessAt
  rw [getElem?_adjacent_left, getElem?_adjacent_right]

theorem bubble_length {α : Type} (less : α → α → Bool) (x : α) (R : List α) :
    (bubble less x R).length = R.length + 1 := by
  induction R with
  | nil => rfl
  | cons y ys ih =>
    simp only [bubble]
    split <;> simp [ih]

theorem insertionInner_eq_bubble {α : Type} (less : α → α → Bool) (x : α) (R C : List α) :
    insertionInner less 0 R.length (R.reverse ++ x :: C) = (bubble less x R).reverse ++ C := by
  induction R generalizing C with
  | nil => simp [insertionInner, bubble]
  | cons y ys ih =>
    have hdata : (y :: ys).reverse ++ x :: C = ys.reverse ++ y :: x :: C := by simp
    have hlen : ys.reverse.length = ys.length := List.length_reverse ys
    rw [hdata, List.length_cons]
    simp only [insertionInner]
    have hless := lessAt_adjacent less ys.reverse y x C
    have hswap := swapAt_adjacent ys.reverse y x C
    rw [hlen] at hless hswap
    rw [hless, hswap]
    by_cases hxy : less x y = true
    · simp only [Nat.zero_lt_succ, decide_True, hxy, Bool.and_self, if_true, bubble]
      rw [ih]
      simp
    · have hxy' : less x y = false := by simpa using hxy
      simp [hxy', bubble]

theorem insertionOuter_eq_insertFold {α : Type} (less : α → α → Bool) (Q : List α) :
    ∀ (P : List α) (b : Nat), b = P.length + Q.length →
      insertionOuter less 0 b Q.length P.length (P ++ Q) = insertFold less P Q := by
  induction Q with
  | nil => intro P b _; simp [insertionOuter, insertFold]
  | cons x Q ih =>
    intro P b hb
    have hlt : P.length < b := by simp only [List.length_cons] at hb; omega
    simp only [List.length_cons, insertionOuter, hlt, if_true]
    have hinner := insertionInner_eq_bubble less x P.reverse Q
    rw [List.length_reverse, List.reverse_reverse] at hinner
    rw [hinner]
    have hlen : (bubble less x P.reverse).reverse.length = P.length + 1 := by
      rw [List.length_reverse, bubble_length, List.length_reverse]
    have := ih (bubble less x P.reverse).reverse b (by
      rw [hlen]; simp only [List.length_cons] at hb; omega)
    rw [hlen] at this
    rw [this]
    rfl

theorem insertionSort_func_eq_insertFold {α : Type} (less : α → α → Bool) (x : List α) :
    insertionSort_func less x 0 x.length = insertFold less [] x := by
  cases x with
  | nil => rfl
  | cons a t =>
    have := insertionOuter_eq_insertFold less t [a] (t.length + 1) (by simp; omega)
    simpa [insertionSort_func, insertFold, bubble] using this

theorem goSortSlice_eq_insertFold {α : Type} (less : α → α → Bool) (x : List α)
    (hlen : x.length ≤ 12) : goSortSlice less x = insertFold less [] x := by
  unfold goSortSlice
  simp only [pdqsort_func, Nat.sub_zero, hlen, if_true]
  exact insertionSort_func_eq_insertFold less x

theorem bubble_perm {α : Type} (less : α → α → Bool) (x : α) (R : List α) :
    (bubble less x R).Perm (x :: R) := by
  induction R with
  | nil => exact List.Perm.refl _
  | cons y ys ih =>
    simp only [bubble]
    split
    · exact (List.Perm.cons y ih).trans (List.Perm.swap x y ys)
    · exact List.Perm.refl _

theorem insertFold_perm {α : Type} (less : α → α → Bool) (Q P : List α) :
    (insertFold less P Q).Perm (P ++ Q) := by
  induction Q generalizing P with
  | nil => simp [insertFold]
  | cons x Q ih =>
    simp only [insertFold]
    refine (ih _).trans ?_
    have h1 : (bubble less x P.reverse).reverse.Perm (P ++ [x]) := by
      refine (List.reverse_perm _).trans ((bubble_perm less x P.reverse).trans ?_)
      refine (List.Perm.cons x (List.reverse_perm P)).trans ?_
      exact (List.perm_append_singleton x P).symm
    have h2 : P ++ x :: Q = (P ++ [x]) ++ Q := by simp
    rw [h2]
    exact h1.append_right Q

theorem bubble_filter {σ : Type} (p : Int) (x : EntityHook σ) (R : List (EntityHook σ)) :
    (bubble priorityLess x R).reverse.filter (fun h => decide (h.Priority = p)) =
      (R.reverse ++ [x]).filter (fun h => decide (h.Priority = p)) := by
  induction R with
  | nil => rfl
  | cons y ys ih =>
    simp only [bubble]
    by_cases hxy : priorityLess x y = true
    · simp only [hxy, if_true, List.reverse_cons, List.filter_append, ih, List.append_assoc]
      congr 1
      have hlt : x.Priority < y.Priority := by simpa [priorityLess] using hxy
      by_cases hx : x.Priority = p
      · have hy : ¬ y.Priority = p := by omega
        simp [List.filter_cons, hx, hy]
      · simp [List.filter_cons, hx]
    · have hxy' : priorityLess x y = false := by simpa using hxy
      simp [hxy']

theorem insertFold_filter {σ : Type} (p : Int) (Q P : List (EntityHook σ)) :
    (insertFold priorityLess P Q).filter (fun h => decide (h.Priority = p)) =
      (P ++ Q).filter (fun h => decide (h.Priority = p)) := by
  induction Q generalizing P with
  | nil => simp [insertFold]
  | cons x Q ih =>
    simp only [insertFold]
    rw [ih, List.filter_append, bubble_filter, List.reverse_reverse, ← List.filter_append]
    simp

theorem assemble_goSortSlice_ties {σ : Type} (listed start : List (EntityHook σ))
    (hlen : start.length + listed.length ≤ 12) :
    TiesKeepOrder (assemble goSortSlice start listed) (start ++ listed) ∧
      (assemble goSortSlice start listed).length = start.length + listed.length := by
  induction listed generalizing start with
  | nil => exact ⟨fun p => by simp [assemble], by simp [assemble]⟩
  | cons h rest ih =>
    simp only [List.length_cons] at hlen
    have hstep : assemble goSortSlice start (h :: rest) =
        assemble goSortSlice (goSortSlice priorityLess (start ++ [h])) rest := rfl
    have hl1 : (start ++ [h]).length ≤ 12 := by simp; omega
    have heq := goSortSlice_eq_insertFold priorityLess (start ++ [h]) hl1
    have hlen1 : (goSortSlice priorityLess (start ++ [h])).length = start.length + 1 := by
      rw [heq]
      have := (insertFold_perm priorityLess (start ++ [h]) []).length_eq
      simpa using this
    obtain ⟨i1, i2⟩ := ih (goSortSlice priorityLess (start ++ [h])) (by rw [hlen1]; omega)
    refine ⟨?_, ?_⟩
    · intro p
      rw [hstep, i1 p, List.filter_append, heq, insertFold_filter, ← List.filter_append]
      simp
    · rw [hstep, i2, hlen1]
      simp only [List.length_cons]
      omega

/-- C4, as the claim states it, fails on chains longer than twelve hooks: with
`h0`..`h11` of priority 50 listed before `n` of priority 40, the assembled
chain is `n, h6, h2, h3, h4, h5, h0, h7, ..., h11, h1`, so `h6` runs before
`h0` although both have priority 50 and `h0` is listed first. -/
theorem chain_assembly_reorders_ties :
    (InitializeEntityChains goSortSlice thirteenManager thirteenConfig).2 = none ∧
      ((InitializeEntityChains goSortSlice thirteenManager thirteenConfig).1.chain "TEST").map
          (fun hk => hk.Name)
        = ["n", "h6", "h2", "h3", "h4", "h5", "h0", "h7", "h8", "h9", "h10", "h11", "h1"] ∧
      ¬ AssemblyKeepsTieOrder thirteenManager thirteenConfig := by
  refine ⟨by decide, by decide, ?_⟩
  intro h
  have h1 := h ("TEST", thirteenNames) (List.Mem.head _) 50
  have h2 := congrArg (List.map (fun hk => hk.Name)) h1
  revert h2
  decide

/-- C4, amended. Chain assembly keeps ties in listed order for every chain that
lists at most twelve hooks: after `InitializeEntityChains(c)` returns nil on a
manager with no chain yet, in every chain of `c` with at most twelve names
the hooks of equal `Priority()` stand in the order in which `c` lists them. -/
theorem chain_assembly_stable_up_to_twelve {ρ σ : Type} (m : Manager ρ σ) (c : ChainConfig)
    (hfresh : ∀ k, m.entityProcesses k = none)
    (hkeys : (c.map Prod.fst).Nodup)
    (hok : (InitializeEntityChains goSortSlice m c).2 = none) :
    ∀ p ∈ c, p.2.length ≤ 12 →
      TiesKeepOrder ((InitializeEntityChains goSortSlice m c).1.chain p.1)
        (namedHooks m.entityHooks p.2) := by
  intro p hp hlen
  have hpair : InitializeEntityChains goSortSlice m c =
      ((InitializeEntityChains goSortSlice m c).1, none) := by
    rw [← hok]
  obtain ⟨h1, _⟩ := InitializeEntityChains_assemble goSortSlice c m _ hkeys hpair
  obtain ⟨ha, _⟩ := h1 p hp
  have hstart : m.chain p.1 = [] := by simp [Manager.chain, hfresh]
  rw [ha, hstart]
  have hl : ([] : List (EntityHook σ)).length + (namedHooks m.entityHooks p.2).length ≤ 12 := by
    have := List.length_filterMap_le m.entityHooks p.2
    simp only [List.length_nil, Nat.zero_add, namedHooks]
    omega
  simpa using (assemble_goSortSlice_ties (namedHooks m.entityHooks p.2) [] hl).1

/-- Witness for amended C4: two hooks of priority 50 listed around one of
priority 40 keep their listed order. -/
theorem chain_assembly_stable_up_to_twelve_witness :
    TiesKeepOrder
      ((InitializeEntityChains goSortSlice thirteenManager [("TEST", ["h3", "n", "h1"])]).1.chain
        "TEST")
      (namedHooks thirteenManager.entityHooks ["h3", "n", "h1"]) :=
  chain_assembly_stable_up_to_twelve thirteenManager [("TEST", ["h3", "n", "h1"])]
    (fun _ => rfl) (by decide) (by decide) ("TEST", ["h3", "n", "h1"]) (List.Mem.head _)
    (by decide)

/-! ## Entity creation: C10 -/

theorem LoadEntity_error {db : Store} {ID : String} {err : Error}
    (h : LoadEntity db ID = Except.error err) : ∀ x ∈ db, x.GetID ≠ ID := by
  unfold LoadEntity at h
  split at h
  · cases h
  · rename_i hnone
    intro x hx
    have := List.find?_eq_none.mp hnone x hx
    simpa using this

theorem LoadEntity_ok {db : Store} {ID : String} {e : Entity}
    (h : LoadEntity db ID = Except.ok e) : e ∈ db ∧ e.GetID = ID := by
  unfold LoadEntity at h
  split at h
  · rename_i e' hsome
    injection h with h
    subst h
    exact ⟨List.mem_of_find?_eq_some hsome, by simpa using List.find?_some hsome⟩
  · cases h

theorem LoadEntityNumber_error {db : Store} {n : Int} {err : Error}
    (h : LoadEntityNumber db n = Except.error err) : ∀ x ∈ db, x.GetNumber ≠ n := by
  unfold LoadEntityNumber at h
  split at h
  · cases h
  · rename_i hnone
    intro x hx
    have := List.find?_eq_none.mp hnone x hx
    simpa using this

theorem upsert_unique (db : Store) (e : Entity) (hu : UniqueEntities db)
    (hnum : ∀ x ∈ db, x.GetID ≠ e.GetID → x.GetNumber ≠ e.GetNumber) :
    UniqueEntities (upsert db e) := by
  unfold UniqueEntities upsert
  rw [List.pairwise_append]
  refine ⟨hu.sublist (List.filter_sublist db), List.pairwise_singleton _ _, ?_⟩
  intro x hx y hy
  rw [List.mem_singleton] at hy
  subst hy
  rw [List.mem_filter] at hx
  have hid : x.GetID ≠ y.GetID := by simpa using hx.2
  exact ⟨hid, hnum x hx.1 hid⟩

theorem SaveEntity_unique (c : Collaborators) (db : Store) (e : Entity) (hu : UniqueEntities db)
    (hnum : ∀ x ∈ db, x.GetID ≠ e.GetID → x.GetNumber ≠ e.GetNumber) :
    UniqueEntities (SaveEntity c db e).1 := by
  unfold SaveEntity
  split
  · exact hu
  · exact upsert_unique db e hu hnum

theorem setEntitySecretByID_unique (c : Collaborators) (emds : EMDataStore) (ID secret : String)
    (hu : UniqueEntities emds.db) :
    UniqueEntities (setEntitySecretByID c emds ID secret).1.db := by
  unfold setEntitySecretByID
  split
  · exact hu
  · rename_i e hload
    split
    · exact hu
    · rename_i ssecret _
      have hmem := (LoadEntity_ok hload).1
      have hsave := SaveEntity_unique c emds.db { e with Secret := some ssecret } hu (by
        intro x hx hid
        have hne : x ≠ e := by
          intro heq
          subst heq
          exact hid rfl
        have hsymm : Symmetric (fun a b : Entity => a.GetID ≠ b.GetID ∧ a.GetNumber ≠ b.GetNumber) :=
          fun a b hab => ⟨fun h => hab.1 h.symm, fun h => hab.2 h.symm⟩
        exact (List.Pairwise.forall hsymm hu hx hmem hne).2)
      split
      · rename_i db err heq
        rw [heq] at hsave
        exact hsave
      · rename_i db heq
        rw [heq] at hsave
        exact hsave

/-- C10. `newEntity` preserves uniqueness: with storage a collection of entities
keyed by ID, if no two stored entities share an ID or a number before the
call, none do after it, for every ID, number and secret and whatever the
call returns, provided the allocator `nextUIDNumber` returns a number that
no stored entity holds. -/
theorem newEntity_preserves_uniqueness (c : Collaborators) (emds : EMDataStore) (ID : String)
    (uidNumber : Int) (secret : String)
    (hu : UniqueEntities emds.db)
    (halloc : ∀ n, c.nextUIDNumber emds.db = Except.ok n → ∀ e ∈ emds.db, e.GetNumber ≠ n) :
    UniqueEntities (newEntity c emds ID uidNumber secret).1.db := by
  unfold newEntity
  split
  · exact hu
  · rename_i errID hloadID
    split
    · exact hu
    · rename_i errNum hloadNum
      split
      · exact hu
      · rename_i n hn
        have hfreshNum : ∀ e ∈ emds.db, e.GetNumber ≠ n := by
          by_cases hsent : uidNumber = -1
          · rw [if_pos hsent] at hn
            exact halloc n hn
          · rw [if_neg hsent] at hn
            injection hn with hn
            subst hn
            exact LoadEntityNumber_error hloadNum
        have hsave := SaveEntity_unique c emds.db
          { ID := some ID, Number := some n, Secret := some secret, Meta := some {} } hu
          (fun x hx _ => hfreshNum x hx)
        split
        · rename_i db err heq
          rw [heq] at hsave
          exact hsave
        · rename_i db heq
          rw [heq] at hsave
          exact setEntitySecretByID_unique c { emds with db := db } ID secret hsave

/-- Witness for C10: adding `bar` with the sentinel number to a store that holds
`foo` with number 1 leaves a store without shared IDs or numbers. -/
theorem newEntity_preserves_uniqueness_witness :
    UniqueEntities sampleStore.db ∧
      UniqueEntities (newEntity sampleCollaborators sampleStore "bar" (-1) "pw").1.db :=
  ⟨by unfold UniqueEntities; decide,
    newEntity_preserves_uniqueness sampleCollaborators sampleStore "bar" (-1) "pw"
      (by unfold UniqueEntities; decide)
      (by
        intro n hn e he
        have h2 : (Except.ok 2 : Except Error Int) = Except.ok n := hn
        injection h2 with h2
        subst h2
        have he' : e ∈ [fooEntity] := he
        rw [List.mem_singleton] at he'
        subst he'
        decide)⟩

/-! ## Entity creation: C11, C12 -/

theorem LoadEntity_of_mem {db : Store} {ID : String} (h : ∃ x ∈ db, x.GetID = ID) :
    ∃ e, LoadEntity db ID = Except.ok e := by
  unfold LoadEntity
  cases hf : db.find? (fun e => decide (e.GetID = ID)) with
  | some e => exact ⟨e, rfl⟩
  | none =>
    obtain ⟨x, hx, hid⟩ := h
    have := List.find?_eq_none.mp hf x hx
    simp [hid] at this

theorem LoadEntityNumber_of_mem {db : Store} {n : Int} (h : ∃ x ∈ db, x.GetNumber = n) :
    ∃ e, LoadEntityNumber db n = Except.ok e := by
  unfold LoadEntityNumber
  cases hf : db.find? (fun e => decide (e.GetNumber = n)) with
  | some e => exact ⟨e, rfl⟩
  | none =>
    obtain ⟨x, hx, hid⟩ := h
    have := List.find?_eq_none.mp hf x hx
    simp [hid] at this

theorem LoadEntity_of_not_mem {db : Store} {ID : String} (h : ∀ x ∈ db, x.GetID ≠ ID) :
    LoadEntity db ID = Except.error Error.E_NO_ENTITY := by
  unfold LoadEntity
  have : db.find? (fun e => decide (e.GetID = ID)) = none := by
    rw [List.find?_eq_none]
    intro x hx
    simpa using h x hx
  rw [this]

theorem LoadEntityNumber_of_not_mem {db : Store} {n : Int} (h : ∀ x ∈ db, x.GetNumber ≠ n) :
    LoadEntityNumber db n = Except.error Error.E_NO_ENTITY := by
  unfold LoadEntityNumber
  have : db.find? (fun e => decide (e.GetNumber = n)) = none := by
    rw [List.find?_eq_none]
    intro x hx
    simpa using h x hx
  rw [this]

/-- C11. `newEntity` rejects duplicates and leaves the store alone: when an
entity with the given ID is stored it returns `E_DUPLICATE_ID`, whatever the
number; when the ID is new and an entity with the given number is stored it
returns `E_DUPLICATE_UIDNUMBER`; in both cases the data store, and with it
every stored entity, is exactly what it was. -/
theorem newEntity_rejects_duplicates (c : Collaborators) (emds : EMDataStore) (ID : String)
    (uidNumber : Int) (secret : String) :
    ((∃ x ∈ emds.db, x.GetID = ID) →
        newEntity c emds ID uidNumber secret = (emds, some Error.E_DUPLICATE_ID)) ∧
      ((∀ x ∈ emds.db, x.GetID ≠ ID) → (∃ x ∈ emds.db, x.GetNumber = uidNumber) →
        newEntity c emds ID uidNumber secret = (emds, some Error.E_DUPLICATE_UIDNUMBER)) := by
  constructor
  · intro h
    obtain ⟨e, he⟩ := LoadEntity_of_mem h
    simp only [newEntity, he]
  · intro hid hnum
    obtain ⟨e, he⟩ := LoadEntityNumber_of_mem hnum
    simp only [newEntity, LoadEntity_of_not_mem hid, he]

/-- Witness for C11: with `foo` stored under number 1, creating `foo` with
number 2 and creating `bar` with number 1 are both refused and change nothing. -/
theorem newEntity_rejects_duplicates_witness :
    newEntity sampleCollaborators sampleStore "foo" 2 "" =
        (sampleStore, some Error.E_DUPLICATE_ID) ∧
      newEntity sampleCollaborators sampleStore "bar" 1 "" =
        (sampleStore, some Error.E_DUPLICATE_UIDNUMBER) :=
  ⟨(newEntity_rejects_duplicates sampleCollaborators sampleStore "foo" 2 "").1
      ⟨fooEntity, List.Mem.head _, by decide⟩,
    (newEntity_rejects_duplicates sampleCollaborators sampleStore "bar" 1 "").2
      (by
        intro x hx
        have hx' : x ∈ [fooEntity] := hx
        rw [List.mem_singleton] at hx'
        subst hx'
        decide)
      ⟨fooEntity, List.Mem.head _, by decide⟩⟩

theorem SaveEntity_ok {c : Collaborators} {db db' : Store} {e : Entity}
    (h : SaveEntity c db e = (db', none)) : db' = upsert db e := by
  unfold SaveEntity at h
  split at h
  · simp at h
  · simp only [Prod.mk.injEq, and_true] at h
    exact h.symm

theorem LoadEntity_upsert (db : Store) (e : Entity) :
    LoadEntity (upsert db e) e.GetID = Except.ok e := by
  unfold LoadEntity upsert
  rw [List.find?_append]
  have : (db.filter (fun x => decide (x.GetID ≠ e.GetID))).find?
      (fun x => decide (x.GetID = e.GetID)) = none := by
    rw [List.find?_eq_none]
    intro x hx
    rw [List.mem_filter] at hx
    simpa using hx.2
  rw [this]
  simp

theorem setEntitySecretByID_success {c : Collaborators} {emds emds' : EMDataStore}
    {ID secret : String} (h : setEntitySecretByID c emds ID secret = (emds', none)) :
    ∃ e ss, LoadEntity emds.db ID = Except.ok e ∧ c.SecureSecret secret = Except.ok ss ∧
      emds' = { emds with db := upsert emds.db { e with Secret := some ss } } := by
  unfold setEntitySecretByID at h
  split at h
  · simp at h
  · rename_i e hload
    split at h
    · simp at h
    · rename_i ss hss
      split at h
      · simp at h
      · rename_i db hsave
        simp only [Prod.mk.injEq, and_true] at h
        exact ⟨e, ss, hload, hss, by rw [← h, SaveEntity_ok hsave]⟩

/-- What a successful `newEntity` leaves under the ID: the entity with the
resolved number, the secured secret and empty metadata. -/
theorem newEntity_success {c : Collaborators} {emds emds' : EMDataStore} {ID secret : String}
    {uidNumber : Int} (h : newEntity c emds ID uidNumber secret = (emds', none)) :
    ∃ n ss,
      (if uidNumber = -1 then c.nextUIDNumber emds.db else Except.ok uidNumber) = Except.ok n ∧
      c.SecureSecret secret = Except.ok ss ∧
      LoadEntity emds'.db ID =
        Except.ok { ID := some ID, Number := some n, Secret := some ss, Meta := some {} } := by
  unfold newEntity at h
  split at h
  · simp at h
  · split at h
    · simp at h
    · split at h
      · simp at h
      · rename_i n hn
        split at h
        · simp at h
        · rename_i db hsave
          obtain ⟨e, ss, hload, hss, hemds⟩ := setEntitySecretByID_success h
          have hdb := SaveEntity_ok hsave
          subst hdb
          have hnew := LoadEntity_upsert emds.db ⟨some ID, some n, some secret, some {}⟩
          have hid : (⟨some ID, some n, some secret, some {}⟩ : Entity).GetID = ID := rfl
          rw [hid] at hnew
          simp only at hload
          rw [hnew] at hload
          injection hload with hload
          subst hload
          refine ⟨n, ss, hn, hss, ?_⟩
          subst hemds
          exact LoadEntity_upsert _ ⟨some ID, some n, some ss, some {}⟩

/-- C12. The sentinel -1 does not persist through `newEntity`: after a successful
call `newEntity(ID, -1, secret)` the entity stored under `ID` has the number
that `nextUIDNumber` returned (so not -1 when the allocator never returns
-1); and when the call reaches the allocator and the allocator fails,
`newEntity` returns the allocator's error and the store is what it was. -/
theorem newEntity_resolves_sentinel (c : Collaborators) (emds : EMDataStore) (ID : String)
    (secret : String) :
    (∀ emds', newEntity c emds ID (-1) secret = (emds', none) →
        ∃ n e, c.nextUIDNumber emds.db = Except.ok n ∧
          LoadEntity emds'.db ID = Except.ok e ∧ e.Number = some n) ∧
      (∀ err, (∀ x ∈ emds.db, x.GetID ≠ ID) → (∀ x ∈ emds.db, x.GetNumber ≠ -1) →
        c.nextUIDNumber emds.db = Except.error err →
        newEntity c emds ID (-1) secret = (emds, some err)) := by
  constructor
  · intro emds' h
    obtain ⟨n, ss, hn, _, hload⟩ := newEntity_success h
    rw [if_pos rfl] at hn
    exact ⟨n, _, hn, hload, rfl⟩
  · intro err hid hnum halloc
    simp only [newEntity, LoadEntity_of_not_mem hid, LoadEntityNumber_of_not_mem hnum, if_true,
      halloc]

/-- Witness for C12: with `foo` stored under number 1, `newEntity("bar", -1,
"pw")` succeeds and `bar` is stored under the allocated number 2; with a
failing allocator the call returns the allocator's error and stores nothing. -/
theorem newEntity_resolves_sentinel_witness :
    (∃ n e, sampleCollaborators.nextUIDNumber sampleStore.db = Except.ok n ∧
        LoadEntity (newEntity sampleCollaborators sampleStore "bar" (-1) "pw").1.db "bar"
          = Except.ok e ∧ e.Number = some n) ∧
      newEntity failingAllocatorCollaborators sampleStore "bar" (-1) "pw" =
        (sampleStore, some (Error.other "no number")) :=
  ⟨(newEntity_resolves_sentinel sampleCollaborators sampleStore "bar" "pw").1
      (newEntity sampleCollaborators sampleStore "bar" (-1) "pw").1 (by decide),
    (newEntity_resolves_sentinel failingAllocatorCollaborators sampleStore "bar" "pw").2
      (Error.other "no number")
      (by
        intro x hx
        have hx' : x ∈ [fooEntity] := hx
        rw [List.mem_singleton] at hx'
        subst hx'
        decide)
      (by
        intro x hx
        have hx' : x ∈ [fooEntity] := hx
        rw [List.mem_singleton] at hx'
        subst hx'
        decide)
      rfl⟩

/-! ## The hook `set-entity-number`: C13 -/

/-- C13. `SetEntityNumber.Run`: when the delta's number is -1 and the allocator
returns `n`, the working record gets the number `n`; when the allocator
fails, `Run` returns that error and the working record is what it was; when
the delta's number is not -1, the working record gets the delta's number and
the result is the same for every allocator, with the world untouched, so the
allocator is not consulted. In every case the ID, the secret and the
metadata of the working record are unchanged. -/
theorem SetEntityNumber_Run_spec {σ : Type} (NextEntityNumber : σ → σ × Except Error Int)
    (s : σ) (e de : Entity) :
    (de.GetNumber = -1 → ∀ s' n, NextEntityNumber s = (s', Except.ok n) →
        SetEntityNumber.Run NextEntityNumber s e de =
          { world := s', working := { e with Number := some n }, err := none }) ∧
      (de.GetNumber = -1 → ∀ s' err, NextEntityNumber s = (s', Except.error err) →
        SetEntityNumber.Run NextEntityNumber s e de =
          { world := s', working := e, err := some err }) ∧
      (de.GetNumber ≠ -1 → ∀ allocator : σ → σ × Except Error Int,
        SetEntityNumber.Run allocator s e de =
          { world := s, working := { e with Number := de.Number }, err := none }) ∧
      ((SetEntityNumber.Run NextEntityNumber s e de).working.ID = e.ID ∧
        (SetEntityNumber.Run NextEntityNumber s e de).working.Secret = e.Secret ∧
        (SetEntityNumber.Run NextEntityNumber s e de).working.Meta = e.Meta) := by
  refine ⟨?_, ?_, ?_, ?_⟩
  · intro h s' n hn
    simp only [SetEntityNumber.Run, h, if_true, hn]
  · intro h s' err hn
    simp only [SetEntityNumber.Run, h, if_true, hn]
  · intro h allocator
    simp only [SetEntityNumber.Run, h, if_false]
  · unfold SetEntityNumber.Run
    split
    · split <;> exact ⟨rfl, rfl, rfl⟩
    · exact ⟨rfl, rfl, rfl⟩

/-- Witness for C13: with the counter at 5, a delta numbered -1 gives the
working record the number 5; a delta numbered 27 gives it 27 and leaves the
counter alone; a failing allocator leaves the working record as it was. -/
theorem SetEntityNumber_Run_spec_witness :
    SetEntityNumber.Run counterAllocator 5 { ID := some "foo" } { Number := some (-1) } =
        { world := 6, working := { ID := some "foo", Number := some 5 }, err := none } ∧
      SetEntityNumber.Run brokenAllocator 5 { ID := some "foo" } { Number := some (-1) } =
        { world := 5, working := { ID := some "foo" }, err := some (Error.other "no number") } ∧
      SetEntityNumber.Run counterAllocator 5 { ID := some "foo" } { Number := some 27 } =
        { world := 5, working := { ID := some "foo", Number := some 27 }, err := none } :=
  ⟨(SetEntityNumber_Run_spec counterAllocator 5 { ID := some "foo" } { Number := some (-1) }).1
      rfl 6 5 rfl,
    (SetEntityNumber_Run_spec brokenAllocator 5 { ID := some "foo" } { Number := some (-1) }).2.1
      rfl 5 (Error.other "no number") rfl,
    (SetEntityNumber_Run_spec counterAllocator 5 { ID := some "foo" } { Number := some 27 }).2.2.1
      (by decide) counterAllocator⟩

/-! ## Secrets: C14, C15, C16 -/

/-- C14 fails on the code. `newEntity` first saves the entity with the plaintext
secret and only then asks `setEntitySecretByID` to secure it: when the crypto
primitive refuses the secret, `newEntity("bar", 2, "pw")` on an empty store
returns the error and leaves `bar` stored with the secret `pw`. -/
theorem newEntity_leaves_plaintext_on_crypto_failure :
    newEntity failingCryptoCollaborators emptyStore "bar" 2 "pw" =
        ({ db := [⟨some "bar", some 2, some "pw", some {}⟩], bootstrap_done := false },
          some (Error.other "crypto failure")) ∧
      ¬ SecretsSecuredAfter failingCryptoCollaborators emptyStore "bar" 2 "pw" := by
  refine ⟨by decide, ?_⟩
  intro h
  have hmem : (⟨some "bar", some 2, some "pw", some {}⟩ : Entity) ∈
      (newEntity failingCryptoCollaborators emptyStore "bar" 2 "pw").1.db := by decide
  exact (h _ hmem).2 rfl

/-- C15. `ValidateSecret`: when the entity cannot be loaded it returns the
storage error, for every crypto primitive (the primitive is not consulted);
when the entity is loaded with a stored secret it returns `E_ENTITY_BADAUTH`
exactly when `VerifySecret(secret, stored)` returns an error and nil exactly
when `VerifySecret` succeeds; whenever it returns, the data store is what it
was. (An entity stored without a secret makes `*e.Secret` panic.) -/
theorem ValidateSecret_spec (c : Collaborators) (emds : EMDataStore) (ID secret : String) :
    (∀ err, LoadEntity emds.db ID = Except.error err →
        ∀ c' : Collaborators, ValidateSecret c' emds ID secret = some (emds, some err)) ∧
      (∀ e stored, LoadEntity emds.db ID = Except.ok e → e.Secret = some stored →
        (ValidateSecret c emds ID secret = some (emds, some Error.E_ENTITY_BADAUTH) ↔
          ∃ err, c.VerifySecret secret stored = some err) ∧
        (ValidateSecret c emds ID secret = some (emds, none) ↔
          c.VerifySecret secret stored = none)) ∧
      (∀ e, LoadEntity emds.db ID = Except.ok e → e.Secret = none →
        ValidateSecret c emds ID secret = none) ∧
      (∀ r, ValidateSecret c emds ID secret = some r → r.1 = emds) := by
  refine ⟨?_, ?_, ?_, ?_⟩
  · intro err hload c'
    simp only [ValidateSecret, hload]
  · intro e stored hload hsecret
    cases hv : c.VerifySecret secret stored with
    | none => simp [ValidateSecret, hload, hsecret, hv]
    | some err => simp [ValidateSecret, hload, hsecret, hv]
  · intro e hload hsecret
    simp only [ValidateSecret, hload, hsecret]
  · intro r hr
    unfold ValidateSecret at hr
    split at hr
    · injection hr with hr
      rw [← hr]
    · split at hr
      · cases hr
      · split at hr <;>
        · injection hr with hr
          rw [← hr]

/-- Witness for C15: with `foo` stored under the secured empty secret, the right
secret is accepted, a wrong one gives `E_ENTITY_BADAUTH`, and an unknown ID
gives the storage error. -/
theorem ValidateSecret_spec_witness :
    ValidateSecret sampleCollaborators sampleStore "foo" "" = some (sampleStore, none) ∧
      ValidateSecret sampleCollaborators sampleStore "foo" "guess" =
        some (sampleStore, some Error.E_ENTITY_BADAUTH) ∧
      ValidateSecret sampleCollaborators sampleStore "a" "a" =
        some (sampleStore, some Error.E_NO_ENTITY) :=
  ⟨((ValidateSecret_spec sampleCollaborators sampleStore "foo" "").2.1 fooEntity "secured:"
      rfl rfl).2.mpr (by decide),
    ((ValidateSecret_spec sampleCollaborators sampleStore "foo" "guess").2.1 fooEntity "secured:"
      rfl rfl).1.mpr ⟨Error.E_ENTITY_BADAUTH, by decide⟩,
    (ValidateSecret_spec sampleCollaborators sampleStore "a" "a").1 Error.E_NO_ENTITY rfl
      sampleCollaborators⟩

/-- C16. Create, then authenticate: when the crypto primitive verifies every
secret against its own secured form, after any successful `newEntity(ID, n,
secret)` the call `ValidateSecret(ID, secret)` returns nil (and leaves the
store alone). -/
theorem newEntity_then_ValidateSecret (c : Collaborators) (emds emds' : EMDataStore)
    (ID secret : String) (uidNumber : Int)
    (hcrypto : ∀ p s, c.SecureSecret p = Except.ok s → c.VerifySecret p s = none)
    (hnew : newEntity c emds ID uidNumber secret = (emds', none)) :
    ValidateSecret c emds' ID secret = some (emds', none) := by
  obtain ⟨n, ss, _, hss, hload⟩ := newEntity_success hnew
  simp only [ValidateSecret, hload, hcrypto secret ss hss]

/-- Witness for C16: `bar` created with the secret `pw` authenticates with `pw`. -/
theorem newEntity_then_ValidateSecret_witness :
    ValidateSecret sampleCollaborators
        (newEntity sampleCollaborators sampleStore "bar" (-1) "pw").1 "bar" "pw" =
      some ((newEntity sampleCollaborators sampleStore "bar" (-1) "pw").1, none) :=
  newEntity_then_ValidateSecret sampleCollaborators sampleStore
    (newEntity sampleCollaborators sampleStore "bar" (-1) "pw").1 "bar" "pw" (-1)
    (by
      intro p s h
      have h' : (Except.ok ("secured:" ++ p) : Except Error String) = Except.ok s := h
      injection h' with h'
      subst h'
      simp [sampleCollaborators])
    (by decide)

/-! ## Capabilities: C17, C18, C19, C20 -/

/-- C17 fails on the code. `SetEntityCapability.Run` copies every capability
other than the delta's first one and sets the list to that one capability
only when the list was empty, so it never appends to a non-empty list and
it removes a capability that is already held: one run with the delta `[10]`
on the list `[20]` leaves `[20]`, and two runs on the empty list leave the
empty list. -/
theorem SetEntityCapability_Run_not_idempotent :
    SetEntityCapability.Run { Meta := some { Capabilities := [20] } }
        { Meta := some { Capabilities := [10] } } =
        some ({ Meta := some { Capabilities := [20] } }, none) ∧
      ¬ HoldsOnceAfter 10 { Meta := some { Capabilities := [20] } } 1 ∧
      SetEntityCapability.RunTimes 2 { Meta := some {} } { Meta := some { Capabilities := [10] } }
        = some { Meta := some { Capabilities := [] } } ∧
      ¬ HoldsOnceAfter 10 { Meta := some {} } 2 := by
  refine ⟨by decide, ?_, by decide, ?_⟩
  · rintro ⟨e', h1, h2⟩
    have hrun : SetEntityCapability.RunTimes 1 { Meta := some { Capabilities := [20] } }
        { Meta := some { Capabilities := [10] } } =
        some { Meta := some { Capabilities := [20] } } := by decide
    rw [hrun] at h1
    injection h1 with h1
    subst h1
    revert h2
    decide
  · rintro ⟨e', h1, h2⟩
    have hrun : SetEntityCapability.RunTimes 2 { Meta := some {} }
        { Meta := some { Capabilities := [10] } } =
        some { Meta := some { Capabilities := [] } } := by decide
    rw [hrun] at h1
    injection h1 with h1
    subst h1
    revert h2
    decide

/-- C18 fails on the code. `SetEntityCapability.Run` takes element `[0]` of the
delta's capability list without looking at its length: on the empty working
record and the empty delta of the test, and on records with empty metadata,
the call panics instead of returning `ErrUnknownCapability`. -/
theorem SetEntityCapability_Run_panics_on_empty_delta :
    SetEntityCapability.Run {} {} = none ∧
      ¬ RejectsEmptyDelta {} {} ∧
      SetEntityCapability.Run { Meta := some {} } { Meta := some {} } = none ∧
      ¬ RejectsEmptyDelta { Meta := some {} } { Meta := some {} } := by
  refine ⟨by decide, ?_, by decide, ?_⟩ <;>
  · intro h
    revert h
    unfold RejectsEmptyDelta
    decide

theorem setEntityCapability_total (c : Collaborators) (Capability_value : String → Option Int)
    (emds : EMDataStore) (e : Entity) (name : String) (m : EntityMeta) (hm : e.Meta = some m) :
    ∃ r, setEntityCapability c Capability_value emds e name = some r := by
  unfold setEntityCapability
  split
  · exact ⟨_, rfl⟩
  · rw [hm]
    simp only
    split
    · exact ⟨_, rfl⟩
    · split <;> exact ⟨_, rfl⟩

/-- C19. `EMDataStore.setEntityCapability` is idempotent: when a first call
returns, a second call with the same name on the entity and the store as
the first call left them returns nil and changes neither the entity (so its
capability list does not grow) nor the store; and the first call returns for
every entity that carries metadata. -/
theorem setEntityCapability_idempotent (c : Collaborators)
    (Capability_value : String → Option Int) (emds : EMDataStore) (e : Entity) (name : String) :
    (∀ r, setEntityCapability c Capability_value emds e name = some r →
        setEntityCapability c Capability_value r.1 r.2.1 name = some (r.1, r.2.1, none)) ∧
      (∀ m, e.Meta = some m → ∃ r, setEntityCapability c Capability_value emds e name = some r) := by
  constructor
  · intro r h
    unfold setEntityCapability at h
    split at h
    · rename_i hname
      injection h with h
      subst h
      simp [setEntityCapability, hname]
    · rename_i hname
      split at h
      · cases h
      · rename_i m hm
        split at h
        · rename_i hmem
          injection h with h
          subst h
          simp [setEntityCapability, hname, hm, hmem]
        · split at h <;>
          · injection h with h
            subst h
            simp [setEntityCapability, hname]
  · intro m hm
    exact setEntityCapability_total c Capability_value emds e name m hm

/-- Witness for C19: granting `GLOBAL_ROOT` to `foo` twice leaves one capability
in the list and in the store, and the second call returns nil. -/
theorem setEntityCapability_idempotent_witness :
    setEntityCapability sampleCollaborators sampleCapabilityValue sampleStore fooEntity
        "GLOBAL_ROOT" = some (rootedStore, rootedFoo, none) ∧
      setEntityCapability sampleCollaborators sampleCapabilityValue rootedStore rootedFoo
        "GLOBAL_ROOT" = some (rootedStore, rootedFoo, none) :=
  ⟨by decide,
    (setEntityCapability_idempotent sampleCollaborators sampleCapabilityValue sampleStore
      fooEntity "GLOBAL_ROOT").1 (rootedStore, rootedFoo, none) (by decide)⟩

/-- C20. No capability twice: when an entity's capability list contains no value
twice, the list the entity has after `EMDataStore.setEntityCapability`
returns (for any name) and the list it has after `SetEntityCapability.Run`
returns (for any delta) contain no value twice; and both calls do return
for an entity that carries metadata, the hook for any non-empty delta
capability list. -/
theorem capabilities_stay_nodup (c : Collaborators) (Capability_value : String → Option Int)
    (emds : EMDataStore) (e de : Entity) (name : String)
    (hnodup : e.GetCapabilities.Nodup) :
    (∀ r, setEntityCapability c Capability_value emds e name = some r →
        r.2.1.GetCapabilities.Nodup) ∧
      (∀ r, SetEntityCapability.Run e de = some r → r.1.GetCapabilities.Nodup) ∧
      (∀ m, e.Meta = some m →
        (∃ r, setEntityCapability c Capability_value emds e name = some r) ∧
        (de.GetCapabilities ≠ [] → ∃ r, SetEntityCapability.Run e de = some r ∧ r.2 = none)) := by
  refine ⟨?_, ?_, ?_⟩
  · intro r h
    unfold setEntityCapability at h
    split at h
    · injection h with h
      subst h
      exact hnodup
    · split at h
      · cases h
      · rename_i m hm
        have hcaps : e.GetCapabilities = m.Capabilities := by simp [Entity.GetCapabilities, hm]
        rw [hcaps] at hnodup
        split at h
        · injection h with h
          subst h
          rw [hcaps]
          exact hnodup
        · rename_i hmem
          have hnew : (m.Capabilities ++ [(Capability_value name).getD 0]).Nodup := by
            rw [List.nodup_append]
            refine ⟨hnodup, List.nodup_singleton _, ?_⟩
            intro a ha hb
            rw [List.mem_singleton] at hb
            subst hb
            exact hmem ha
          split at h <;>
          · injection h with h
            subst h
            exact hnew
  · intro r h
    unfold SetEntityCapability.Run at h
    split at h
    · cases h
    · rename_i cap rest hde
      split at h
      · cases h
      · rename_i m hm
        have hcaps : e.GetCapabilities = m.Capabilities := by simp [Entity.GetCapabilities, hm]
        rw [hcaps] at hnodup
        injection h with h
        subst h
        simp only [Entity.GetCapabilities]
        split
        · exact List.nodup_singleton _
        · exact hnodup.filter _
  · intro m hm
    constructor
    · exact (setEntityCapability_total c Capability_value emds e name m hm)
    · intro hde
      unfold SetEntityCapability.Run
      cases hcaps : de.GetCapabilities with
      | nil => exact absurd hcaps hde
      | cons cap rest =>
        simp only [hm]
        exact ⟨_, rfl, rfl⟩

/-- Witness for C20: `foo` holding `[0]` still holds each capability once after
`CREATE_ENTITY` is granted through the entity manager and after the hook runs
with the delta `[0]`. -/
theorem capabilities_stay_nodup_witness :
    (∀ r, setEntityCapability sampleCollaborators sampleCapabilityValue rootedStore rootedFoo
        "CREATE_ENTITY" = some r → r.2.1.GetCapabilities.Nodup) ∧
      (∀ r, SetEntityCapability.Run rootedFoo { Meta := some { Capabilities := [0] } } = some r →
        r.1.GetCapabilities.Nodup) :=
  ⟨(capabilities_stay_nodup sampleCollaborators sampleCapabilityValue rootedStore rootedFoo
      { Meta := some { Capabilities := [0] } } "CREATE_ENTITY" (by decide)).1,
    (capabilities_stay_nodup sampleCollaborators sampleCapabilityValue rootedStore rootedFoo
      { Meta := some { Capabilities := [0] } } "CREATE_ENTITY" (by decide)).2.1⟩

/-! ## The hook `destroy-entity`: C27 -/

/-- C27. `DestroyEntity.Run` asks storage to delete the ID of the working record
when that ID is not empty and the ID of the delta when it is empty, and it
returns exactly what storage returns (the world storage leaves and its
error). -/
theorem DestroyEntity_Run_spec {σ : Type} (DeleteEntity : σ → String → σ × Option Error)
    (s : σ) (e de : Entity) :
    (e.GetID ≠ "" →
        (DestroyEntity.Run DeleteEntity s e de).world = (DeleteEntity s e.GetID).1 ∧
        (DestroyEntity.Run DeleteEntity s e de).err = (DeleteEntity s e.GetID).2 ∧
        (DestroyEntity.Run DeleteEntity s e de).working = e) ∧
      (e.GetID = "" →
        (DestroyEntity.Run DeleteEntity s e de).world = (DeleteEntity s de.GetID).1 ∧
        (DestroyEntity.Run DeleteEntity s e de).err = (DeleteEntity s de.GetID).2 ∧
        (DestroyEntity.Run DeleteEntity s e de).working = { e with ID := de.ID }) := by
  constructor
  · intro h
    simp only [DestroyEntity.Run, h, if_false, and_self]
  · intro h
    have hid : ({ e with ID := de.ID } : Entity).GetID = de.GetID := rfl
    simp only [DestroyEntity.Run, h, if_true, hid, and_self]

/-- Witness for C27: with `foo` and `bar` stored, a working record `foo` deletes
`foo`; an empty working record with the delta `bar` deletes `bar`; a delta
naming an unknown entity returns the storage error. -/
theorem DestroyEntity_Run_spec_witness :
    (DestroyEntity.Run listDelete ["foo", "bar"] { ID := some "foo" } { ID := some "bar" }).world
        = ["bar"] ∧
      (DestroyEntity.Run listDelete ["foo", "bar"] {} { ID := some "bar" }).world = ["foo"] ∧
      (DestroyEntity.Run listDelete ["foo", "bar"] {} { ID := some "baz" }).err
        = some Error.ErrUnknownEntity :=
  ⟨((DestroyEntity_Run_spec listDelete ["foo", "bar"] { ID := some "foo" }
      { ID := some "bar" }).1 (by decide)).1,
    ((DestroyEntity_Run_spec listDelete ["foo", "bar"] {} { ID := some "bar" }).2 rfl).1,
    ((DestroyEntity_Run_spec listDelete ["foo", "bar"] {} { ID := some "baz" }).2 rfl).2.1⟩

/-! ## Metadata update: C28 -/

/-- C28. `updateEntityMeta` does not merge the protected fields: when the call
returns, the entity's capabilities and groups are what they were, each
scalar field that is set in `newMeta` has the new value, and each scalar
field that is not set in `newMeta` has its old value, whatever `newMeta`
carries as capabilities and groups; the call returns for every entity that
carries metadata. -/
theorem updateEntityMeta_protects (c : Collaborators) (emds : EMDataStore) (e : Entity)
    (newMeta : EntityMeta) :
    (∀ r, updateEntityMeta c emds e newMeta = some r →
        ∃ m m', e.Meta = some m ∧ r.2.1.Meta = some m' ∧
          m'.Capabilities = m.Capabilities ∧ m'.Groups = m.Groups ∧
          (∀ v, newMeta.GECOS = some v → m'.GECOS = some v) ∧
          (∀ v, newMeta.LegalName = some v → m'.LegalName = some v) ∧
          (∀ v, newMeta.DisplayName = some v → m'.DisplayName = some v) ∧
          (newMeta.GECOS = none → m'.GECOS = m.GECOS) ∧
          (newMeta.LegalName = none → m'.LegalName = m.LegalName) ∧
          (newMeta.DisplayName = none → m'.DisplayName = m.DisplayName)) ∧
      (∀ m, e.Meta = some m → ∃ r, updateEntityMeta c emds e newMeta = some r) := by
  constructor
  · intro r h
    unfold updateEntityMeta at h
    split at h
    · cases h
    · rename_i m hm
      have key : ∀ r' : EMDataStore × Entity × Option Error,
          r'.2.1 = { e with Meta := some (mergeMeta m
            { newMeta with Capabilities := [], Groups := [] }) } →
          ∃ m0 m', e.Meta = some m0 ∧ r'.2.1.Meta = some m' ∧
            m'.Capabilities = m0.Capabilities ∧ m'.Groups = m0.Groups ∧
            (∀ v, newMeta.GECOS = some v → m'.GECOS = some v) ∧
            (∀ v, newMeta.LegalName = some v → m'.LegalName = some v) ∧
            (∀ v, newMeta.DisplayName = some v → m'.DisplayName = some v) ∧
            (newMeta.GECOS = none → m'.GECOS = m0.GECOS) ∧
            (newMeta.LegalName = none → m'.LegalName = m0.LegalName) ∧
            (newMeta.DisplayName = none → m'.DisplayName = m0.DisplayName) := by
        intro r' hr'
        refine ⟨m, _, hm, by rw [hr'], ?_, ?_, ?_, ?_, ?_, ?_, ?_, ?_⟩
        · simp [mergeMeta]
        · simp [mergeMeta]
        · intro v hv
          simp [mergeMeta, mergeScalar, hv]
        · intro v hv
          simp [mergeMeta, mergeScalar, hv]
        · intro v hv
          simp [mergeMeta, mergeScalar, hv]
        · intro hv
          simp [mergeMeta, mergeScalar, hv]
        · intro hv
          simp [mergeMeta, mergeScalar, hv]
        · intro hv
          simp [mergeMeta, mergeScalar, hv]
      split at h <;>
      · injection h with h
        exact key r (by rw [← h])
  · intro m hm
    unfold updateEntityMeta
    rw [hm]
    simp only
    split <;> exact ⟨_, rfl⟩

/-- Witness for C28: merging a legal name and a group into `foo`, which holds the
super-capability, sets the legal name and leaves capabilities and groups
alone. -/
theorem updateEntityMeta_protects_witness :
    ∃ r m', updateEntityMeta sampleCollaborators rootedStore rootedFoo
          { LegalName := some "Foobert McMillan", Groups := ["wheel"], Capabilities := [10] }
          = some r ∧
        r.2.1.Meta = some m' ∧ m'.Capabilities = [0] ∧ m'.Groups = [] ∧
        m'.LegalName = some "Foobert McMillan" ∧ m'.GECOS = none := by
  have t := updateEntityMeta_protects sampleCollaborators rootedStore rootedFoo
    { LegalName := some "Foobert McMillan", Groups := ["wheel"], Capabilities := [10] }
  obtain ⟨r, hr⟩ := t.2 { Capabilities := [0] } rfl
  obtain ⟨m, m', hm, hm', hcap, hgrp, _, hlegal, _, hgecos, _, _⟩ := t.1 r hr
  have hm0 : m = { Capabilities := [0] } := by
    have hfoo : rootedFoo.Meta = some { Capabilities := [0] } := rfl
    rw [hfoo] at hm
    injection hm with hm
    exact hm.symm
  subst hm0
  exact ⟨r, m', hr, hm', hcap, hgrp, hlegal _ rfl, hgecos rfl⟩

/-! ## Missing chains and unknown capability names: C29, C30 -/

/-- C29. `RunEntityChain` does not check that the chain exists: for a chain name
that is not a key of the chain map, or that maps to the empty list, and for
every delta, it runs no hook and returns the empty entity with a nil error,
not `ErrUnknownHookChain`. -/
theorem RunEntityChain_missing_chain {ρ σ : Type} (m : Manager ρ σ) (s : σ) (chain : String)
    (de : Entity)
    (hmissing : m.entityProcesses chain = none ∨ m.entityProcesses chain = some []) :
    RunEntityChain m s chain de =
      { world := s, executed := [], entity := some {}, err := none } := by
  have hchain : m.chain chain = [] := by
    rcases hmissing with h | h <;> simp [Manager.chain, h]
  simp [RunEntityChain, hchain, runHookLoop]

/-- Witness for C29: the sample manager has no chain `DESTROY`; running it
returns the empty entity and no error. -/
theorem RunEntityChain_missing_chain_witness :
    RunEntityChain sampleManager () "DESTROY" { ID := some "foo" } =
      { world := (), executed := [], entity := some {}, err := none } :=
  RunEntityChain_missing_chain sampleManager () "DESTROY" { ID := some "foo" } (Or.inl rfl)

/-- C30. `EMDataStore.setEntityCapability` does not reject unknown names: an empty
name is a no-op that returns nil; for a non-empty name that is not in the
name table the lookup gives the zero value, and on an entity with metadata
the call returns nil at once when the entity holds the value 0, and
otherwise appends 0 to the entity's capabilities, hands the entity to
`SaveEntity` and returns what `SaveEntity` returns, nil when the write is
accepted. -/
theorem setEntityCapability_unknown_name (c : Collaborators)
    (Capability_value : String → Option Int) (emds : EMDataStore) (e : Entity) (name : String) :
    (name.length = 0 →
        setEntityCapability c Capability_value emds e name = some (emds, e, none)) ∧
      (name.length ≠ 0 → Capability_value name = none → ∀ m, e.Meta = some m →
        (0 ∈ m.Capabilities →
          setEntityCapability c Capability_value emds e name = some (emds, e, none)) ∧
        (0 ∉ m.Capabilities →
          setEntityCapability c Capability_value emds e name =
            some ({ emds with db := (SaveEntity c emds.db (appendCapability e m 0)).1 },
              appendCapability e m 0, (SaveEntity c emds.db (appendCapability e m 0)).2)) ∧
        (0 ∉ m.Capabilities → c.saveError emds.db (appendCapability e m 0) = none →
          setEntityCapability c Capability_value emds e name =
            some ({ emds with db := upsert emds.db (appendCapability e m 0) },
              appendCapability e m 0, none))) := by
  constructor
  · intro h
    simp [setEntityCapability, h]
  · intro hname htable m hm
    have hgeneral : 0 ∉ m.Capabilities →
        setEntityCapability c Capability_value emds e name =
          some ({ emds with db := (SaveEntity c emds.db (appendCapability e m 0)).1 },
            appendCapability e m 0, (SaveEntity c emds.db (appendCapability e m 0)).2) := by
      intro h
      simp only [setEntityCapability, hname, if_false, hm, htable, Option.getD_none, h,
        appendCapability]
      split <;> rename_i heq <;> simp [heq]
    refine ⟨?_, hgeneral, ?_⟩
    · intro h
      simp [setEntityCapability, hname, hm, htable, h]
    · intro h hsave
      rw [hgeneral h]
      simp [SaveEntity, hsave]

/-- Witness for C30: the name `NO_SUCH_CAPABILITY` is not in the table; granting
it to `bar`, stored without capabilities, appends the value 0, which is the
value of `GLOBAL_ROOT`, and returns nil. -/
theorem setEntityCapability_unknown_name_witness :
    setEntityCapability sampleCollaborators sampleCapabilityValue sampleStore fooEntity
        "NO_SUCH_CAPABILITY" = some (rootedStore, rootedFoo, none) :=
  ((setEntityCapability_unknown_name sampleCollaborators sampleCapabilityValue sampleStore
    fooEntity "NO_SUCH_CAPABILITY").2 (by decide) rfl {} rfl).2.2 (by decide) rfl

/-! ## Bootstrap: C22, C23, C24 -/

theorem MakeBootstrap_latched (c : Collaborators) (Capability_value : String → Option Int)
    (emds : EMDataStore) (ID secret : String) (h : emds.bootstrap_done = true) :
    MakeBootstrap c Capability_value emds ID secret = some emds := by
  simp [MakeBootstrap, h]

theorem MakeBootstrap_sets_latch (c : Collaborators) (Capability_value : String → Option Int)
    (emds r : EMDataStore) (ID secret : String)
    (h : MakeBootstrap c Capability_value emds ID secret = some r) :
    r.bootstrap_done = true := by
  unfold MakeBootstrap at h
  split at h
  · rename_i hl
    injection h with h
    rw [← h]
    exact hl
  · split at h
    · split at h
      · cases h
      · injection h with h
        rw [← h]
    · split at h
      · cases h
      · injection h with h
        rw [← h]

theorem mem_upsert {db : Store} {e x : Entity} (h : x ∈ upsert db e) : x ∈ db ∨ x = e := by
  unfold upsert at h
  rw [List.mem_append, List.mem_filter, List.mem_singleton] at h
  rcases h with h | h
  · exact Or.inl h.1
  · exact Or.inr h

theorem mem_SaveEntity {c : Collaborators} {db : Store} {e x : Entity}
    (h : x ∈ (SaveEntity c db e).1) : x ∈ db ∨ x = e := by
  unfold SaveEntity at h
  split at h
  · exact Or.inl h
  · exact mem_upsert h

theorem setEntitySecretByID_keeps_meta (c : Collaborators) (emds : EMDataStore)
    (ID secret : String) (hmeta : ∀ x ∈ emds.db, x.Meta ≠ none) :
    ∀ x ∈ (setEntitySecretByID c emds ID secret).1.db, x.Meta ≠ none := by
  unfold setEntitySecretByID
  split
  · exact hmeta
  · rename_i e hload
    split
    · exact hmeta
    · rename_i ss _
      have hsave : ∀ x ∈ (SaveEntity c emds.db { e with Secret := some ss }).1, x.Meta ≠ none := by
        intro x hx
        rcases mem_SaveEntity hx with h | h
        · exact hmeta x h
        · rw [h]
          exact hmeta e (LoadEntity_ok hload).1
      split
      · rename_i db err heq
        rw [heq] at hsave
        exact hsave
      · rename_i db heq
        rw [heq] at hsave
        exact hsave

theorem newEntity_keeps_meta (c : Collaborators) (emds : EMDataStore) (ID secret : String)
    (uidNumber : Int) (hmeta : ∀ x ∈ emds.db, x.Meta ≠ none) :
    ∀ x ∈ (newEntity c emds ID uidNumber secret).1.db, x.Meta ≠ none := by
  unfold newEntity
  split
  · exact hmeta
  · split
    · exact hmeta
    · split
      · exact hmeta
      · rename_i n _
        have hsave : ∀ x ∈ (SaveEntity c emds.db ⟨some ID, some n, some secret, some {}⟩).1,
            x.Meta ≠ none := by
          intro x hx
          rcases mem_SaveEntity hx with h | h
          · exact hmeta x h
          · rw [h]
            simp
        split
        · rename_i db err heq
          rw [heq] at hsave
          exact hsave
        · rename_i db heq
          rw [heq] at hsave
          exact setEntitySecretByID_keeps_meta c { emds with db := db } ID secret hsave

theorem setEntityCapabilityByID_total (c : Collaborators)
    (Capability_value : String → Option Int) (emds : EMDataStore) (ID name : String)
    (hmeta : ∀ x ∈ emds.db, x.Meta ≠ none) :
    ∃ r, setEntityCapabilityByID c Capability_value emds ID name = some r := by
  unfold setEntityCapabilityByID
  split
  · exact ⟨_, rfl⟩
  · rename_i e hload
    have hne := hmeta e (LoadEntity_ok hload).1
    cases hm : e.Meta with
    | none => exact absurd hm hne
    | some m =>
      obtain ⟨r, hr⟩ := setEntityCapability_total c Capability_value emds e name m hm
      rw [hr]
      exact ⟨_, rfl⟩

theorem MakeBootstrap_total (c : Collaborators) (Capability_value : String → Option Int)
    (emds : EMDataStore) (ID secret : String) (hmeta : ∀ x ∈ emds.db, x.Meta ≠ none) :
    ∃ r, MakeBootstrap c Capability_value emds ID secret = some r := by
  unfold MakeBootstrap
  split
  · exact ⟨_, rfl⟩
  · split
    · rename_i e hload
      have hne := hmeta e (LoadEntity_ok hload).1
      cases hm : e.Meta with
      | none => exact absurd hm hne
      | some m =>
        obtain ⟨r, hr⟩ := setEntityCapability_total c Capability_value emds e "GLOBAL_ROOT" m hm
        rw [hr]
        exact ⟨_, rfl⟩
    · obtain ⟨r, hr⟩ := setEntityCapabilityByID_total c Capability_value
        (newEntity c emds ID (-1) secret).1 ID "GLOBAL_ROOT"
        (newEntity_keeps_meta c emds ID secret (-1) hmeta)
      rw [hr]
      exact ⟨_, rfl⟩

/-- C22. Bootstrap idempotence: from every initial state and with every
collaborator behaviour (entity present or not, creation or grant failing or
not), once a call to `MakeBootstrap` has returned, any further call
`MakeBootstrap(ID', secret')`, with any arguments and any collaborator
behaviour, leaves the data store, hence storage, exactly as it is; and the
first call returns whenever every stored entity carries metadata. -/
theorem MakeBootstrap_idempotent (c : Collaborators) (Capability_value : String → Option Int)
    (emds : EMDataStore) (ID secret : String) :
    (∀ r, MakeBootstrap c Capability_value emds ID secret = some r →
        ∀ (c' : Collaborators) (table : String → Option Int) (ID' secret' : String),
          MakeBootstrap c' table r ID' secret' = some r) ∧
      ((∀ x ∈ emds.db, x.Meta ≠ none) →
        ∃ r, MakeBootstrap c Capability_value emds ID secret = some r) := by
  constructor
  · intro r h c' table ID' secret'
    exact MakeBootstrap_latched c' table r ID' secret'
      (MakeBootstrap_sets_latch c Capability_value emds r ID secret h)
  · exact MakeBootstrap_total c Capability_value emds ID secret

/-- Witness for C22: a first bootstrap on a storage that refuses every write
creates nothing and still latches; a second bootstrap with other arguments
and a working storage changes nothing. -/
theorem MakeBootstrap_idempotent_witness :
    MakeBootstrap refusingCollaborators sampleCapabilityValue emptyStore "a" "s" =
        some (DisableBootstrap emptyStore) ∧
      MakeBootstrap sampleCollaborators sampleCapabilityValue (DisableBootstrap emptyStore)
        "b" "t" = some (DisableBootstrap emptyStore) :=
  ⟨by decide,
    (MakeBootstrap_idempotent refusingCollaborators sampleCapabilityValue emptyStore "a" "s").1
      (DisableBootstrap emptyStore) (by decide) sampleCollaborators sampleCapabilityValue
      "b" "t"⟩

/-- C23. A latched bootstrap is a no-op: when the latch is set, and so right after
`DisableBootstrap`, `MakeBootstrap(ID, secret)` returns at its first test, the
data store and the latch being what they were for every ID and secret,
every store content and every collaborator behaviour, so no storage read or
write takes part; `DisableBootstrap` sets the latch and changes nothing
else. -/
theorem MakeBootstrap_latched_noop (emds : EMDataStore) :
    (emds.bootstrap_done = true →
        ∀ (c : Collaborators) (table : String → Option Int) (ID secret : String),
          MakeBootstrap c table emds ID secret = some emds) ∧
      (∀ (c : Collaborators) (table : String → Option Int) (ID secret : String),
        MakeBootstrap c table (DisableBootstrap emds) ID secret = some (DisableBootstrap emds)) ∧
      (DisableBootstrap emds).db = emds.db ∧
      (DisableBootstrap emds).bootstrap_done = true := by
  refine ⟨?_, ?_, rfl, rfl⟩
  · intro h c table ID secret
    exact MakeBootstrap_latched c table emds ID secret h
  · intro c table ID secret
    exact MakeBootstrap_latched c table (DisableBootstrap emds) ID secret rfl

/-- Witness for C23: after `DisableBootstrap` on the sample store, `MakeBootstrap`
changes nothing. -/
theorem MakeBootstrap_latched_noop_witness :
    MakeBootstrap sampleCollaborators sampleCapabilityValue (DisableBootstrap sampleStore)
        "root" "pw" = some (DisableBootstrap sampleStore) :=
  (MakeBootstrap_latched_noop (DisableBootstrap sampleStore)).1 rfl sampleCollaborators
    sampleCapabilityValue "root" "pw"

theorem upsert_fresh {db : Store} {e : Entity} (h : ∀ x ∈ db, x.GetID ≠ e.GetID) :
    upsert db e = db ++ [e] := by
  unfold upsert
  rw [List.filter_eq_self.mpr]
  intro x hx
  simpa using h x hx

theorem upsert_replace_last {db : Store} {e e' : Entity} (h : ∀ x ∈ db, x.GetID ≠ e'.GetID)
    (hid : e.GetID = e'.GetID) : upsert (db ++ [e]) e' = db ++ [e'] := by
  unfold upsert
  rw [List.filter_append, List.filter_eq_self.mpr (fun x hx => by simpa using h x hx)]
  simp [hid]

theorem LoadEntity_append_fresh {db : Store} {e : Entity} {ID : String}
    (h : ∀ x ∈ db, x.GetID ≠ ID) (hid : e.GetID = ID) :
    LoadEntity (db ++ [e]) ID = Except.ok e := by
  unfold LoadEntity
  rw [List.find?_append]
  have : db.find? (fun x => decide (x.GetID = ID)) = none := by
    rw [List.find?_eq_none]
    intro x hx
    simpa using h x hx
  rw [this]
  simp [hid]

theorem SaveEntity_of_accepting {c : Collaborators} (hsave : ∀ db e, c.saveError db e = none)
    (db : Store) (e : Entity) : SaveEntity c db e = (upsert db e, none) := by
  unfold SaveEntity
  rw [hsave db e]

/-- What `newEntity(ID, -1, secret)` leaves when the ID is new, no stored number is
the sentinel and the collaborators succeed: the store with one entity more. -/
theorem newEntity_fresh {c : Collaborators} {emds : EMDataStore} {ID secret ss : String}
    {n : Int} (hsave : ∀ db e, c.saveError db e = none)
    (hid : ∀ x ∈ emds.db, x.GetID ≠ ID) (hnum : ∀ x ∈ emds.db, x.GetNumber ≠ -1)
    (hn : c.nextUIDNumber emds.db = Except.ok n) (hss : c.SecureSecret secret = Except.ok ss) :
    newEntity c emds ID (-1) secret =
      ({ emds with db := emds.db ++ [⟨some ID, some n, some ss, some {}⟩] }, none) := by
  have hfresh : upsert emds.db ⟨some ID, some n, some secret, some {}⟩ =
      emds.db ++ [⟨some ID, some n, some secret, some {}⟩] := upsert_fresh hid
  have hload : LoadEntity (emds.db ++ [⟨some ID, some n, some secret, some {}⟩]) ID =
      Except.ok ⟨some ID, some n, some secret, some {}⟩ := LoadEntity_append_fresh hid rfl
  have hrepl : upsert (emds.db ++ [⟨some ID, some n, some secret, some {}⟩])
      ⟨some ID, some n, some ss, some {}⟩ = emds.db ++ [⟨some ID, some n, some ss, some {}⟩] :=
    upsert_replace_last hid rfl
  unfold newEntity
  rw [LoadEntity_of_not_mem hid, LoadEntityNumber_of_not_mem hnum]
  simp only [if_true, hn, SaveEntity_of_accepting hsave, hfresh]
  unfold setEntitySecretByID
  simp only [hload, hss, SaveEntity_of_accepting hsave, hrepl]

/-- A capability the entity holds: `setEntityCapability` returns nil and changes
nothing. -/
theorem setEntityCapability_held (c : Collaborators) (Capability_value : String → Option Int)
    (emds : EMDataStore) (e : Entity) (name : String) (m : EntityMeta) (hm : e.Meta = some m)
    (hin : (Capability_value name).getD 0 ∈ m.Capabilities) :
    setEntityCapability c Capability_value emds e name = some (emds, e, none) := by
  unfold setEntityCapability
  split
  · rfl
  · simp only [hm, hin, if_true]

/-- A capability the entity does not hold, on a storage that accepts every
write: `setEntityCapability` appends it and saves the entity. -/
theorem setEntityCapability_appends {c : Collaborators} {Capability_value : String → Option Int}
    (hsave : ∀ db e, c.saveError db e = none) (emds : EMDataStore) (e : Entity) (name : String)
    (m : EntityMeta) (hm : e.Meta = some m) (hname : ¬ name.length = 0)
    (hin : (Capability_value name).getD 0 ∉ m.Capabilities) :
    setEntityCapability c Capability_value emds e name =
      some (⟨upsert emds.db (appendCapability e m ((Capability_value name).getD 0)),
          emds.bootstrap_done⟩,
        appendCapability e m ((Capability_value name).getD 0), none) := by
  unfold setEntityCapability
  simp only [hm, hin, hname, if_false, SaveEntity_of_accepting hsave, appendCapability]

/-- C24. Bootstrap grant: with the latch open and a storage that accepts every
write, `MakeBootstrap(ID, secret)` returns with the latch set and (a) when an
entity `e` is stored under `ID` (and carries metadata), an entity with the
number and secret of `e` is stored under `ID` and holds `GLOBAL_ROOT`, the
store has not grown, and the stored IDs are the same as before; (b) when no
entity has the ID (and no stored number is the sentinel -1), the allocator
returning `n` and the crypto primitive `ss`, the store is the old one with
exactly one entity added: `ID`, number `n`, secret `ss`, holding `GLOBAL_ROOT`. -/
theorem MakeBootstrap_grants (c : Collaborators) (Capability_value : String → Option Int)
    (emds : EMDataStore) (ID secret : String) (hlatch : emds.bootstrap_done = false)
    (hsave : ∀ db e, c.saveError db e = none) :
    (∀ e m, LoadEntity emds.db ID = Except.ok e → e.Meta = some m →
      ∃ r e', MakeBootstrap c Capability_value emds ID secret = some r ∧
        r.bootstrap_done = true ∧
        LoadEntity r.db ID = Except.ok e' ∧
        (Capability_value "GLOBAL_ROOT").getD 0 ∈ e'.GetCapabilities ∧
        e'.Number = e.Number ∧ e'.Secret = e.Secret ∧
        r.db.length ≤ emds.db.length ∧
        (∀ x ∈ r.db, ∃ y ∈ emds.db, y.GetID = x.GetID) ∧
        (∀ y ∈ emds.db, ∃ x ∈ r.db, x.GetID = y.GetID)) ∧
    (∀ n ss, (∀ x ∈ emds.db, x.GetID ≠ ID) → (∀ x ∈ emds.db, x.GetNumber ≠ -1) →
      c.nextUIDNumber emds.db = Except.ok n → c.SecureSecret secret = Except.ok ss →
      MakeBootstrap c Capability_value emds ID secret =
        some ⟨emds.db ++ [⟨some ID, some n, some ss,
          some { Capabilities := [(Capability_value "GLOBAL_ROOT").getD 0] }⟩], true⟩) := by
  constructor
  · intro e m hload hm
    obtain ⟨hmem, hid⟩ := LoadEntity_ok hload
    unfold MakeBootstrap
    simp only [hlatch, hload, Bool.false_eq_true, if_false]
    by_cases hin : (Capability_value "GLOBAL_ROOT").getD 0 ∈ m.Capabilities
    · rw [setEntityCapability_held c Capability_value emds e "GLOBAL_ROOT" m hm hin]
      refine ⟨_, e, rfl, rfl, hload, ?_, rfl, rfl, le_refl _, ?_, ?_⟩
      · simp only [Entity.GetCapabilities, hm]
        exact hin
      · intro x hx
        exact ⟨x, hx, rfl⟩
      · intro y hy
        exact ⟨y, hy, rfl⟩
    · rw [setEntityCapability_appends hsave emds e "GLOBAL_ROOT" m hm (by decide) hin]
      have hid' : (appendCapability e m ((Capability_value "GLOBAL_ROOT").getD 0)).GetID = ID := by
        rw [← hid]
        rfl
      refine ⟨_, appendCapability e m ((Capability_value "GLOBAL_ROOT").getD 0), rfl, rfl, ?_, ?_,
        rfl, rfl, ?_, ?_, ?_⟩
      · have := LoadEntity_upsert emds.db
          (appendCapability e m ((Capability_value "GLOBAL_ROOT").getD 0))
        rw [hid'] at this
        exact this
      · simp [Entity.GetCapabilities, appendCapability]
      · show (upsert emds.db _).length ≤ emds.db.length
        unfold upsert
        rw [List.length_append, List.length_singleton]
        have hlt : (emds.db.filter (fun x => decide (x.GetID ≠
            (appendCapability e m ((Capability_value "GLOBAL_ROOT").getD 0)).GetID))).length <
            emds.db.length := by
          rw [List.length_filter_lt_length_iff_exists]
          exact ⟨e, hmem, by simp [hid', hid]⟩
        exact hlt
      · intro x hx
        rcases mem_upsert hx with h | h
        · exact ⟨x, h, rfl⟩
        · exact ⟨e, hmem, by rw [h, hid', hid]⟩
      · intro y hy
        by_cases hy' : y.GetID = ID
        · refine ⟨appendCapability e m ((Capability_value "GLOBAL_ROOT").getD 0), ?_, ?_⟩
          · show _ ∈ upsert emds.db _
            unfold upsert
            simp
          · rw [hid', hy']
        · refine ⟨y, ?_, rfl⟩
          show y ∈ upsert emds.db _
          unfold upsert
          rw [List.mem_append, List.mem_filter]
          exact Or.inl ⟨hy, by simpa [hid'] using hy'⟩
  · intro n ss hid hnum hn hss
    have hload : LoadEntity (emds.db ++ [⟨some ID, some n, some ss, some {}⟩]) ID =
        Except.ok ⟨some ID, some n, some ss, some {}⟩ := LoadEntity_append_fresh hid rfl
    have hrepl : upsert (emds.db ++ [⟨some ID, some n, some ss, some {}⟩])
        ⟨some ID, some n, some ss,
          some { Capabilities := [(Capability_value "GLOBAL_ROOT").getD 0] }⟩ =
        emds.db ++ [⟨some ID, some n, some ss,
          some { Capabilities := [(Capability_value "GLOBAL_ROOT").getD 0] }⟩] :=
      upsert_replace_last hid rfl
    unfold MakeBootstrap
    simp only [hlatch, LoadEntity_of_not_mem hid, newEntity_fresh hsave hid hnum hn hss,
      Bool.false_eq_true, if_false]
    unfold setEntityCapabilityByID
    simp only [hload]
    rw [setEntityCapability_appends hsave _ _ "GLOBAL_ROOT" {} rfl (by decide)
      (List.not_mem_nil _)]
    simp only [appendCapability, List.nil_append, hrepl]

/-- Witness for C24: on the store that holds `foo`, bootstrapping `foo` grants it
the super-capability and keeps its number and secret; bootstrapping `root`
on the same store adds the entity `root` with number 2. -/
theorem MakeBootstrap_grants_witness :
    (∃ r e', MakeBootstrap sampleCollaborators sampleCapabilityValue sampleStore "foo" "pw" =
          some r ∧
        r.bootstrap_done = true ∧
        LoadEntity r.db "foo" = Except.ok e' ∧
        (sampleCapabilityValue "GLOBAL_ROOT").getD 0 ∈ e'.GetCapabilities ∧
        e'.Number = fooEntity.Number ∧ e'.Secret = fooEntity.Secret ∧
        r.db.length ≤ sampleStore.db.length ∧
        (∀ x ∈ r.db, ∃ y ∈ sampleStore.db, y.GetID = x.GetID) ∧
        (∀ y ∈ sampleStore.db, ∃ x ∈ r.db, x.GetID = y.GetID)) ∧
      MakeBootstrap sampleCollaborators sampleCapabilityValue sampleStore "root" "pw" =
        some ⟨[fooEntity, ⟨some "root", some 2, some "secured:pw",
          some { Capabilities := [0] }⟩], true⟩ :=
  ⟨(MakeBootstrap_grants sampleCollaborators sampleCapabilityValue sampleStore "foo" "pw" rfl
      (fun _ _ => rfl)).1 fooEntity {} rfl rfl,
    (MakeBootstrap_grants sampleCollaborators sampleCapabilityValue sampleStore "root" "pw" rfl
      (fun _ _ => rfl)).2 2 "secured:pw" (by decide) (by decide) rfl rfl⟩

/-! ## The RPC facade: C25, C26 -/

theorem switchErr_trace {σ : Type} (trace : List Call) (out : σ × List String × Option Error) :
    (switchErr trace out).trace = trace := by
  unfold switchErr
  split <;> rfl

/-- C26. The checks of `EntityUM`: (a) an action outside READ, UPSERT, CLEAREXACT,
CLEARFUZZY returns `ErrMalformedRequest` with no call made and the world
untouched; (b) a mutating action on a read-only server returns `ErrReadOnly`
with no call made, so without the token check; (c) a mutating action reaches
`ManageUntypedEntityMeta` exactly when the server is not read-only and the
token check and the authorization check for `MODIFY_ENTITY_META` both
succeed; (d) a READ goes to the engine as its only call, with the context of
the caller, whatever the flag and the token. -/
theorem EntityUM_guards_engine {Ctx σ : Type} (s : Server Ctx σ) (Capability_MODIFY_ENTITY_META : Int)
    (w : σ) (ctx : Ctx) (r : KVRequest) :
    (r.Action ≠ Action.READ → r.Action ≠ Action.UPSERT → r.Action ≠ Action.CLEAREXACT →
        r.Action ≠ Action.CLEARFUZZY →
        EntityUM s Capability_MODIFY_ENTITY_META w ctx r =
          ⟨w, [], [], some Error.ErrMalformedRequest⟩) ∧
      (r.Action = Action.UPSERT ∨ r.Action = Action.CLEAREXACT ∨ r.Action = Action.CLEARFUZZY →
        (s.readonly = true →
          EntityUM s Capability_MODIFY_ENTITY_META w ctx r = ⟨w, [], [], some Error.ErrReadOnly⟩) ∧
        ((EntityUM s Capability_MODIFY_ENTITY_META w ctx r).reachedEngine ↔
          s.readonly = false ∧ (s.checkToken ctx).2 = none ∧
            s.isAuthorized (s.checkToken ctx).1 Capability_MODIFY_ENTITY_META = none)) ∧
      (r.Action = Action.READ →
        EntityUM s Capability_MODIFY_ENTITY_META w ctx r =
          switchErr [Call.ManageUntypedEntityMeta r.Target Action.READ r.Key r.Value]
            (s.ManageUntypedEntityMeta w ctx r.Target Action.READ r.Key r.Value)) := by
  refine ⟨?_, ?_, ?_⟩
  · intro h1 h2 h3 h4
    unfold EntityUM
    rw [if_pos ⟨h1, h2, h3, h4⟩]
  · intro hact
    have hshape : ¬ (r.Action ≠ Action.READ ∧ r.Action ≠ Action.UPSERT ∧
        r.Action ≠ Action.CLEAREXACT ∧ r.Action ≠ Action.CLEARFUZZY) := by
      rcases hact with h | h | h <;> simp [h]
    have hmut : r.Action ≠ Action.READ := by
      rcases hact with h | h | h <;> simp [h]
    constructor
    · intro hro
      unfold EntityUM
      rw [if_neg hshape, if_pos hmut, if_pos hro]
    · unfold EntityUM
      rw [if_neg hshape, if_pos hmut]
      cases hro : s.readonly with
      | true => simp [FacadeResult.reachedEngine]
      | false =>
        simp only [Bool.false_eq_true, if_false, true_and]
        rcases hct : s.checkToken ctx with ⟨ctx', terr⟩
        cases terr with
        | some err => simp [FacadeResult.reachedEngine, Call.isEngine]
        | none =>
          simp only
          cases hauth : s.isAuthorized ctx' Capability_MODIFY_ENTITY_META with
          | some err => simp [FacadeResult.reachedEngine, Call.isEngine]
          | none =>
            simp [FacadeResult.reachedEngine, switchErr_trace, Call.isEngine]
  · intro hread
    unfold EntityUM
    rw [if_neg (by simp [hread]), if_neg (by simp [hread]), hread]

/-- Witness for C26: on the sample server a request with action ADD is malformed;
an UPSERT on the read-only server gets `ErrReadOnly`; an UPSERT by `admin`
reaches the engine; a READ without a token on the read-only server is
answered by the engine. -/
theorem EntityUM_guards_engine_witness :
    EntityUM (sampleServer false) 7 [] (some "admin") ⟨"alice", Action.ADD, "k", "v"⟩ =
        ⟨[], [], [], some Error.ErrMalformedRequest⟩ ∧
      EntityUM (sampleServer true) 7 [] (some "admin") ⟨"alice", Action.UPSERT, "k", "v"⟩ =
        ⟨[], [], [], some Error.ErrReadOnly⟩ ∧
      (EntityUM (sampleServer false) 7 [] (some "admin")
        ⟨"alice", Action.UPSERT, "k", "v"⟩).reachedEngine ∧
      EntityUM (sampleServer true) 7 [("alice", "k")] none ⟨"alice", Action.READ, "k", ""⟩ =
        ⟨[("alice", "k")], [Call.ManageUntypedEntityMeta "alice" Action.READ "k" ""], ["k"],
          none⟩ :=
  ⟨(EntityUM_guards_engine (sampleServer false) 7 [] (some "admin") ⟨"alice", Action.ADD, "k", "v"⟩).1
      (by decide) (by decide) (by decide) (by decide),
    ((EntityUM_guards_engine (sampleServer true) 7 [] (some "admin")
      ⟨"alice", Action.UPSERT, "k", "v"⟩).2.1 (Or.inl rfl)).1 rfl,
    ((EntityUM_guards_engine (sampleServer false) 7 [] (some "admin")
      ⟨"alice", Action.UPSERT, "k", "v"⟩).2.1 (Or.inl rfl)).2.mpr ⟨rfl, rfl, rfl⟩,
    (EntityUM_guards_engine (sampleServer true) 7 [("alice", "k")] none
      ⟨"alice", Action.READ, "k", ""⟩).2.2 rfl⟩

/-- Counterexample for C25: on the sample server, which is not read-only, `alice`
holds a token and is not authorized for `MODIFY_ENTITY_KEYS`; the request to
ADD a key to `alice` reaches `UpdateEntityKeys` all the same and the key is
stored. -/
theorem EntityKeys_self_service :
    (sampleServer false).isAuthorized ((sampleServer false).checkToken (some "alice")).1 8 =
        some (Error.other "unqualified") ∧
      EntityKeys (sampleServer false) 8 [] (some "alice") ⟨"alice", Action.ADD, "", "ssh-key"⟩ =
        ⟨[("alice", "ssh-key")],
          [Call.checkToken, Call.isAuthorized 8, Call.UpdateEntityKeys "alice" Action.ADD "" "ssh-key"],
          ["ssh-key"], none⟩ ∧
      ¬ EntityKeysGuarded (sampleServer false) 8 [] (some "alice")
        ⟨"alice", Action.ADD, "", "ssh-key"⟩ := by
  refine ⟨by decide, by decide, ?_⟩
  intro h
  have := h (Or.inl rfl) ⟨Call.UpdateEntityKeys "alice" Action.ADD "" "ssh-key", by decide, rfl⟩
  revert this
  decide

/-- C25, amended. The checks of `EntityKeys`: a request with action ADD or DROP
reaches `UpdateEntityKeys` exactly when the server is not read-only, the token
check succeeded, and either the authorization check for `MODIFY_ENTITY_KEYS`
succeeded or the entity of the token is the target of the request. -/
theorem EntityKeys_reaches_engine_iff {Ctx σ : Type} (s : Server Ctx σ) (Capability_MODIFY_ENTITY_KEYS : Int)
    (w : σ) (ctx : Ctx) (r : KVRequest) (hact : r.Action = Action.ADD ∨ r.Action = Action.DROP) :
    (EntityKeys s Capability_MODIFY_ENTITY_KEYS w ctx r).reachedEngine ↔
      s.readonly = false ∧ (s.checkToken ctx).2 = none ∧
        (s.isAuthorized (s.checkToken ctx).1 Capability_MODIFY_ENTITY_KEYS = none ∨
          s.tokenEntityID (s.checkToken ctx).1 = r.Target) := by
  have hshape : ¬ (r.Action ≠ Action.READ ∧ r.Action ≠ Action.ADD ∧
      r.Action ≠ Action.DROP) := by
    rcases hact with h | h <;> simp [h]
  have hmut : r.Action ≠ Action.READ := by
    rcases hact with h | h <;> simp [h]
  unfold EntityKeys
  rw [if_neg hshape, if_pos hmut]
  cases hro : s.readonly with
  | true => simp [FacadeResult.reachedEngine]
  | false =>
    simp only [Bool.false_eq_true, if_false, true_and]
    rcases hct : s.checkToken ctx with ⟨ctx', terr⟩
    cases terr with
    | some err => simp [FacadeResult.reachedEngine, Call.isEngine]
    | none =>
      simp only
      cases hauth : s.isAuthorized ctx' Capability_MODIFY_ENTITY_KEYS with
      | some err =>
        by_cases hself : s.tokenEntityID ctx' = r.Target
        · simp [FacadeResult.reachedEngine, switchErr_trace, Call.isEngine, hself]
        · simp [FacadeResult.reachedEngine, Call.isEngine, hself]
      | none =>
        simp [FacadeResult.reachedEngine, switchErr_trace, Call.isEngine]

/-- Witness for C25, amended: `bob`, who is not authorized, does not reach the
engine with a request on `alice`; `alice` does. -/
theorem EntityKeys_reaches_engine_iff_witness :
    ¬ (EntityKeys (sampleServer false) 8 [] (some "bob")
        ⟨"alice", Action.ADD, "", "ssh-key"⟩).reachedEngine ∧
      (EntityKeys (sampleServer false) 8 [] (some "alice")
        ⟨"alice", Action.ADD, "", "ssh-key"⟩).reachedEngine :=
  ⟨fun h => absurd ((EntityKeys_reaches_engine_iff (sampleServer false) 8 [] (some "bob")
      ⟨"alice", Action.ADD, "", "ssh-key"⟩ (Or.inl rfl)).mp h) (by decide),
    (EntityKeys_reaches_engine_iff (sampleServer false) 8 [] (some "alice")
      ⟨"alice", Action.ADD, "", "ssh-key"⟩ (Or.inl rfl)).mpr ⟨rfl, rfl, Or.inr rfl⟩⟩

/-! ## The hook `check-expansion-cycles`: C21 -/

theorem LoadGroup_ok {db : GroupStore} {name : String} {g : Group}
    (h : LoadGroup db name = Except.ok g) : g ∈ db ∧ g.GetName = name := by
  unfold LoadGroup at h
  split at h
  · rename_i g' hf
    injection h with h
    subst h
    exact ⟨List.mem_of_find?_eq_some hf, by simpa using List.find?_some hf⟩
  · cases h

theorem LoadGroup_SaveGroup_same (db : GroupStore) (g : Group) :
    LoadGroup (SaveGroup db g) g.GetName = Except.ok g := by
  unfold LoadGroup SaveGroup
  rw [List.find?_append]
  have : (db.filter (fun x => decide (x.GetName ≠ g.GetName))).find?
      (fun x => decide (x.GetName = g.GetName)) = none := by
    rw [List.find?_eq_none]
    intro x hx
    rw [List.mem_filter] at hx
    simpa using hx.2
  rw [this]
  simp

theorem LoadGroup_SaveGroup_other (db : GroupStore) (g : Group) {name : String}
    (hne : name ≠ g.GetName) : LoadGroup (SaveGroup db g) name = LoadGroup db name := by
  unfold LoadGroup SaveGroup
  have hfilter : ∀ xs : List Group,
      (xs.filter (fun x => decide (x.GetName ≠ g.GetName))).find?
        (fun x => decide (x.GetName = name)) = xs.find? (fun x => decide (x.GetName = name)) := by
    intro xs
    induction xs with
    | nil => rfl
    | cons x xs ih =>
      by_cases hxg : x.GetName = g.GetName
      · have hx : ¬ x.GetName = name := by
          rw [hxg]
          exact Ne.symm hne
        rw [List.filter_cons_of_neg (by simpa using hxg),
          List.find?_cons_of_neg _ (by simpa using hx)]
        exact ih
      · rw [List.filter_cons_of_pos (by simpa using hxg)]
        by_cases hx : x.GetName = name
        · rw [List.find?_cons_of_pos _ (by simpa using hx),
            List.find?_cons_of_pos _ (by simpa using hx)]
        · rw [List.find?_cons_of_neg _ (by simpa using hx),
            List.find?_cons_of_neg _ (by simpa using hx)]
          exact ih
  have hlast : [g].find? (fun x => decide (x.GetName = name)) = none := by
    simp [Ne.symm hne]
  rw [List.find?_append, hfilter, hlast]
  simp

/-- The search answers `true` whenever the stored groups hold a path from the
group it starts at to the candidate, whatever the depth guard. -/
theorem checkGroupCyclesDepth_of_path (db : GroupStore) (candidate : String) (depth : Nat) :
    ∀ (h : String) (hGroup : Group), LoadGroup db h = Except.ok hGroup →
      IncludePath db h candidate → checkGroupCyclesDepth db candidate depth hGroup = true := by
  induction depth with
  | zero =>
    intro h hGroup _ _
    rfl
  | succ depth ih =>
    intro h hGroup hload hpath
    obtain ⟨c, hedge, hrest⟩ := Relation.TransGen.head'_iff.mp hpath
    obtain ⟨grp, hload', hmem⟩ := hedge
    rw [hload] at hload'
    injection hload' with hload'
    subst hload'
    unfold checkGroupCyclesDepth
    rw [List.any_eq_true]
    refine ⟨⟨ExpansionMode.INCLUDE, c⟩, hmem, ?_⟩
    simp only [decide_True, Bool.true_and, Bool.or_eq_true, decide_eq_true_eq]
    by_cases hc : c = candidate
    · exact Or.inl hc
    · right
      rcases Relation.reflTransGen_iff_eq_or_transGen.mp hrest with heq | hpath'
      · exact absurd heq.symm hc
      · cases hl : LoadGroup db c with
        | error err => rfl
        | ok child => exact ih c child hl hpath'

theorem checkGroupCycles_of_path {db : GroupStore} {candidate h : String} {hGroup : Group}
    (hload : LoadGroup db h = Except.ok hGroup) (hpath : IncludePath db h candidate) :
    checkGroupCycles db hGroup candidate = true :=
  checkGroupCyclesDepth_of_path db candidate db.length h hGroup hload hpath

/-- The loop rejects a delta that holds an INCLUDE of a group with a path to the
working group. -/
theorem CheckExpansionCycles_loop_rejects (db : GroupStore) (g : Group) (h : String)
    (hpath : IncludePath db h g.GetName) (exps : List Expansion)
    (hmem : ⟨ExpansionMode.INCLUDE, h⟩ ∈ exps) :
    CheckExpansionCycles.loop db g exps ≠ none := by
  induction exps with
  | nil => cases hmem
  | cons exp rest ih =>
    unfold CheckExpansionCycles.loop
    rcases List.mem_cons.mp hmem with heq | hrest
    · subst heq
      obtain ⟨c, ⟨grp, hload, _⟩, _⟩ := Relation.TransGen.head'_iff.mp hpath
      simp only [ne_eq, not_true_eq_false, if_false, hload]
      rw [if_pos (Or.inr (checkGroupCycles_of_path hload hpath))]
      simp
    · split
      · exact ih hrest
      · split
        · simp
        · split
          · simp
          · exact ih hrest

/-- What the hook has checked when it accepts the delta `INCLUDE:h`: `h` is
stored, is not the working group, and has no path to the working group. -/
theorem CheckExpansionCycles_accepts {db : GroupStore} {g : Group} {h : String} {name : String}
    (hacc : CheckExpansionCycles.Run db g
      { Name := some name, Expansions := [⟨ExpansionMode.INCLUDE, h⟩] } = none) :
    h ≠ g.GetName ∧ ¬ IncludePath db h g.GetName := by
  unfold CheckExpansionCycles.Run CheckExpansionCycles.loop at hacc
  simp only [ne_eq, not_true_eq_false, if_false] at hacc
  split at hacc
  · cases hacc
  · rename_i child hload
    split at hacc
    · cases hacc
    · rename_i hno
      rw [not_or] at hno
      refine ⟨hno.1, fun hpath => hno.2 ?_⟩
      exact checkGroupCycles_of_path hload hpath

/-- The INCLUDE edges after an accepted addition are the old ones and the new
one. -/
theorem IncludeEdge_SaveGroup {db : GroupStore} {g h : String} {grp : Group}
    (hload : LoadGroup db g = Except.ok grp) {a b : String}
    (hedge : IncludeEdge
      (SaveGroup db { grp with Expansions := grp.Expansions ++ [⟨ExpansionMode.INCLUDE, h⟩] })
      a b) :
    IncludeEdge db a b ∨ (a = g ∧ b = h) := by
  have hname : ({ grp with Expansions := grp.Expansions ++ [⟨ExpansionMode.INCLUDE, h⟩] } :
      Group).GetName = g := (LoadGroup_ok hload).2
  obtain ⟨grp', hload', hmem⟩ := hedge
  by_cases ha : a = g
  · subst ha
    have hsame := LoadGroup_SaveGroup_same db
      { grp with Expansions := grp.Expansions ++ [⟨ExpansionMode.INCLUDE, h⟩] }
    rw [hname] at hsame
    rw [hsame] at hload'
    injection hload' with hload'
    subst hload'
    simp only [List.mem_append, List.mem_singleton, Expansion.mk.injEq, true_and] at hmem
    rcases hmem with hold | hnew
    · exact Or.inl ⟨grp, hload, hold⟩
    · exact Or.inr ⟨rfl, hnew⟩
  · rw [LoadGroup_SaveGroup_other db _ (by rw [hname]; exact ha)] at hload'
    exact Or.inl ⟨grp', hload', hmem⟩

/-- A path in a graph with one edge more either is a path of the old graph or
runs through the new edge. -/
theorem path_through_new_edge {R R' : String → String → Prop} {g h : String}
    (hedge : ∀ a b, R' a b → R a b ∨ (a = g ∧ b = h)) {x y : String}
    (hpath : Relation.TransGen R' x y) :
    Relation.TransGen R x y ∨ (Relation.ReflTransGen R x g ∧ Relation.ReflTransGen R h y) := by
  induction hpath with
  | single hxy =>
    rcases hedge _ _ hxy with hold | ⟨hx, hy⟩
    · exact Or.inl (Relation.TransGen.single hold)
    · subst hx
      subst hy
      exact Or.inr ⟨Relation.ReflTransGen.refl, Relation.ReflTransGen.refl⟩
  | tail _ hzy ih =>
    rcases hedge _ _ hzy with hold | ⟨hz, hy⟩
    · rcases ih with hxz | ⟨hxg, hhz⟩
      · exact Or.inl (Relation.TransGen.tail hxz hold)
      · exact Or.inr ⟨hxg, Relation.ReflTransGen.tail hhz hold⟩
    · subst hz
      subst hy
      rcases ih with hxz | ⟨hxg, _⟩
      · exact Or.inr ⟨hxz.to_reflTransGen, Relation.ReflTransGen.refl⟩
      · exact Or.inr ⟨hxg, Relation.ReflTransGen.refl⟩

/-- One addition, accepted or refused, keeps the INCLUDE graph acyclic. -/
theorem addInclude_acyclic (db : GroupStore) (g h : String) (hac : Acyclic db) :
    Acyclic (addInclude db g h).1 := by
  unfold addInclude
  split
  · exact hac
  · rename_i grp hload
    split
    · exact hac
    · rename_i hacc
      obtain ⟨hne, hnopath⟩ := CheckExpansionCycles_accepts hacc
      rw [(LoadGroup_ok hload).2] at hne hnopath
      intro a hcycle
      rcases path_through_new_edge (fun a b => IncludeEdge_SaveGroup hload) hcycle with
        hold | ⟨hag, hha⟩
      · exact hac a hold
      · rcases Relation.reflTransGen_iff_eq_or_transGen.mp (hha.trans hag) with heq | hpath
        · exact hne heq.symm
        · exact hnopath hpath

theorem addIncludes_acyclic (adds : List (String × String)) :
    ∀ db : GroupStore, Acyclic db → Acyclic (addIncludes db adds) := by
  induction adds with
  | nil =>
    intro db hac
    exact hac
  | cons add rest ih =>
    intro db hac
    obtain ⟨g, h⟩ := add
    exact ih _ (addInclude_acyclic db g h hac)

theorem threeGroups_acyclic : Acyclic threeGroups := by
  intro a hcycle
  obtain ⟨c, ⟨grp, hload, hmem⟩, _⟩ := Relation.TransGen.head'_iff.mp hcycle
  have hin := (LoadGroup_ok hload).1
  have hnone : ∀ x ∈ threeGroups, x.Expansions = [] := by decide
  rw [hnone grp hin] at hmem
  cases hmem

/-- The model of the hook agrees with its test file: a DROP directive passes, an
INCLUDE of an unknown group gives `ErrUnknownGroup`, an INCLUDE that closes a
direct cycle gives `ErrExistingExpansion`; the search reports a direct loop,
reports an unloadable group, and accepts once every group is stored. -/
theorem CheckExpansionCycles_agrees_with_tests :
    CheckExpansionCycles.Run [] {} { Expansions := [⟨ExpansionMode.DROP, "somegroup"⟩] } = none ∧
      CheckExpansionCycles.Run [] {} { Expansions := [⟨ExpansionMode.INCLUDE, "somegroup"⟩] } =
        some Error.ErrUnknownGroup ∧
      CheckExpansionCycles.Run
          [{ Name := some "group2", Expansions := [⟨ExpansionMode.INCLUDE, "group1"⟩] }]
          { Name := some "group1" } { Expansions := [⟨ExpansionMode.INCLUDE, "group2"⟩] } =
        some Error.ErrExistingExpansion ∧
      checkGroupCycles
          [{ Name := some "group1", Expansions := [⟨ExpansionMode.INCLUDE, "group2"⟩] }]
          { Name := some "group1", Expansions := [⟨ExpansionMode.INCLUDE, "group2"⟩] }
          "group2" = true ∧
      checkGroupCycles
          [{ Name := some "group1", Expansions := [⟨ExpansionMode.INCLUDE, "group2"⟩] },
            { Name := some "group2", Expansions := [⟨ExpansionMode.INCLUDE, "group3"⟩] }]
          { Name := some "group1", Expansions := [⟨ExpansionMode.INCLUDE, "group2"⟩] }
          "group4" = true ∧
      checkGroupCycles
          [{ Name := some "group1", Expansions := [⟨ExpansionMode.INCLUDE, "group2"⟩] },
            { Name := some "group2", Expansions := [⟨ExpansionMode.INCLUDE, "group3"⟩] },
            { Name := some "group3" }]
          { Name := some "group1", Expansions := [⟨ExpansionMode.INCLUDE, "group2"⟩] }
          "group4" = false := by
  refine ⟨by decide, by decide, by decide, by decide, by decide, by decide⟩

/-- C21. Cycle rejection by `check-expansion-cycles`: (a) for every store, working
group `g` and group `h`, when the stored groups hold a path of one or more
INCLUDE expansions from `h` to `g`, the hook returns `ErrExistingExpansion`
on the delta `INCLUDE:h`, and returns an error on every delta that holds
`INCLUDE:h`; (b) an INCLUDE of the working group itself, when it is stored, is
rejected with `ErrExistingExpansion`; (c) starting from an acyclic INCLUDE
graph, an addition the hook accepts leaves the graph acyclic, and so does
every sequence of additions. -/
theorem CheckExpansionCycles_keeps_acyclic (db : GroupStore) :
    (∀ (g : Group) (h : String), IncludePath db h g.GetName →
        CheckExpansionCycles.Run db g { Expansions := [⟨ExpansionMode.INCLUDE, h⟩] } =
          some Error.ErrExistingExpansion ∧
        ∀ dg : Group, ⟨ExpansionMode.INCLUDE, h⟩ ∈ dg.Expansions →
          CheckExpansionCycles.Run db g dg ≠ none) ∧
      (∀ (g grp : Group), LoadGroup db g.GetName = Except.ok grp →
        CheckExpansionCycles.Run db g { Expansions := [⟨ExpansionMode.INCLUDE, g.GetName⟩] } =
          some Error.ErrExistingExpansion) ∧
      (Acyclic db →
        (∀ (g h : String) (db' : GroupStore), addInclude db g h = (db', none) → Acyclic db') ∧
        ∀ adds : List (String × String), Acyclic (addIncludes db adds)) := by
  refine ⟨?_, ?_, ?_⟩
  · intro g h hpath
    constructor
    · obtain ⟨c, ⟨grp, hload, _⟩, _⟩ := Relation.TransGen.head'_iff.mp hpath
      unfold CheckExpansionCycles.Run CheckExpansionCycles.loop
      simp only [ne_eq, not_true_eq_false, if_false, hload]
      rw [if_pos (Or.inr (checkGroupCycles_of_path hload hpath))]
    · intro dg hmem
      exact CheckExpansionCycles_loop_rejects db g h hpath dg.Expansions hmem
  · intro g grp hload
    unfold CheckExpansionCycles.Run CheckExpansionCycles.loop
    simp only [ne_eq, not_true_eq_false, if_false, hload, true_or, if_true]
  · intro hac
    constructor
    · intro g h db' hadd
      have := addInclude_acyclic db g h hac
      rw [hadd] at this
      exact this
    · intro adds
      exact addIncludes_acyclic adds db hac

/-- Witness for C21: on three stored groups without expansions the additions
group1 includes group2 and group2 includes group3 are accepted; then group1
has a path to group3, so `INCLUDE:group1` in group3 is rejected, and the graph
after the three additions is acyclic. -/
theorem CheckExpansionCycles_keeps_acyclic_witness :
    addIncludes threeGroups [("group1", "group2"), ("group2", "group3")] = chainedGroups ∧
      IncludePath chainedGroups "group1" "group3" ∧
      CheckExpansionCycles.Run chainedGroups { Name := some "group3" }
          { Expansions := [⟨ExpansionMode.INCLUDE, "group1"⟩] } =
        some Error.ErrExistingExpansion ∧
      Acyclic (addIncludes threeGroups
        [("group1", "group2"), ("group2", "group3"), ("group3", "group1")]) :=
  have hedge12 : IncludeEdge chainedGroups "group1" "group2" :=
    ⟨{ Name := some "group1", Expansions := [⟨ExpansionMode.INCLUDE, "group2"⟩] }, rfl,
      by decide⟩
  have hedge23 : IncludeEdge chainedGroups "group2" "group3" :=
    ⟨{ Name := some "group2", Expansions := [⟨ExpansionMode.INCLUDE, "group3"⟩] }, rfl,
      by decide⟩
  have hpath : IncludePath chainedGroups "group1" "group3" :=
    Relation.TransGen.tail (Relation.TransGen.single hedge12) hedge23
  ⟨by decide, hpath,
    ((CheckExpansionCycles_keeps_acyclic chainedGroups).1 { Name := some "group3" } "group1"
      hpath).1,
    ((CheckExpansionCycles_keeps_acyclic threeGroups).2.2 threeGroups_acyclic).2
      [("group1", "group2"), ("group2", "group3"), ("group3", "group1")]⟩

end NetAuth
